import Mathlib

/-!
# The user-space process schedulers of `task-4-process-scheduler`

A shallow embedding of the four scheduler variants
(`scheduler.c`, `scheduler-shell.c`, `scheduler-prio-lab.c`, `scheduler-shell-prio.c`).

The C programs keep their tasks in a hand-written singly linked list of
`struct process_node`, reached from global pointers.  The embedding keeps that
representation: memory is a table of cells, a pointer is `Option Nat`
(`none` is `NULL`), and every handler is a function from machine state to an
outcome.  The signals the scheduler sends and the alarms it sets are recorded,
in order, in the `out` component of the state.
-/

namespace Sched

/-! ## Memory, effects and outcomes -/

/-- The signals the schedulers send with `kill(2)`. -/
inductive Signal where
  | SIGSTOP
  | SIGCONT
  | SIGKILL
deriving DecidableEq, Repr

/-- What the scheduler does to the outside world: `alarm(sec)` and `kill(pid, sig)`. -/
inductive Effect where
  | alarm (sec : Nat)
  | kill (pid : Int) (sig : Signal)
deriving DecidableEq, Repr

/-- The three kinds of wait status the handlers tell apart:
`WIFEXITED`, `WIFSIGNALED` and `WIFSTOPPED`. -/
inductive Status where
  | exited
  | signaled
  | stopped
deriving DecidableEq, Repr

/-- The list node `struct process_node`.  `P` is the type of the `prio` field:
`Char` in the two priority variants, `Unit` in `scheduler.c` and
`scheduler-shell.c`, whose struct has no such field. -/
structure process_node (P : Type) where
  pid : Int
  prio : P
  id : Int
  next : Option Nat
deriving DecidableEq, Repr

/-- The machine state of a scheduler: the heap cells handed out by `malloc`
(a freed cell holds `none`), the global variables `g` of the program and the
effects emitted so far, oldest first. -/
structure Machine (G P : Type) where
  mem : List (Option (process_node P))
  g : G
  out : List Effect
deriving DecidableEq, Repr

/-- How a piece of scheduler code ends: it returns a value, it calls `exit(code)`,
it dereferences `NULL` or a freed cell (`fault`, undefined behaviour in C), it
loops for ever (`hang`), or it is the child side of a `fork` that goes on to
`execve` (`exec`).  The state at that point is kept. -/
inductive Run (σ α : Type) where
  | ok (a : α)
  | exit (code : Int) (s : σ)
  | fault (s : σ)
  | hang (s : σ)
  | exec (s : σ)
deriving DecidableEq, Repr

/-- Sequencing of outcomes: only a normal return goes on. -/
def Run.bind {σ α β : Type} (x : Run σ α) (f : α → Run σ β) : Run σ β :=
  match x with
  | .ok a => f a
  | .exit c s => .exit c s
  | .fault s => .fault s
  | .hang s => .hang s
  | .exec s => .exec s

instance {σ : Type} : Monad (Run σ) where
  pure := Run.ok
  bind := Run.bind

/-- The cell of memory `m` a pointer designates, if the pointer is not `NULL`
and the cell is live. -/
def cell {P : Type} (m : List (Option (process_node P))) (p : Option Nat) :
    Option (process_node P) :=
  match p with
  | none => none
  | some a => (m[a]?).join

namespace Machine

variable {G P : Type}

/-- Reading through a pointer, `p->...`. -/
def load (s : Machine G P) (p : Option Nat) : Run (Machine G P) (process_node P) :=
  match cell s.mem p with
  | some n => .ok n
  | none => .fault s

/-- Overwriting the node a pointer designates. -/
def store (s : Machine G P) (p : Option Nat) (n : process_node P) :
    Run (Machine G P) (Machine G P) :=
  match p, cell s.mem p with
  | some a, some _ => .ok { s with mem := s.mem.set a (some n) }
  | _, _ => .fault s

/-- The assignment `p->next = v`. -/
def set_next (s : Machine G P) (p v : Option Nat) : Run (Machine G P) (Machine G P) := do
  let n ← s.load p
  s.store p { n with next := v }

/-- The assignment `p->pid = v`. -/
def set_pid (s : Machine G P) (p : Option Nat) (v : Int) : Run (Machine G P) (Machine G P) := do
  let n ← s.load p
  s.store p { n with pid := v }

/-- The assignment `p->id = v`. -/
def set_id (s : Machine G P) (p : Option Nat) (v : Int) : Run (Machine G P) (Machine G P) := do
  let n ← s.load p
  s.store p { n with id := v }

/-- The assignment `p->prio = v`. -/
def set_prio (s : Machine G P) (p : Option Nat) (v : P) : Run (Machine G P) (Machine G P) := do
  let n ← s.load p
  s.store p { n with prio := v }

/-- A successful `malloc(sizeof(struct process_node))`: a fresh cell whose
contents `junk` are indeterminate. -/
def malloc (s : Machine G P) (junk : process_node P) : Machine G P × Option Nat :=
  ({ s with mem := s.mem ++ [some junk] }, some s.mem.length)

/-- The call `free(p)`: `free(NULL)` does nothing, freeing a cell twice is a fault. -/
def free (s : Machine G P) (p : Option Nat) : Run (Machine G P) (Machine G P) :=
  match p, cell s.mem p with
  | none, _ => .ok s
  | some a, some _ => .ok { s with mem := s.mem.set a none }
  | some _, none => .fault s

/-- Record an effect. -/
def emit (s : Machine G P) (e : Effect) : Machine G P :=
  { s with out := s.out ++ [e] }

/-- Replace the global variables. -/
def setg (s : Machine G P) (g : G) : Machine G P :=
  { s with g := g }

/-- The bound on list walks: a walk that visits more cells than the heap holds
has entered a cycle and never ends. -/
def fuel (s : Machine G P) : Nat :=
  s.mem.length + 1

/-- The loop `while (current != NULL) { ...; current = current -> next; }` of
`sched_print_tasks`, which reads the fields of every node it prints. -/
def print_loop (s : Machine G P) : Nat → Option Nat → Run (Machine G P) Unit
  | 0, _ => .hang s
  | _ + 1, none => .ok ()
  | f + 1, some a => do
    let n ← s.load (some a)
    print_loop s f n.next

/-- The search loop of `sched_kill_task_by_id` in the variants with one list,
from `current`: the first node with the id is sent `SIGKILL` and the loop is
left; reaching `NULL` only prints a message. -/
def kill_loop (s : Machine G P) (id : Int) : Nat → Option Nat → Run (Machine G P) (Machine G P)
  | 0, _ => .hang s
  | _ + 1, none => .ok s
  | f + 1, some a => do
    let n ← s.load (some a)
    if n.id = id then pure (s.emit (.kill n.pid .SIGKILL))
    else kill_loop s id f n.next

/-- The loop `while (current != NULL) { if ((current -> id) > maxid) maxid =
current -> id; current = current -> next; }` that computes the largest id. -/
def maxid_loop (s : Machine G P) : Nat → Option Nat → Int → Run (Machine G P) Int
  | 0, _, _ => .hang s
  | _ + 1, none, maxid => .ok maxid
  | f + 1, some a, maxid => do
    let n ← s.load (some a)
    maxid_loop s f n.next (if n.id > maxid then n.id else maxid)

/-- The loop `while (current != NULL) { if (current -> id == id) { found = 1;
break; } current = current -> next; }` of `scheduler-shell-prio.c`: the value of
`current` when the loop is left, which is `NULL` when the id was not found. -/
def search_id (s : Machine G P) (id : Int) : Nat → Option Nat → Run (Machine G P) (Option Nat)
  | 0, _ => .hang s
  | _ + 1, none => .ok none
  | f + 1, some a => do
    let n ← s.load (some a)
    if n.id = id then pure (some a) else search_id s id f n.next

/-- The loop `while (current != NULL) { if (current -> pid == p) { found = 1;
break; } current = current -> next; pos++; }` of `scheduler-shell-prio.c`: the
values of `current` and `pos` when the loop is left, and whether it set `found`. -/
def search_pid (s : Machine G P) (p : Int) : Nat → Option Nat → Nat →
    Run (Machine G P) (Option Nat × Nat × Bool)
  | 0, _, _ => .hang s
  | _ + 1, none, pos => .ok (none, pos, false)
  | f + 1, some a, pos => do
    let n ← s.load (some a)
    if n.pid = p then pure (some a, pos, true) else search_pid s p f n.next (pos + 1)

/-- The loop `for (i = 1; i < pos; i++) prev = prev -> next;`, from `i`: the
value of `prev` when the loop is left. -/
def advance (s : Machine G P) : Nat → Option Nat → Run (Machine G P) (Option Nat)
  | 0, prev => .ok prev
  | k + 1, prev => do
    let n ← s.load prev
    advance s k n.next

/-- The loop `while (p != nxt -> pid) { prv = nxt; nxt = nxt -> next; }`. -/
def find_loop (s : Machine G P) (p : Int) : Nat → Option Nat → Option Nat →
    Run (Machine G P) (Option Nat × Option Nat)
  | 0, _, _ => .hang s
  | f + 1, prv, nxt => do
    let n ← s.load nxt
    if p ≠ n.pid then find_loop s p f nxt n.next else pure (prv, nxt)

end Machine

/-- A task as the scheduler knows it: the payload of a list node. -/
structure task (P : Type) where
  pid : Int
  prio : P
  id : Int
deriving DecidableEq, Repr

/-- The node that holds task `t` and points to `nx`. -/
def task.node {P : Type} (t : task P) (nx : Option Nat) : process_node P :=
  { pid := t.pid, prio := t.prio, id := t.id, next := nx }

/-- The pointer to the first cell of a list of cells with their tasks. -/
def first {P : Type} (l : List (Nat × task P)) : Option Nat :=
  (l.head?).map Prod.fst

/-- The pointer to the last cell of a list of cells with their tasks. -/
def last {P : Type} (l : List (Nat × task P)) : Option Nat :=
  (l.getLast?).map Prod.fst

/-- The linked list segment from pointer `p` up to pointer `q`: following
`next` from `p` one meets the cells of `l` in order, each holding the task
paired with it, and the last of them points to `q`.  With `q = none` this is
a `NULL`-terminated list. -/
def Seg {P : Type} (m : List (Option (process_node P))) :
    Option Nat → List (Nat × task P) → Option Nat → Prop
  | p, [], q => p = q
  | p, (a, t) :: l, q =>
    p = some a ∧ ∃ nx, cell m (some a) = some (t.node nx) ∧ Seg m nx l q

/-- The opcode of a request of the shell.
Modelled from the spec: `request.h` is not among the sources; the opcodes are
LIST, KILL(id), SPAWN(path), RAISE(id) and LOWER(id) of the control-plane
protocol, and `other` stands for any value the `switch` has no case for. -/
inductive request_type where
  | REQ_PRINT_TASKS
  | REQ_KILL_TASK
  | REQ_EXEC_TASK
  | REQ_HIGH_TASK
  | REQ_LOW_TASK
  | other (n : Int)
deriving DecidableEq, Repr

/-- The request message `struct request_struct`.
Modelled from the spec: `request.h` is not among the sources; a request is an
opcode with an integer task id and a path argument. -/
structure request_struct where
  request_no : request_type
  task_arg : Int
  exec_task_arg : String
deriving DecidableEq, Repr

/-- The value of `ENOSYS` in `<errno.h>` on Linux. -/
def ENOSYS : Int := 38


/-! ## `scheduler-shell.c` : round-robin scheduler with a shell -/

namespace SchedulerShell

/-- The global variables `head` and `tail`. -/
structure Globals where
  head : Option Nat
  tail : Option Nat
deriving DecidableEq, Repr

/-- The state of `scheduler-shell.c`; its nodes have no `prio` field. -/
abbrev State := Machine Globals Unit

/-- The time quantum `SCHED_TQ_SEC`. -/
def SCHED_TQ_SEC : Nat := 7

/-- The function `sched_print_tasks`; what it prints is not recorded. -/
def sched_print_tasks (s : State) : Run State State := do
  s.print_loop s.fuel s.g.head
  pure s

/-- The function `sched_kill_task_by_id`: it ends with `return id`. -/
def sched_kill_task_by_id (s : State) (id : Int) : Run State (State × Int) := do
  let s1 ← s.kill_loop id s.fuel s.g.head
  pure (s1, id)

/-- The function `sched_create_task`, given the value `p` that `fork` returns
and the contents `junk` of the cell `malloc` hands out. -/
def sched_create_task (s : State) (p : Int) (junk : process_node Unit) : Run State State :=
  if p < 0 then .exit 1 s
  else if p = 0 then .exec s
  else do
    let (s, n) := s.malloc junk
    let s ← s.set_pid n p
    let maxid ← s.maxid_loop s.fuel s.g.head 0
    let s ← s.set_id n (maxid + 1)
    let s ← s.set_next s.g.tail n
    let s := s.setg { s.g with tail := n }
    s.set_next s.g.tail none

/-- The function `process_request`; `p` and `junk` are what `fork` and `malloc`
give when the request is `REQ_EXEC_TASK`. -/
def process_request (s : State) (rq : request_struct) (p : Int) (junk : process_node Unit) :
    Run State (State × Int) :=
  match rq.request_no with
  | .REQ_PRINT_TASKS => do
    let s ← sched_print_tasks s
    pure (s, 0)
  | .REQ_KILL_TASK => sched_kill_task_by_id s rq.task_arg
  | .REQ_EXEC_TASK => do
    let s ← sched_create_task s p junk
    pure (s, 0)
  | _ => pure (s, -ENOSYS)

/-- The function `sigalrm_handler`. -/
def sigalrm_handler (s : State) : Run State State :=
  if s.g.head ≠ s.g.tail then do
    let h ← s.load s.g.head
    pure (s.emit (.kill h.pid .SIGSTOP))
  else pure (s.emit (.alarm SCHED_TQ_SEC))

/-- The branch of `sigchld_handler` for `WIFEXITED(status) || WIFSIGNALED(status)`. -/
def on_death (s : State) (p : Int) : Run State State := do
  let nxt := s.g.head
  let h ← s.load s.g.head
  if p = h.pid then do
    let s := s.setg { s.g with head := h.next }
    let s ← s.free nxt
    if s.g.head = none then .exit 0 s
    else do
      let s := s.emit (.alarm SCHED_TQ_SEC)
      let h ← s.load s.g.head
      pure (s.emit (.kill h.pid .SIGCONT))
  else do
    let s := s.emit (.kill h.pid .SIGSTOP)
    let (prv, nxt) ← s.find_loop p s.fuel none nxt
    let n ← s.load nxt
    let s ← s.set_next prv n.next
    let pn ← s.load prv
    let s := if pn.next = none then s.setg { s.g with tail := prv } else s
    let s ← s.free nxt
    let h ← s.load s.g.head
    pure (s.emit (.kill h.pid .SIGCONT))

/-- The branch of `sigchld_handler` for `WIFSTOPPED(status)`. -/
def on_stop (s : State) (p : Int) : Run State State := do
  let h ← s.load s.g.head
  if p = h.pid then do
    let s ← s.set_next s.g.tail s.g.head
    let s := s.setg { s.g with tail := s.g.head }
    let h ← s.load s.g.head
    let s := s.setg { s.g with head := h.next }
    let s ← s.set_next s.g.tail none
    let s := s.emit (.alarm SCHED_TQ_SEC)
    let h ← s.load s.g.head
    pure (s.emit (.kill h.pid .SIGCONT))
  else pure s

/-- The body of the loop of `sigchld_handler` for one child `p > 0` that
`waitpid` reports with the given status. -/
def sigchld_step (s : State) (p : Int) (status : Status) : Run State State := do
  let s ← if status = .exited ∨ status = .signaled then on_death s p else pure s
  if status = .stopped then on_stop s p else pure s

/-- The function `sigchld_handler`: `evs` are the results of the successive
calls of `waitpid`; when they are used up `waitpid` returns 0. -/
def sigchld_handler (s : State) : List (Int × Status) → Run State State
  | [] => .ok s
  | (p, status) :: evs =>
    if p < 0 then .exit 1 s
    else if p = 0 then .ok s
    else do
      let s ← sigchld_step s p status
      sigchld_handler s evs

/-- One more iteration of the loop of `main` that creates the task with id `i`
from the pid `p` that `fork` returned to the parent. -/
def add_task (s : State) (p : Int) (i : Int) (junk : process_node Unit) : Run State State := do
  let (s, n) := s.malloc junk
  let s ← s.set_pid n p
  let s ← s.set_id n i
  let s ← s.set_next s.g.tail n
  let s := s.setg { s.g with tail := n }
  s.set_next s.g.tail none

/-- The loop `for (i = 1; i <= nproc; i++)` of `main`, from `i` on; each entry
of the list is the pid and the fresh cell of one task. -/
def add_tasks (s : State) : Int → List (Int × process_node Unit) → Run State State
  | _, [] => .ok s
  | i, (p, junk) :: rest => do
    let s ← add_task s p i junk
    add_tasks s (i + 1) rest

/-- The function `sched_create_shell`, in the parent: the shell gets id 0 and is
the only node of the list. -/
def sched_create_shell (p : Int) (junk : process_node Unit) : Run State State := do
  let s : State := { mem := [], g := { head := none, tail := none }, out := [] }
  let (s, n) := s.malloc junk
  let s ← s.set_pid n p
  let s ← s.set_id n 0
  let s := s.setg { head := n, tail := n }
  s.set_next s.g.tail none

/-- The function `main` up to the request loop: the shell, then one task per
argument, then the head is continued and the first alarm set. -/
def main (shell : Int × process_node Unit) (tasks : List (Int × process_node Unit)) :
    Run State State := do
  let s ← sched_create_shell shell.1 shell.2
  let s ← add_tasks s 1 tasks
  let h ← s.load s.g.head
  let s := s.emit (.kill h.pid .SIGCONT)
  pure (s.emit (.alarm SCHED_TQ_SEC))

/-- The registry of `scheduler-shell.c` is the list `l`: `head` leads through
the cells of `l` to `NULL`, and `tail` is the last of them. -/
def Holds (s : State) (l : List (Nat × task Unit)) : Prop :=
  Seg s.mem s.g.head l none ∧ s.g.tail = last l

end SchedulerShell

end Sched


namespace Sched

namespace SchedulerShell

/-- A registry of three tasks with ids 1, 2, 3, the first of them at the head. -/
def ex3 : State :=
  { mem := [some ⟨101, (), 1, some 1⟩, some ⟨102, (), 2, some 2⟩, some ⟨103, (), 3, none⟩],
    g := { head := some 0, tail := some 2 },
    out := [] }

end SchedulerShell

end Sched

namespace Sched

/-- The value the `maxid` loop computes on a list of tasks, from `acc`. -/
def maxid_of {P : Type} (l : List (Nat × task P)) (acc : Int) : Int :=
  l.foldl (fun m x => if x.2.id > m then x.2.id else m) acc

/-- The ids of a list of cells with their tasks. -/
def ids {P : Type} (l : List (Nat × task P)) : List Int :=
  l.map (fun x => x.2.id)

/-- The pids of a list of cells with their tasks. -/
def pids {P : Type} (l : List (Nat × task P)) : List Int :=
  l.map (fun x => x.2.pid)

end Sched

namespace Sched

namespace SchedulerShell

/-- What happens to the scheduler once `main` has set it up: a request of the
shell (with what `fork` and `malloc` give if it is `REQ_EXEC_TASK`), the alarm
signal, or the child signal with the children `waitpid` then reports. -/
inductive Event where
  | request (rq : request_struct) (p : Int) (junk : process_node Unit)
  | sigalrm
  | sigchld (evs : List (Int × Status))

/-- The handling of one event. -/
def step (s : State) : Event → Run State State
  | .request rq p junk => do
    let r ← process_request s rq p junk
    pure r.1
  | .sigalrm => sigalrm_handler s
  | .sigchld evs => sigchld_handler s evs

/-- The states the scheduler can be in between two events: the state `main`
sets up from the shell and the tasks of the command line, and every state a
handler returns to from such a state. -/
inductive Reachable : State → Prop where
  | init (shell : Int × process_node Unit) (tasks : List (Int × process_node Unit)) (s : State) :
      main shell tasks = .ok s → Reachable s
  | step (s s2 : State) (e : Event) : Reachable s → step s e = .ok s2 → Reachable s2

/-- A registry with the single task 7. -/
def ex1 : State :=
  { mem := [some ⟨107, (), 7, none⟩], g := { head := some 0, tail := some 0 }, out := [] }

end SchedulerShell

end Sched

namespace Sched

namespace SchedulerShell

/-- The state `main` sets up for a shell with pid 100 and one task with pid 101. -/
def ex_init : State :=
  { mem := [some ⟨100, (), 0, some 1⟩, some ⟨101, (), 1, none⟩],
    g := { head := some 0, tail := some 1 },
    out := [.kill 100 .SIGCONT, .alarm SCHED_TQ_SEC] }

end SchedulerShell

end Sched

/-! ## `scheduler.c` : the plain round-robin scheduler -/

namespace Sched

namespace Scheduler

/-- The global variables `head` and `tail`. -/
structure Globals where
  head : Option Nat
  tail : Option Nat
deriving DecidableEq, Repr

/-- The state of `scheduler.c`; its nodes have no `prio` field. -/
abbrev State := Machine Globals Unit

/-- The time quantum `SCHED_TQ_SEC`. -/
def SCHED_TQ_SEC : Nat := 10

/-- The function `sigalrm_handler`: the head is stopped unless it is alone. -/
def sigalrm_handler (s : State) : Run State State :=
  if s.g.head ≠ s.g.tail then do
    let h ← s.load s.g.head
    pure (s.emit (.kill h.pid .SIGSTOP))
  else pure s

/-- The branch of `sigchld_handler` for `WIFEXITED(status) || WIFSIGNALED(status)`. -/
def on_death (s : State) (p : Int) : Run State State := do
  let nxt := s.g.head
  let h ← s.load s.g.head
  if p = h.pid then do
    let s := s.setg { s.g with head := h.next }
    let s ← s.free nxt
    if s.g.head = none then .exit 0 s
    else pure (s.emit (.alarm SCHED_TQ_SEC))
  else do
    let s := s.emit (.kill h.pid .SIGSTOP)
    let (prv, nxt) ← s.find_loop p s.fuel none nxt
    let n ← s.load nxt
    let s ← s.set_next prv n.next
    let pn ← s.load prv
    let s := if pn.next = none then s.setg { s.g with tail := prv } else s
    s.free nxt

/-- The branch of `sigchld_handler` for `WIFSTOPPED(status)`: the head is moved
behind the tail, whichever child was stopped. -/
def on_stop (s : State) : Run State State := do
  let s ← s.set_next s.g.tail s.g.head
  let s := s.setg { s.g with tail := s.g.head }
  let h ← s.load s.g.head
  let s := s.setg { s.g with head := h.next }
  let s ← s.set_next s.g.tail none
  pure (s.emit (.alarm SCHED_TQ_SEC))

/-- The body of the loop of `sigchld_handler` for one child `p > 0` that
`waitpid` reports with the given status; it ends with
`kill(head -> pid, SIGCONT)`. -/
def sigchld_step (s : State) (p : Int) (status : Status) : Run State State := do
  let s ← if status = .exited ∨ status = .signaled then on_death s p else pure s
  let s ← if status = .stopped then on_stop s else pure s
  let h ← s.load s.g.head
  pure (s.emit (.kill h.pid .SIGCONT))

/-- The function `sigchld_handler`: `evs` are the results of the successive
calls of `waitpid`; when they are used up `waitpid` returns 0. -/
def sigchld_handler (s : State) : List (Int × Status) → Run State State
  | [] => .ok s
  | (p, status) :: evs =>
    if p < 0 then .exit 1 s
    else if p = 0 then .ok s
    else do
      let s ← sigchld_step s p status
      sigchld_handler s evs

/-- The registry of `scheduler.c` is the list `l`: `head` leads through the
cells of `l` to `NULL`, and `tail` is the last of them. -/
def Holds (s : State) (l : List (Nat × task Unit)) : Prop :=
  Seg s.mem s.g.head l none ∧ s.g.tail = last l

/-- A registry of two tasks, the task with id 1 and pid 201 at the head. -/
def ex2 : State :=
  { mem := [some ⟨201, (), 1, some 1⟩, some ⟨202, (), 2, none⟩],
    g := { head := some 0, tail := some 1 },
    out := [] }

end Scheduler

end Sched

/-! ## `scheduler-shell-prio.c` : two queues, HIGH and LOW -/

namespace Sched

namespace SchedulerShellPrio

/-- The global variables: `head` and `tail` of the LOW queue, `highhead` and
`hightail` of the HIGH queue. -/
structure Globals where
  head : Option Nat
  tail : Option Nat
  highhead : Option Nat
  hightail : Option Nat
deriving DecidableEq, Repr

/-- The state of `scheduler-shell-prio.c`; `prio` is a `char`. -/
abbrev State := Machine Globals Char

/-- The time quantum `SCHED_TQ_SEC`. -/
def SCHED_TQ_SEC : Nat := 7

/-- The function `sched_print_tasks`: it walks the HIGH queue, then the LOW
queue; what it prints is not recorded. -/
def sched_print_tasks (s : State) : Run State State := do
  s.print_loop s.fuel s.g.highhead
  s.print_loop s.fuel s.g.head
  pure s

/-- The function `sched_kill_task_by_id`: the HIGH queue is searched when it
is not empty, else the LOW queue; it ends with `return id`. -/
def sched_kill_task_by_id (s : State) (id : Int) : Run State (State × Int) := do
  let current ←
    if s.g.highhead ≠ none then s.search_id id s.fuel s.g.highhead
    else s.search_id id s.fuel s.g.head
  if current ≠ none then do
    let c ← s.load current
    pure (s.emit (.kill c.pid .SIGKILL), id)
  else pure (s, id)

/-- The function `sched_create_task`, given the value `p` that `fork` returns:
the parent only forks, the insertion into the list is commented out. -/
def sched_create_task (s : State) (p : Int) : Run State State :=
  if p < 0 then .exit 1 s
  else if p = 0 then .exec s
  else pure s

/-- The loop of `sched_high_task` and `sched_low_task` that looks for the id
from the second node on and unlinks the node it finds:
`while (current != NULL) { if (current -> id == id) { found = 1; prev -> next =
current -> next; break; } prev = prev -> next; current = current -> next; }`.
The result is the state, `current` and `found`. -/
def unlink_loop (s : State) (id : Int) : Nat → Option Nat → Option Nat →
    Run State (State × Option Nat × Bool)
  | 0, _, _ => .hang s
  | _ + 1, _, none => .ok (s, none, false)
  | f + 1, prev, some a => do
    let c ← s.load (some a)
    if c.id = id then do
      let s ← s.set_next prev c.next
      pure (s, some a, true)
    else do
      let pn ← s.load prev
      unlink_loop s id f pn.next c.next

/-- The function `sched_high_task`. -/
def sched_high_task (s : State) (id : Int) : Run State (State × Int) := do
  let head_was_running : Bool := s.g.highhead = none
  let (s, current, found, self_was_running) ←
    if s.g.head ≠ none then do
      let h ← s.load s.g.head
      if s.g.head = s.g.tail ∧ h.id = id then
        pure (s.setg { s.g with head := none, tail := none }, s.g.head, true, head_was_running)
      else if s.g.head ≠ s.g.tail ∧ h.id = id then
        pure (s.setg { s.g with head := h.next }, s.g.head, true, head_was_running)
      else do
        let (s, current, found) ← unlink_loop s id s.fuel s.g.head h.next
        let h ← s.load s.g.head
        let s := if h.next = none then s.setg { s.g with tail := s.g.head } else s
        pure (s, current, found, false)
    else pure (s, none, false, false)
  if found then do
    let _ ← s.load current
    let s ←
      if s.g.highhead = none then do
        let s := s.setg { s.g with highhead := current, hightail := current }
        let s ← s.set_next s.g.hightail none
        let s := s.emit (.alarm 0)
        if s.g.head ≠ none ∧ ¬ self_was_running then do
          let h ← s.load s.g.head
          pure (s.emit (.kill h.pid .SIGSTOP))
        else pure s
      else do
        let s ← s.set_next s.g.hightail current
        let s := s.setg { s.g with hightail := current }
        s.set_next s.g.hightail none
    let s ← s.set_prio current 'h'
    pure (s, 0)
  else pure (s, 0)

/-- The function `sched_low_task`. -/
def sched_low_task (s : State) (id : Int) : Run State (State × Int) := do
  let (s, current, found) ←
    if s.g.highhead ≠ none then do
      let h ← s.load s.g.highhead
      if s.g.highhead = s.g.hightail ∧ h.id = id then
        pure (s.setg { s.g with highhead := none, hightail := none }, s.g.highhead, true)
      else if s.g.highhead ≠ s.g.hightail ∧ h.id = id then
        pure (s.setg { s.g with highhead := h.next }, s.g.highhead, true)
      else unlink_loop s id s.fuel s.g.highhead h.next
    else pure (s, none, false)
  if found then do
    let s ←
      if s.g.head = none then pure (s.setg { s.g with head := current, tail := current })
      else do
        let s ← s.set_next s.g.tail current
        pure (s.setg { s.g with tail := current })
    let s ← s.set_next current none
    let s ← s.set_prio current 'l'
    pure (s, 0)
  else pure (s, 0)

/-- The function `process_request`; `p` is what `fork` gives when the request
is `REQ_EXEC_TASK`. -/
def process_request (s : State) (rq : request_struct) (p : Int) : Run State (State × Int) :=
  match rq.request_no with
  | .REQ_PRINT_TASKS => do
    let s ← sched_print_tasks s
    pure (s, 0)
  | .REQ_KILL_TASK => sched_kill_task_by_id s rq.task_arg
  | .REQ_EXEC_TASK => do
    let s ← sched_create_task s p
    pure (s, 0)
  | .REQ_HIGH_TASK => do
    let r ← sched_high_task s rq.task_arg
    pure (r.1, 0)
  | .REQ_LOW_TASK => do
    let r ← sched_low_task s rq.task_arg
    pure (r.1, 0)
  | .other _ => pure (s, -ENOSYS)

/-- The function `sigalrm_handler`: the heads of both queues are stopped. -/
def sigalrm_handler (s : State) : Run State State := do
  let s ←
    if s.g.highhead ≠ none then do
      let h ← s.load s.g.highhead
      pure (s.emit (.kill h.pid .SIGSTOP))
    else pure s
  if s.g.head ≠ none then do
    let h ← s.load s.g.head
    pure (s.emit (.kill h.pid .SIGSTOP))
  else pure s

/-- The local variables of `sigchld_handler` that keep their value from one
iteration of its loop to the next: they are initialised once, where they are
declared. -/
structure Locals where
  current : Option Nat
  found : Bool
  pos : Nat
  maxid : Int
deriving DecidableEq, Repr

/-- The block of `sigchld_handler` guarded by `found && (current -> prio == 'h')`. -/
def high_block (s : State) (v : Locals) : Run State State := do
  if v.pos = 0 then do
    let hh ← s.load s.g.highhead
    if hh.next = none then do
      let s := s.setg { s.g with highhead := none, hightail := none }
      let s ← s.free v.current
      if s.g.head ≠ none then do
        let s := s.emit (.alarm SCHED_TQ_SEC)
        let h ← s.load s.g.head
        pure (s.emit (.kill h.pid .SIGCONT))
      else .exit 0 s
    else do
      let s := s.setg { s.g with highhead := hh.next }
      let s ← s.free v.current
      let s := s.emit (.alarm SCHED_TQ_SEC)
      let h ← s.load s.g.highhead
      pure (s.emit (.kill h.pid .SIGCONT))
  else do
    let prev ← s.advance (v.pos - 1) s.g.highhead
    let _ ← s.load prev
    let c ← s.load v.current
    let s ← s.set_next prev c.next
    let s := if v.pos ≤ 1 then s.setg { s.g with hightail := s.g.highhead } else s
    s.free v.current

/-- The block of `sigchld_handler` that follows
`else if (found && (current -> prio == 'l'));`: the `;` ends the `if`, so the
block runs for every child that exited or was killed. -/
def low_block (s : State) (v : Locals) : Run State State := do
  if v.pos = 0 then do
    let h ← s.load s.g.head
    if h.next = none then do
      let s := s.setg { s.g with head := none, tail := none }
      let s ← s.free v.current
      if s.g.highhead ≠ none then do
        let s := s.emit (.alarm SCHED_TQ_SEC)
        let hh ← s.load s.g.highhead
        pure (s.emit (.kill hh.pid .SIGCONT))
      else .exit 0 s
    else do
      let s := s.setg { s.g with head := h.next }
      let s ← s.free v.current
      if s.g.highhead ≠ none then do
        let s := s.emit (.alarm SCHED_TQ_SEC)
        let hh ← s.load s.g.highhead
        pure (s.emit (.kill hh.pid .SIGCONT))
      else .exit 0 s
  else do
    let prev ← s.advance (v.pos - 1) s.g.head
    let _ ← s.load prev
    let c ← s.load v.current
    let s ← s.set_next prev c.next
    let s := if v.pos ≤ 1 then s.setg { s.g with tail := s.g.head } else s
    s.free v.current

/-- The branch of `sigchld_handler` for `WIFEXITED(status) || WIFSIGNALED(status)`. -/
def on_death (s : State) (v : Locals) (p : Int) : Run State (State × Locals) := do
  let v ←
    if s.g.highhead ≠ none then do
      let (c, pos, hit) ← s.search_pid p s.fuel s.g.highhead 0
      pure { v with current := c, pos := pos, found := v.found || hit }
    else if ¬ v.found then do
      let (c, pos, hit) ← s.search_pid p s.fuel s.g.head 0
      pure { v with current := c, pos := pos, found := v.found || hit }
    else pure v
  let s ←
    if v.found then do
      let c ← s.load v.current
      if c.prio = 'h' then high_block s v else pure s
    else pure s
  let s ← low_block s v
  pure (s, v)

/-- The part of the `WIFSTOPPED` branch for a stopped child that is not in the
lists: it is a new task, which gets a node at the tail of the LOW queue. -/
def adopt (s : State) (v : Locals) (p : Int) (junk : process_node Char) :
    Run State (State × Locals) := do
  let (s, n) := s.malloc junk
  let s ← s.set_pid n p
  let m ← s.maxid_loop s.fuel s.g.head v.maxid
  let m ← s.maxid_loop s.fuel s.g.highhead m
  let s ← s.set_id n (m + 1)
  let s ← s.set_prio n 'l'
  let s ←
    if s.g.head = none then pure (s.setg { s.g with head := n, tail := n })
    else do
      let s ← s.set_next s.g.tail n
      pure (s.setg { s.g with tail := n })
  let s ← s.set_next s.g.tail none
  pure (s, { v with current := none, maxid := m })

/-- The branch of `sigchld_handler` for `WIFSTOPPED(status)`. -/
def on_stop (s : State) (v : Locals) (p : Int) (junk : process_node Char) :
    Run State (State × Locals) := do
  let _ ← s.load s.g.head
  let v ←
    if s.g.highhead ≠ none then do
      let (c, pos, hit) ← s.search_pid p s.fuel s.g.highhead 0
      pure { v with current := c, pos := pos, found := v.found || hit }
    else pure v
  let v ←
    if ¬ v.found then do
      let (c, pos, hit) ← s.search_pid p s.fuel s.g.head 0
      pure { v with current := c, pos := pos, found := v.found || hit }
    else pure v
  if v.found then do
    let _ ← s.load v.current
    if v.pos = 0 then
      if s.g.highhead ≠ none then do
        let hh ← s.load s.g.highhead
        if p = hh.pid then do
          let s ← s.set_next s.g.hightail s.g.highhead
          let s := s.setg { s.g with hightail := s.g.highhead }
          let hh ← s.load s.g.highhead
          let s := s.setg { s.g with highhead := hh.next }
          let s := s.emit (.alarm SCHED_TQ_SEC)
          let hh ← s.load s.g.highhead
          let nx ← s.load hh.next
          pure (s.emit (.kill nx.pid .SIGCONT), v)
        else do
          let s := s.emit (.alarm SCHED_TQ_SEC)
          let s := s.emit (.kill hh.pid .SIGCONT)
          if s.g.head ≠ s.g.tail then do
            let s ← s.set_next s.g.tail s.g.head
            let s := s.setg { s.g with tail := s.g.head }
            let h ← s.load s.g.head
            pure (s.setg { s.g with head := h.next }, v)
          else pure (s, v)
      else do
        let h ← s.load s.g.head
        if p = h.pid then do
          let s ← s.set_next s.g.tail s.g.head
          let s := s.setg { s.g with tail := s.g.head }
          let h ← s.load s.g.head
          let s := s.setg { s.g with head := h.next }
          let s ← s.set_next s.g.tail none
          let s := s.emit (.alarm SCHED_TQ_SEC)
          let h ← s.load s.g.head
          pure (s.emit (.kill h.pid .SIGCONT), v)
        else pure (s, v)
    else pure (s, v)
  else adopt s v p junk

/-- The body of the loop of `sigchld_handler` for one child `p > 0` that
`waitpid` reports with the given status; `junk` is the cell `malloc` hands
out if the branch for a new task is taken. -/
def sigchld_step (s : State) (v : Locals) (p : Int) (status : Status)
    (junk : process_node Char) : Run State (State × Locals) := do
  let (s, v) ← if status = .exited ∨ status = .signaled then on_death s v p else pure (s, v)
  if status = .stopped then on_stop s v p junk else pure (s, v)

/-- The loop of `sigchld_handler`, with the local variables as they stand. -/
def sigchld_loop (s : State) (v : Locals) :
    List (Int × Status × process_node Char) → Run State State
  | [] => .ok s
  | (p, status, junk) :: evs =>
    if p < 0 then .exit 1 s
    else if p = 0 then .ok s
    else do
      let (s, v) ← sigchld_step s v p status junk
      sigchld_loop s v evs

/-- The function `sigchld_handler`: `evs` are the results of the successive
calls of `waitpid`, each with the cell `malloc` would hand out; when they are
used up `waitpid` returns 0.  The local variables start as they are declared:
`current = NULL, found = 0, pos = 0, maxid = 0`. -/
def sigchld_handler (s : State) (evs : List (Int × Status × process_node Char)) :
    Run State State :=
  sigchld_loop s { current := none, found := false, pos := 0, maxid := 0 } evs

/-- The registry of `scheduler-shell-prio.c`: the HIGH queue is the list `hi`
from `highhead`, the LOW queue the list `lo` from `head`; `hightail` and `tail`
are their last cells (`NULL` for an empty queue). -/
def Holds (s : State) (hi lo : List (Nat × task Char)) : Prop :=
  Seg s.mem s.g.highhead hi none ∧ s.g.hightail = last hi ∧
  Seg s.mem s.g.head lo none ∧ s.g.tail = last lo

end SchedulerShellPrio

end Sched

namespace Sched

namespace SchedulerShellPrio

/-- A registry with task 1 in the HIGH queue and task 2 in the LOW queue. -/
def ex_hl : State :=
  { mem := [some ⟨301, 'h', 1, none⟩, some ⟨302, 'l', 2, none⟩],
    g := { head := some 1, tail := some 1, highhead := some 0, hightail := some 0 },
    out := [] }

/-- A registry with an empty HIGH queue and the tasks 1 and 2 in the LOW queue. -/
def ex_ll : State :=
  { mem := [some ⟨301, 'l', 1, some 1⟩, some ⟨302, 'l', 2, none⟩],
    g := { head := some 0, tail := some 1, highhead := none, hightail := none },
    out := [] }

/-- A registry with the tasks 1 and 2 in the HIGH queue and the tasks 3 and 4
in the LOW queue. -/
def ex_hhll : State :=
  { mem := [some ⟨301, 'h', 1, some 1⟩, some ⟨302, 'h', 2, none⟩,
            some ⟨303, 'l', 3, some 3⟩, some ⟨304, 'l', 4, none⟩],
    g := { head := some 2, tail := some 3, highhead := some 0, hightail := some 1 },
    out := [] }

end SchedulerShellPrio

end Sched

/-! ## `scheduler-prio-lab.c` : one list, its HIGH tasks first -/

namespace Sched

namespace SchedulerPrioLab

/-- The global variables: `head` and `tail` of the list, `hiend`, the last
HIGH node (`NULL` when no task is HIGH), and the flag `fixproblem`. -/
structure Globals where
  head : Option Nat
  tail : Option Nat
  hiend : Option Nat
  fixproblem : Int
deriving DecidableEq, Repr

/-- The state of `scheduler-prio-lab.c`; `prio` is a `char`. -/
abbrev State := Machine Globals Char

/-- The time quantum `SCHED_TQ_SEC`. -/
def SCHED_TQ_SEC : Nat := 7

/-- The function `sched_print_tasks`; what it prints is not recorded. -/
def sched_print_tasks (s : State) : Run State State := do
  s.print_loop s.fuel s.g.head
  pure s

/-- The function `sched_kill_task_by_id`: it ends with `return id`. -/
def sched_kill_task_by_id (s : State) (id : Int) : Run State (State × Int) := do
  let s1 ← s.kill_loop id s.fuel s.g.head
  pure (s1, id)

/-- The function `sched_create_task`, given the value `p` that `fork` returns
and the contents `junk` of the cell `malloc` hands out. -/
def sched_create_task (s : State) (p : Int) (junk : process_node Char) : Run State State :=
  if p < 0 then .exit 1 s
  else if p = 0 then .exec s
  else do
    let (s, n) := s.malloc junk
    let s ← s.set_pid n p
    let maxid ← s.maxid_loop s.fuel s.g.head 0
    let s ← s.set_id n (maxid + 1)
    let s ← s.set_prio n 'l'
    let s ← s.set_next s.g.tail n
    let s := s.setg { s.g with tail := n }
    s.set_next s.g.tail none

/-- The loop of `sched_high_task` for an empty HIGH tier, from `prev` and
`current`: the node with the id is unlinked and put right behind the head.
The result is the state and the value of `current` when the loop is left. -/
def raise_first_loop (s : State) (id : Int) : Nat → Option Nat → Option Nat →
    Run State (State × Option Nat)
  | 0, _, _ => .hang s
  | _ + 1, _, none => .ok (s, none)
  | f + 1, prev, some a => do
    let c ← s.load (some a)
    if c.id = id then do
      let s ← s.set_prio (some a) 'h'
      let c ← s.load (some a)
      let s ← s.set_next prev c.next
      let s ←
        if some a = s.g.tail then do
          let s := s.setg { s.g with tail := prev }
          s.set_next s.g.tail none
        else pure s
      let h ← s.load s.g.head
      let s ← s.set_next (some a) h.next
      let s ← s.set_next s.g.head (some a)
      pure (s.setg { s.g with hiend := some a }, some a)
    else do
      let pn ← s.load prev
      raise_first_loop s id f pn.next c.next

/-- The loop of `sched_high_task` for a HIGH tier that is not empty, from
`prev` and `current`: the node with the id is unlinked and put right behind
`hiend`.  The result is the state, `current` when the loop is left, and
`found`. -/
def raise_loop (s : State) (id : Int) : Nat → Option Nat → Option Nat →
    Run State (State × Option Nat × Bool)
  | 0, _, _ => .hang s
  | _ + 1, _, none => .ok (s, none, false)
  | f + 1, prev, some a => do
    let c ← s.load (some a)
    if c.id = id then do
      let s ← s.set_prio (some a) 'h'
      let c ← s.load (some a)
      let s ← s.set_next prev c.next
      let s := if some a = s.g.tail then s.setg { s.g with tail := prev } else s
      let he ← s.load s.g.hiend
      let s ← s.set_next (some a) he.next
      let s ← s.set_next s.g.hiend (some a)
      pure (s.setg { s.g with hiend := some a }, some a, true)
    else do
      let pn ← s.load prev
      raise_loop s id f pn.next c.next

/-- The first statement of `sched_high_task`, the `if` chain on `hiend` that
moves the task: the result is the state with the values of `current`, `found`
and `hishell` after it. -/
def high_move (s : State) (id : Int) : Run State (State × Option Nat × Bool × Bool) :=
  if s.g.hiend = none then do
    let h ← s.load s.g.head
    if h.id = id then do
      let s ← s.set_prio s.g.head 'h'
      pure (s.setg { s.g with hiend := s.g.head }, s.g.head, true, false)
    else if s.g.head ≠ s.g.tail then do
      let s ← s.set_prio s.g.head 'h'
      let s := s.setg { s.g with hiend := s.g.head }
      let h ← s.load s.g.head
      let (s, current) ← raise_first_loop s id s.fuel s.g.head h.next
      pure (s, current, true, true)
    else pure (s, none, false, false)
  else do
    let he ← s.load s.g.hiend
    let last_is_it ←
      if he.next = s.g.tail then do
        let t ← s.load s.g.tail
        pure (decide (t.id = id))
      else pure false
    if last_is_it then do
      let s := s.setg { s.g with hiend := he.next }
      let s ← s.set_prio s.g.hiend 'h'
      pure (s, s.g.hiend, true, false)
    else do
      let (s, current, found) ← raise_loop s id s.fuel s.g.hiend he.next
      pure (s, current, found, false)

/-- The function `sched_high_task`: the move, then the messages, which read
`current` when `found` is set and the head when `hishell` is set. -/
def sched_high_task (s : State) (id : Int) : Run State (State × Int) := do
  let (s, current, found, hishell) ← high_move s id
  if found then do
    let _ ← s.load current
    if hishell then do
      let _ ← s.load s.g.head
      pure (s, 0)
    else pure (s, 0)
  else pure (s, 0)

/-- The loop `while (current != hiend -> next) { ... }` of `sched_low_task`,
from `prev` and `current`: the HIGH node with the id is unlinked and put behind
the tail.  The result is the state, `current` when the loop is left, and
`found`. -/
def lower_loop (s : State) (id : Int) : Nat → Option Nat → Option Nat →
    Run State (State × Option Nat × Bool)
  | 0, _, _ => .hang s
  | f + 1, prev, current => do
    let he ← s.load s.g.hiend
    if current = he.next then pure (s, current, false)
    else do
      let c ← s.load current
      if c.id = id then do
        let s ← s.set_prio current 'l'
        let c ← s.load current
        let s ← s.set_next prev c.next
        let s := if current = s.g.hiend then s.setg { s.g with hiend := prev } else s
        let s ← s.set_next s.g.tail current
        let s := s.setg { s.g with tail := current }
        let s ← s.set_next s.g.tail none
        pure (s, current, true)
      else do
        let pn ← s.load prev
        lower_loop s id f pn.next c.next

/-- The first statement of `sched_low_task`, the `if (hiend != NULL)` that
moves the task: the result is the state with the values of `current` and
`found` after it. -/
def low_move (s : State) (id : Int) : Run State (State × Option Nat × Bool) :=
  if s.g.hiend ≠ none then do
    let h ← s.load s.g.head
    if h.id = id ∧ s.g.head ≠ s.g.tail then do
      let s := s.setg { s.g with fixproblem := 1 }
      let s ← s.set_prio s.g.head 'l'
      let current := s.g.head
      let s := if current = s.g.hiend then s.setg { s.g with hiend := none } else s
      let s ← s.set_next s.g.tail s.g.head
      let s := s.setg { s.g with tail := s.g.head }
      let h ← s.load s.g.head
      let s := s.setg { s.g with head := h.next }
      let s ← s.set_next s.g.tail none
      pure (s, current, true)
    else if h.id = id ∧ s.g.head = s.g.hiend ∧ s.g.head = s.g.tail then do
      let s ← s.set_prio s.g.head 'l'
      pure (s.setg { s.g with hiend := none }, s.g.head, true)
    else if h.id ≠ id ∧ s.g.head ≠ s.g.hiend then
      lower_loop s id s.fuel s.g.head h.next
    else pure (s, none, false)
  else pure (s, none, false)

/-- The function `sched_low_task`: the move, then the messages, which read
`current` when `found` is set. -/
def sched_low_task (s : State) (id : Int) : Run State (State × Int) := do
  let (s, current, found) ← low_move s id
  if found then do
    let _ ← s.load current
    pure (s, 0)
  else pure (s, 0)

/-- The function `process_request`; `p` and `junk` are what `fork` and `malloc`
give when the request is `REQ_EXEC_TASK`. -/
def process_request (s : State) (rq : request_struct) (p : Int) (junk : process_node Char) :
    Run State (State × Int) :=
  match rq.request_no with
  | .REQ_PRINT_TASKS => do
    let s ← sched_print_tasks s
    pure (s, 0)
  | .REQ_KILL_TASK => sched_kill_task_by_id s rq.task_arg
  | .REQ_EXEC_TASK => do
    let s ← sched_create_task s p junk
    pure (s, 0)
  | .REQ_HIGH_TASK => do
    let r ← sched_high_task s rq.task_arg
    pure (r.1, 0)
  | .REQ_LOW_TASK => do
    let r ← sched_low_task s rq.task_arg
    pure (r.1, 0)
  | .other _ => pure (s, -ENOSYS)

/-- The function `sigalrm_handler`. -/
def sigalrm_handler (s : State) : Run State State :=
  if s.g.head = s.g.hiend ∨ (s.g.hiend = none ∧ s.g.head = s.g.tail) then
    pure (s.emit (.alarm SCHED_TQ_SEC))
  else if s.g.fixproblem = 1 then do
    let t ← s.load s.g.tail
    pure (s.emit (.kill t.pid .SIGSTOP))
  else do
    let h ← s.load s.g.head
    pure (s.emit (.kill h.pid .SIGSTOP))

/-- The loop of `DEATH CASE 3`, from `prev` and `current`: the node with the
pid is unlinked and freed. -/
def reap_loop (s : State) (p : Int) : Nat → Option Nat → Option Nat → Run State State
  | 0, _, _ => .hang s
  | _ + 1, _, none => .ok s
  | f + 1, prev, some a => do
    let c ← s.load (some a)
    if c.pid = p then do
      let s ← s.set_next prev c.next
      let s := if some a = s.g.hiend then s.setg { s.g with hiend := prev } else s
      let s := if some a = s.g.tail then s.setg { s.g with tail := prev } else s
      s.free (some a)
    else do
      let pn ← s.load prev
      reap_loop s p f pn.next c.next

/-- The branch of `sigchld_handler` for `WIFEXITED(status) || WIFSIGNALED(status)`. -/
def on_death (s : State) (p : Int) : Run State State := do
  let h ← s.load s.g.head
  if ((s.g.hiend ≠ none ∧ s.g.head ≠ s.g.hiend) ∨ (s.g.hiend = none ∧ s.g.head ≠ s.g.tail))
      ∧ h.pid = p then do
    let tmp := s.g.head
    let s := s.setg { s.g with head := h.next }
    let s ← s.free tmp
    let s := s.emit (.alarm SCHED_TQ_SEC)
    let h ← s.load s.g.head
    pure (s.emit (.kill h.pid .SIGCONT))
  else if s.g.hiend ≠ none ∧ s.g.head = s.g.hiend ∧ h.pid = p then do
    let he ← s.load s.g.hiend
    if he.next ≠ none then do
      let tmp := s.g.head
      let s := s.setg { s.g with head := h.next }
      let s ← s.free tmp
      let s := s.setg { s.g with hiend := none }
      let s := s.emit (.alarm SCHED_TQ_SEC)
      let h ← s.load s.g.head
      pure (s.emit (.kill h.pid .SIGCONT))
    else do
      let s ← s.free s.g.head
      .exit 0 (s.setg { s.g with head := none, hiend := none, tail := none })
  else if h.next ≠ none ∧ h.pid ≠ p then
    reap_loop s p s.fuel s.g.head h.next
  else if s.g.hiend = none ∧ s.g.head = s.g.tail ∧ h.pid = p then do
    let s ← s.free s.g.head
    .exit 0 (s.setg { s.g with head := none, hiend := none, tail := none })
  else pure s

/-- The branch of `sigchld_handler` for `WIFSTOPPED(status)`. -/
def on_stop (s : State) (p : Int) : Run State State := do
  if s.g.fixproblem = 1 then do
    let s := s.setg { s.g with fixproblem := 0 }
    let s := s.emit (.alarm SCHED_TQ_SEC)
    let h ← s.load s.g.head
    pure (s.emit (.kill h.pid .SIGCONT))
  else do
    let h ← s.load s.g.head
    if s.g.hiend ≠ none ∧ s.g.head ≠ s.g.hiend ∧ h.pid = p then do
      let he ← s.load s.g.hiend
      let tmp := he.next
      let s ← s.set_next s.g.hiend s.g.head
      let h ← s.load s.g.head
      let s := s.setg { s.g with head := h.next }
      let he ← s.load s.g.hiend
      let s := s.setg { s.g with hiend := he.next }
      let s ← s.set_next s.g.hiend tmp
      let s := s.emit (.alarm SCHED_TQ_SEC)
      let h ← s.load s.g.head
      pure (s.emit (.kill h.pid .SIGCONT))
    else if s.g.hiend = none ∧ s.g.head ≠ s.g.tail ∧ h.pid = p then do
      let s ← s.set_next s.g.tail s.g.head
      let h ← s.load s.g.head
      let s := s.setg { s.g with head := h.next }
      let t ← s.load s.g.tail
      let s := s.setg { s.g with tail := t.next }
      let s ← s.set_next s.g.tail none
      let s := s.emit (.alarm SCHED_TQ_SEC)
      let h ← s.load s.g.head
      pure (s.emit (.kill h.pid .SIGCONT))
    else if s.g.hiend ≠ none ∧ s.g.head = s.g.hiend ∧ h.pid = p then do
      let s := s.emit (.alarm SCHED_TQ_SEC)
      pure (s.emit (.kill h.pid .SIGCONT))
    else if s.g.hiend = none ∧ s.g.head = s.g.tail ∧ h.pid = p then do
      let s := s.emit (.alarm SCHED_TQ_SEC)
      pure (s.emit (.kill h.pid .SIGCONT))
    else pure s

/-- The body of the loop of `sigchld_handler` for one child `p > 0` that
`waitpid` reports with the given status. -/
def sigchld_step (s : State) (p : Int) (status : Status) : Run State State := do
  let s ← if status = .exited ∨ status = .signaled then on_death s p else pure s
  if status = .stopped then on_stop s p else pure s

/-- The function `sigchld_handler`: `evs` are the results of the successive
calls of `waitpid`; when they are used up `waitpid` returns 0. -/
def sigchld_handler (s : State) : List (Int × Status) → Run State State
  | [] => .ok s
  | (p, status) :: evs =>
    if p < 0 then .exit 1 s
    else if p = 0 then .ok s
    else do
      let s ← sigchld_step s p status
      sigchld_handler s evs

/-- One more iteration of the loop of `main` that creates the task with id `i`
from the pid `p` that `fork` returned to the parent. -/
def add_task (s : State) (p : Int) (i : Int) (junk : process_node Char) : Run State State := do
  let (s, n) := s.malloc junk
  let s ← s.set_pid n p
  let s ← s.set_id n i
  let s ← s.set_prio n 'l'
  let s ← s.set_next s.g.tail n
  let s := s.setg { s.g with tail := n }
  s.set_next s.g.tail none

/-- The loop `for (i = 1; i <= nproc; i++)` of `main`, from `i` on; each entry
of the list is the pid and the fresh cell of one task. -/
def add_tasks (s : State) : Int → List (Int × process_node Char) → Run State State
  | _, [] => .ok s
  | i, (p, junk) :: rest => do
    let s ← add_task s p i junk
    add_tasks s (i + 1) rest

/-- The function `sched_create_shell`, in the parent: the shell gets id 0, is
LOW and is the only node of the list. -/
def sched_create_shell (p : Int) (junk : process_node Char) : Run State State := do
  let s : State :=
    { mem := [], g := { head := none, tail := none, hiend := none, fixproblem := 0 }, out := [] }
  let (s, n) := s.malloc junk
  let s ← s.set_pid n p
  let s ← s.set_id n 0
  let s ← s.set_prio n 'l'
  let s := s.setg { s.g with head := n, tail := n }
  s.set_next s.g.tail none

/-- The function `main` up to the request loop: the shell, then one task per
argument, then the head is continued and the first alarm set. -/
def main (shell : Int × process_node Char) (tasks : List (Int × process_node Char)) :
    Run State State := do
  let s ← sched_create_shell shell.1 shell.2
  let s ← add_tasks s 1 tasks
  let h ← s.load s.g.head
  let s := s.emit (.kill h.pid .SIGCONT)
  pure (s.emit (.alarm SCHED_TQ_SEC))

end SchedulerPrioLab

end Sched

namespace Sched

/-! ## Which tasks are RUNNING

A task is RUNNING from the moment the scheduler sends it `SIGCONT` until the
scheduler sends it `SIGSTOP` or it exits.  The pids of the RUNNING tasks are
followed along the effects the handlers emit. -/

/-- The RUNNING pids after one effect. -/
def run_effect (r : List Int) : Effect → List Int
  | .kill pid .SIGCONT => if pid ∈ r then r else pid :: r
  | .kill pid .SIGSTOP => r.filter (fun q => q ≠ pid)
  | _ => r

/-- The RUNNING pids after a list of effects, oldest first. -/
def run_effects (r : List Int) (es : List Effect) : List Int :=
  es.foldl run_effect r

namespace SchedulerPrioLab

/-- What happens to the scheduler once `main` has set it up: a request of the
shell (with what `fork` and `malloc` give if it is `REQ_EXEC_TASK`), the alarm
signal, or the child signal for one child that `waitpid` reports. -/
inductive Event where
  | request (rq : request_struct) (p : Int) (junk : process_node Char)
  | sigalrm
  | sigchld (p : Int) (status : Status)
deriving DecidableEq, Repr

/-- The handling of one event by the scheduler. -/
def step (s : State) : Event → Run State State
  | .request rq p junk => do
    let r ← process_request s rq p junk
    pure r.1
  | .sigalrm => sigalrm_handler s
  | .sigchld p status => sigchld_handler s [(p, status)]

/-- The RUNNING pids when an event arrives: a child that is reported as exited
or killed runs no more. -/
def before (r : List Int) : Event → List Int
  | .sigchld p .exited => r.filter (fun q => q ≠ p)
  | .sigchld p .signaled => r.filter (fun q => q ≠ p)
  | _ => r

/-- One event: the state the handler returns to, and the RUNNING pids then. -/
def exec (sr : State × List Int) (e : Event) : Run State (State × List Int) := do
  let s2 ← step sr.1 e
  pure (s2, run_effects (before sr.2 e) (s2.out.drop sr.1.out.length))

/-- A sequence of events, each handler returning before the next event. -/
def exec_all (sr : State × List Int) : List Event → Run State (State × List Int)
  | [] => .ok sr
  | e :: es => do
    let sr2 ← exec sr e
    exec_all sr2 es

/-- The scheduler as `main` leaves it, with the RUNNING pids. -/
def start (shell : Int × process_node Char) (tasks : List (Int × process_node Char)) :
    Run State (State × List Int) := do
  let s ← main shell tasks
  pure (s, run_effects [] s.out)

/-- The states the scheduler can be in between two events, with the RUNNING
pids: what `main` sets up, and what a handler returns to from there. -/
inductive Reachable : State × List Int → Prop where
  | init (shell : Int × process_node Char) (tasks : List (Int × process_node Char))
      (sr : State × List Int) : start shell tasks = .ok sr → Reachable sr
  | step (sr sr2 : State × List Int) (e : Event) :
      Reachable sr → exec sr e = .ok sr2 → Reachable sr2

/-- The registry of `scheduler-prio-lab.c` is well formed, with HIGH tier `hi`
and LOW tier `lo`: `head` leads through the cells of `hi`, then those of `lo`,
to `NULL`; `tail` is the last cell of the list; `hiend` is the last cell of
`hi` (`NULL` when `hi` is empty); the tasks of `hi` have `prio` `'h'` and those
of `lo` have `prio` `'l'`. -/
def Holds (s : State) (hi lo : List (Nat × task Char)) : Prop :=
  Seg s.mem s.g.head (hi ++ lo) none ∧ s.g.tail = last (hi ++ lo) ∧ s.g.hiend = last hi ∧
  (∀ x ∈ hi, x.2.prio = 'h') ∧ (∀ x ∈ lo, x.2.prio = 'l')

/-- The pids of the tasks in the list from `head`, as far as the list can be
followed, that have the given `prio`. -/
def pids_with (s : State) (c : Char) : Nat → Option Nat → List Int
  | 0, _ => []
  | _ + 1, none => []
  | f + 1, some a =>
    match cell s.mem (some a) with
    | none => []
    | some n => (if n.prio = c then [n.pid] else []) ++ pids_with s c f n.next

/-- The LOW tasks of the list that are RUNNING. -/
def low_running (sr : State × List Int) : List Int :=
  (pids_with sr.1 'l' sr.1.fuel sr.1.g.head).filter (fun q => q ∈ sr.2)

/-- The request with the given opcode and task id. -/
def rq (op : request_type) (id : Int) : request_struct :=
  { request_no := op, task_arg := id, exec_task_arg := "" }

/-- The contents of a fresh cell in the examples. -/
def junk0 : process_node Char := ⟨0, 'l', 0, none⟩

end SchedulerPrioLab

end Sched

namespace Sched

namespace SchedulerPrioLab

/-- The scheduler started by `main` and taken through a sequence of events. -/
def run (shell : Int × process_node Char) (tasks : List (Int × process_node Char))
    (es : List Event) : Run State (State × List Int) := do
  let sr ← start shell tasks
  exec_all sr es

end SchedulerPrioLab

end Sched

namespace Sched

namespace SchedulerPrioLab

/-- The events `RAISE(1)`, `LOWER(0)`. -/
def c2_events : List Event :=
  [.request (rq .REQ_HIGH_TASK 1) 0 junk0, .request (rq .REQ_LOW_TASK 0) 0 junk0]

/-- The state after `c2_events` from the shell (pid 100) and the tasks 1, 2
(pids 101, 102): the list is task 1, task 2, shell; `hiend` is task 1. -/
def c2_state : State :=
  { mem := [some ⟨100, 'l', 0, none⟩, some ⟨101, 'h', 1, some 2⟩, some ⟨102, 'l', 2, some 0⟩],
    g := { head := some 1, tail := some 0, hiend := some 1, fixproblem := 1 },
    out := [.kill 100 .SIGCONT, .alarm SCHED_TQ_SEC] }

/-- The events `RAISE(1)`, `LOWER(0)`, `SPAWN` of a child with pid 103, and
the `stopped` notification of that child. -/
def c3_events : List Event :=
  [.request (rq .REQ_HIGH_TASK 1) 0 junk0, .request (rq .REQ_LOW_TASK 0) 0 junk0,
   .request (rq .REQ_EXEC_TASK 0) 103 junk0, .sigchld 103 .stopped]

/-- The state after `c3_events` from the shell (pid 100) and the tasks 1, 2
(pids 101, 102). -/
def c3_state : State :=
  { mem := [some ⟨100, 'l', 0, some 3⟩, some ⟨101, 'h', 1, some 2⟩, some ⟨102, 'l', 2, some 0⟩,
            some ⟨103, 'l', 3, none⟩],
    g := { head := some 1, tail := some 3, hiend := some 1, fixproblem := 0 },
    out := [.kill 100 .SIGCONT, .alarm SCHED_TQ_SEC, .alarm SCHED_TQ_SEC, .kill 101 .SIGCONT] }

end SchedulerPrioLab

end Sched

namespace Sched

namespace SchedulerPrioLab

/-- Between `s` and `s2` nothing was emitted and `head` and `fixproblem` are
as before. -/
def Quiet (s s2 : State) : Prop :=
  s2.g.head = s.g.head ∧ s2.g.fixproblem = s.g.fixproblem ∧ s2.out = s.out

/-- Between `s` and `s2` the cell `a`, if it is live, stays live and keeps its
pid and its tier. -/
def KeepsAt (a : Nat) (s s2 : State) : Prop :=
  ∀ n, cell s.mem (some a) = some n →
    ∃ n2, cell s2.mem (some a) = some n2 ∧ n2.pid = n.pid ∧ n2.prio = n.prio

/-- Between `s` and `s2` every live cell stays live and keeps its pid, and its
tier is as before or has become HIGH. -/
def Promotes (s s2 : State) : Prop :=
  ∀ a n, cell s.mem (some a) = some n →
    ∃ n2, cell s2.mem (some a) = some n2 ∧ n2.pid = n.pid ∧ (n2.prio = n.prio ∨ n2.prio = 'h')

/-- No task other than the head of the list is RUNNING. -/
def OnlyHeadRuns (s : State) (r : List Int) : Prop :=
  ∀ pid ∈ r, ∃ n, cell s.mem s.g.head = some n ∧ n.pid = pid

/-- Strict priority as the code keeps it: if the HIGH tier is not empty and no
demoted task is left running (`fixproblem = 0`), every RUNNING task is the head
of the list and is HIGH. -/
def StrictPriority (s : State) (r : List Int) : Prop :=
  s.g.fixproblem = 0 → s.g.hiend ≠ none →
    ∀ pid ∈ r, ∃ n, cell s.mem s.g.head = some n ∧ n.pid = pid ∧ n.prio = 'h'

end SchedulerPrioLab

end Sched

namespace Sched

namespace SchedulerPrioLab

/-- A registry with the HIGH tasks 1 and 2 (pids 101, 102) before the LOW shell
(pid 100), in which nothing has been emitted yet. -/
def c2_before : State :=
  { mem := [some ⟨100, 'l', 0, none⟩, some ⟨101, 'h', 1, some 2⟩, some ⟨102, 'h', 2, some 0⟩],
    g := { head := some 1, tail := some 0, hiend := some 2, fixproblem := 0 },
    out := [] }

/-- The state after the `stopped` notification of task 1 in `c2_before`: task 1
has gone behind task 2, which is continued. -/
def c2_after : State :=
  { mem := [some ⟨100, 'l', 0, none⟩, some ⟨101, 'h', 1, some 0⟩, some ⟨102, 'h', 2, some 1⟩],
    g := { head := some 2, tail := some 0, hiend := some 1, fixproblem := 0 },
    out := [.alarm SCHED_TQ_SEC, .kill 102 .SIGCONT] }

end SchedulerPrioLab

end Sched

namespace Sched

namespace SchedulerPrioLab

/-- The registry as `main` leaves it for the shell (pid 100, id 0) and the
tasks 1 and 2 (pids 101, 102): all LOW, the shell at the head and continued. -/
def lab_start : State :=
  { mem := [some ⟨100, 'l', 0, some 1⟩, some ⟨101, 'l', 1, some 2⟩, some ⟨102, 'l', 2, none⟩],
    g := { head := some 0, tail := some 2, hiend := none, fixproblem := 0 },
    out := [.kill 100 .SIGCONT, .alarm SCHED_TQ_SEC] }

/-- The state in which `sched_high_task(42)` faults from `lab_start`: the head
has been made HIGH and `hiend` set before `current`, which is `NULL`, is read. -/
def c17_state : State :=
  { mem := [some ⟨100, 'h', 0, some 1⟩, some ⟨101, 'l', 1, some 2⟩, some ⟨102, 'l', 2, none⟩],
    g := { head := some 0, tail := some 2, hiend := some 0, fixproblem := 0 },
    out := [.kill 100 .SIGCONT, .alarm SCHED_TQ_SEC] }

/-- The state after `sched_high_task(2)` from `lab_start`: the shell and task 2
are HIGH, in this order, before task 1. -/
def c14_state : State :=
  { mem := [some ⟨100, 'h', 0, some 2⟩, some ⟨101, 'l', 1, none⟩, some ⟨102, 'h', 2, some 1⟩],
    g := { head := some 0, tail := some 1, hiend := some 2, fixproblem := 0 },
    out := [.kill 100 .SIGCONT, .alarm SCHED_TQ_SEC] }

/-- The state after `LOWER(2)` from `c2_after`: task 2 is LOW and last, task 1
is the head, and nothing has been sent. -/
def c20_state : State :=
  { mem := [some ⟨100, 'l', 0, some 2⟩, some ⟨101, 'h', 1, some 0⟩, some ⟨102, 'l', 2, none⟩],
    g := { head := some 1, tail := some 2, hiend := some 1, fixproblem := 1 },
    out := [.alarm SCHED_TQ_SEC, .kill 102 .SIGCONT] }

/-- The events `RAISE(1)`, `RAISE(2)`. -/
def c19_events : List Event :=
  [.request (rq .REQ_HIGH_TASK 1) 0 junk0, .request (rq .REQ_HIGH_TASK 2) 0 junk0]

/-- The state after `c19_events` from `lab_start`: every task is HIGH, `hiend`
and `tail` are task 2. -/
def c19_before : State :=
  { mem := [some ⟨100, 'h', 0, some 1⟩, some ⟨101, 'h', 1, some 2⟩, some ⟨102, 'h', 2, none⟩],
    g := { head := some 0, tail := some 2, hiend := some 2, fixproblem := 0 },
    out := [.kill 100 .SIGCONT, .alarm SCHED_TQ_SEC] }

/-- The state after `LOWER(2)` from `c19_before`: the list from `head` is the
shell and task 1; the cell of task 2 is no longer linked, and `tail` points to
it. -/
def c19_state : State :=
  { mem := [some ⟨100, 'h', 0, some 1⟩, some ⟨101, 'h', 1, none⟩, some ⟨102, 'l', 2, none⟩],
    g := { head := some 0, tail := some 2, hiend := some 1, fixproblem := 0 },
    out := [.kill 100 .SIGCONT, .alarm SCHED_TQ_SEC] }

end SchedulerPrioLab

end Sched

namespace Sched

namespace SchedulerPrioLab

/-- The registry as `main` leaves it for the shell (pid 100, id 0) and one
task (pid 101, id 1): both LOW, the shell at the head and continued. -/
def c26_start : State :=
  { mem := [some ⟨100, 'l', 0, some 1⟩, some ⟨101, 'l', 1, none⟩],
    g := { head := some 0, tail := some 1, hiend := none, fixproblem := 0 },
    out := [.kill 100 .SIGCONT, .alarm SCHED_TQ_SEC] }

/-- The state after `RAISE(1)` from `c26_start`: the shell and task 1 are HIGH
and the list is the shell, then task 1, but `tail` is the cell of the shell. -/
def c26_state : State :=
  { mem := [some ⟨100, 'h', 0, some 1⟩, some ⟨101, 'h', 1, none⟩],
    g := { head := some 0, tail := some 0, hiend := some 1, fixproblem := 0 },
    out := [.kill 100 .SIGCONT, .alarm SCHED_TQ_SEC] }

/-- The state after the `stopped` notification of the shell in `c19_before`,
where every task is HIGH: the list is task 1, task 2, shell, and `tail` is the
cell of task 2 as before. -/
def c26_rotated : State :=
  { mem := [some ⟨100, 'h', 0, none⟩, some ⟨101, 'h', 1, some 2⟩, some ⟨102, 'h', 2, some 0⟩],
    g := { head := some 1, tail := some 2, hiend := some 0, fixproblem := 0 },
    out := [.kill 100 .SIGCONT, .alarm SCHED_TQ_SEC, .alarm SCHED_TQ_SEC, .kill 101 .SIGCONT] }

/-- The events `RAISE(1)`, then `SPAWN` of a child with pid 102. -/
def c27_events : List Event :=
  [.request (rq .REQ_HIGH_TASK 1) 0 junk0, .request (rq .REQ_EXEC_TASK 0) 102 junk0]

/-- The state after `c27_events` from `c26_start`: the new task is linked
behind the shell; the cell of task 1 is linked no more, and `hiend` points to
it. -/
def c27_state : State :=
  { mem := [some ⟨100, 'h', 0, some 2⟩, some ⟨101, 'h', 1, none⟩, some ⟨102, 'l', 2, none⟩],
    g := { head := some 0, tail := some 2, hiend := some 1, fixproblem := 0 },
    out := [.kill 100 .SIGCONT, .alarm SCHED_TQ_SEC] }

/-- The events `RAISE(1)`, `RAISE(2)`, `LOWER(0)`, then `SPAWN` of a child with
pid 103. -/
def c29_events : List Event :=
  [.request (rq .REQ_HIGH_TASK 1) 0 junk0, .request (rq .REQ_HIGH_TASK 2) 0 junk0,
   .request (rq .REQ_LOW_TASK 0) 0 junk0, .request (rq .REQ_EXEC_TASK 0) 103 junk0]

/-- The state after `c29_events` from `lab_start`: the tasks 1 and 2 are HIGH,
the shell, demoted while it ran, and the new task 3 are LOW; `fixproblem` is 1
and `tail` is the cell of task 3. -/
def c29_state : State :=
  { mem := [some ⟨100, 'l', 0, some 3⟩, some ⟨101, 'h', 1, some 2⟩, some ⟨102, 'h', 2, some 0⟩,
            some ⟨103, 'l', 3, none⟩],
    g := { head := some 1, tail := some 3, hiend := some 2, fixproblem := 1 },
    out := [.kill 100 .SIGCONT, .alarm SCHED_TQ_SEC] }

end SchedulerPrioLab

namespace SchedulerShellPrio

/-- Two consecutive invocations of `sigchld_handler`, each of which finds one
child to report: the second starts from the state the first returns to. -/
def two_invocations (s : State) (e1 e2 : Int × Status × process_node Char) :
    Run State State := do
  let s1 ← sigchld_handler s [e1]
  sigchld_handler s1 [e2]

/-- The `stopped` notification of the child with the given pid; the cell is
what `malloc` hands out if the handler allocates a node. -/
def stop_report (p : Int) : Int × Status × process_node Char :=
  (p, .stopped, ⟨0, 'l', 0, none⟩)

/-- The state after one invocation of `sigchld_handler` in `ex_ll` that drains
the `stopped` notifications of the pids 301 and 303: task 1 has gone behind
task 2, which is continued; no task has the pid 303. -/
def c28_single : State :=
  { mem := [some ⟨301, 'l', 1, none⟩, some ⟨302, 'l', 2, some 0⟩],
    g := { head := some 1, tail := some 0, highhead := none, hightail := none },
    out := [.alarm SCHED_TQ_SEC, .kill 302 .SIGCONT] }

/-- The state after two invocations of `sigchld_handler` in `ex_ll`, the first
for the `stopped` notification of pid 301, the second for that of pid 303: the
child with pid 303 is task 3, the last of the LOW queue. -/
def c28_twice : State :=
  { mem := [some ⟨301, 'l', 1, some 2⟩, some ⟨302, 'l', 2, some 0⟩, some ⟨303, 'l', 3, none⟩],
    g := { head := some 1, tail := some 2, highhead := none, hightail := none },
    out := [.alarm SCHED_TQ_SEC, .kill 302 .SIGCONT] }

end SchedulerShellPrio

end Sched

namespace Sched

namespace SchedulerShell

/-- The head is stopped `n` times in succession: each time `sigchld_handler`
runs for the `stopped` notification of the task that is the head then. -/
def rotations (s : State) : Nat → Run State State
  | 0 => .ok s
  | n + 1 => do
    let h ← s.load s.g.head
    let s ← sigchld_handler s [(h.pid, .stopped)]
    rotations s n

end SchedulerShell

end Sched

namespace Sched

namespace SchedulerPrioLab

/-- The state `c2_state` after `n` more timer events: the registry is as in
`c2_state`, and `n` alarms have been set. -/
def c2_idle (n : Nat) : State :=
  { mem := [some ⟨100, 'l', 0, none⟩, some ⟨101, 'h', 1, some 2⟩, some ⟨102, 'l', 2, some 0⟩],
    g := { head := some 1, tail := some 0, hiend := some 1, fixproblem := 1 },
    out := [.kill 100 .SIGCONT, .alarm SCHED_TQ_SEC] ++ List.replicate n (.alarm SCHED_TQ_SEC) }

/-- The state after `LOWER(0)` from `c19_before`: the tasks 1 and 2 are the HIGH
tier, the shell is LOW and last, `fixproblem` is 1 and nothing has been sent. -/
def c20_deferred : State :=
  { mem := [some ⟨100, 'l', 0, none⟩, some ⟨101, 'h', 1, some 2⟩, some ⟨102, 'h', 2, some 0⟩],
    g := { head := some 1, tail := some 0, hiend := some 2, fixproblem := 1 },
    out := [.kill 100 .SIGCONT, .alarm SCHED_TQ_SEC] }

end SchedulerPrioLab

end Sched

/-! # Theorems -/

namespace Sched

/-! ## The outcome monad -/

@[simp] theorem Run.pure_eq {σ α : Type} (a : α) : (pure a : Run σ α) = Run.ok a := rfl

@[simp] theorem Run.ok_bind {σ α β : Type} (a : α) (f : α → Run σ β) :
    (Run.ok a >>= f) = f a := rfl

@[simp] theorem Run.exit_bind {σ α β : Type} (c : Int) (s : σ) (f : α → Run σ β) :
    (Run.exit c s >>= f) = Run.exit c s := rfl

@[simp] theorem Run.fault_bind {σ α β : Type} (s : σ) (f : α → Run σ β) :
    (Run.fault s >>= f) = Run.fault s := rfl

@[simp] theorem Run.hang_bind {σ α β : Type} (s : σ) (f : α → Run σ β) :
    (Run.hang s >>= f) = Run.hang s := rfl

@[simp] theorem Run.exec_bind {σ α β : Type} (s : σ) (f : α → Run σ β) :
    (Run.exec s >>= f) = Run.exec s := rfl

/-! ## Memory -/

section Memory

variable {P : Type}

@[simp] theorem cell_none (m : List (Option (process_node P))) : cell m none = none := rfl

theorem cell_lt {m : List (Option (process_node P))} {a : Nat} {n : process_node P}
    (h : cell m (some a) = some n) : a < m.length := by
  by_contra hlt
  simp [cell, List.getElem?_eq_none (Nat.le_of_not_lt hlt)] at h

theorem cell_set (m : List (Option (process_node P))) (a b : Nat) (c : Option (process_node P))
    (ha : a < m.length) :
    cell (m.set a c) (some b) = if b = a then c else cell m (some b) := by
  by_cases hb : b = a
  · subst hb
    simp [cell, List.getElem?_set, ha]
  · have : a ≠ b := fun h => hb h.symm
    simp [cell, List.getElem?_set, hb, this]

theorem cell_set_ne (m : List (Option (process_node P))) (a b : Nat)
    (c : Option (process_node P)) (hb : b ≠ a) :
    cell (m.set a c) (some b) = cell m (some b) := by
  have : a ≠ b := fun h => hb h.symm
  simp [cell, List.getElem?_set, this]

theorem cell_append_lt (m : List (Option (process_node P))) (x : Option (process_node P))
    (b : Nat) (hb : b < m.length) : cell (m ++ [x]) (some b) = cell m (some b) := by
  simp [cell, List.getElem?_append_left hb]

theorem cell_append_length (m : List (Option (process_node P))) (x : Option (process_node P)) :
    cell (m ++ [x]) (some m.length) = x := by
  simp [cell]

@[simp] theorem task.node_pid (t : task P) (nx : Option Nat) : (t.node nx).pid = t.pid := rfl

@[simp] theorem task.node_id (t : task P) (nx : Option Nat) : (t.node nx).id = t.id := rfl

@[simp] theorem task.node_prio (t : task P) (nx : Option Nat) : (t.node nx).prio = t.prio := rfl

@[simp] theorem task.node_next (t : task P) (nx : Option Nat) : (t.node nx).next = nx := rfl

theorem task.node_eta (t : task P) (nx v : Option Nat) :
    ({ pid := (t.node nx).pid, prio := (t.node nx).prio, id := (t.node nx).id, next := v } :
      process_node P) = t.node v := rfl

end Memory

/-! ## List segments -/

section Segments

variable {P : Type}

theorem last_concat (l : List (Nat × task P)) (x : Nat × task P) : last (l ++ [x]) = some x.1 := by
  simp [last]

theorem first_append_ne (l r : List (Nat × task P)) (h : l ≠ []) : first (l ++ r) = first l := by
  cases l with
  | nil => exact absurd rfl h
  | cons x l => rfl

theorem first_eq_head (l : List (Nat × task P)) (h : l ≠ []) : first l = some (l.head h).1 := by
  cases l with
  | nil => exact absurd rfl h
  | cons x l => rfl

theorem exists_snoc (l : List (Nat × task P)) (h : l ≠ []) : ∃ l0 x, l = l0 ++ [x] :=
  ⟨l.dropLast, l.getLast h, (List.dropLast_append_getLast h).symm⟩

theorem seg_congr {m m2 : List (Option (process_node P))} :
    ∀ (l : List (Nat × task P)) (p q : Option Nat),
    (∀ a ∈ l.map Prod.fst, cell m2 (some a) = cell m (some a)) →
    Seg m p l q → Seg m2 p l q
  | [], _, _, _, h => h
  | (a, t) :: l, p, q, hc, h => by
    obtain ⟨hp, nx, hcell, hrest⟩ := h
    refine ⟨hp, nx, ?_, seg_congr l nx q (fun b hb => hc b (by simp [hb])) hrest⟩
    rw [hc a (by simp)]
    exact hcell

theorem seg_append {m : List (Option (process_node P))} :
    ∀ (l1 l2 : List (Nat × task P)) (p q : Option Nat),
    Seg m p (l1 ++ l2) q ↔ ∃ r, Seg m p l1 r ∧ Seg m r l2 q
  | [], l2, p, q => by
    constructor
    · intro h
      exact ⟨p, rfl, h⟩
    · rintro ⟨r, hr, h⟩
      have : p = r := hr
      subst this
      exact h
  | (a, t) :: l1, l2, p, q => by
    constructor
    · rintro ⟨hp, nx, hcell, hrest⟩
      obtain ⟨r, h1, h2⟩ := (seg_append l1 l2 nx q).1 hrest
      exact ⟨r, ⟨hp, nx, hcell, h1⟩, h2⟩
    · rintro ⟨r, ⟨hp, nx, hcell, h1⟩, h2⟩
      exact ⟨hp, nx, hcell, (seg_append l1 l2 nx q).2 ⟨r, h1, h2⟩⟩

theorem seg_unique {m : List (Option (process_node P))} :
    ∀ (l1 l2 : List (Nat × task P)) (p : Option Nat),
    Seg m p l1 none → Seg m p l2 none → l1 = l2
  | [], [], _, _, _ => rfl
  | [], (a, t) :: l2, p, h1, h2 => by
    have h1 : p = none := h1
    have := h2.1
    simp [h1] at this
  | (a, t) :: l1, [], p, h1, h2 => by
    have h2 : p = none := h2
    have := h1.1
    simp [h2] at this
  | (a, t) :: l1, (b, u) :: l2, p, h1, h2 => by
    obtain ⟨hp1, nx1, hc1, hr1⟩ := h1
    obtain ⟨hp2, nx2, hc2, hr2⟩ := h2
    have hab : a = b := by
      rw [hp1] at hp2
      exact Option.some.inj hp2
    subst hab
    rw [hc1] at hc2
    have hnode := Option.some.inj hc2
    have htu : t = u := by
      cases t
      cases u
      simp [task.node] at hnode
      simp [hnode]
    have hnx : nx1 = nx2 := by
      simp [task.node] at hnode
      exact hnode.2.2.2
    subst htu
    subst hnx
    rw [seg_unique l1 l2 nx1 hr1 hr2]

theorem seg_not_mem {m : List (Option (process_node P))} {a : Nat} {t : task P}
    {l : List (Nat × task P)} {p : Option Nat} (h : Seg m p ((a, t) :: l) none) :
    a ∉ l.map Prod.fst := by
  intro hmem
  obtain ⟨⟨b, u⟩, hbu, hb⟩ := List.mem_map.1 hmem
  simp only at hb
  subst hb
  obtain ⟨l1, l2, hl⟩ := List.append_of_mem hbu
  obtain ⟨hp, nx, hcell, hrest⟩ := h
  have hrest2 := hrest
  rw [hl] at hrest2
  obtain ⟨r, _, h2⟩ := (seg_append l1 ((b, u) :: l2) nx none).1 hrest2
  have hr : r = some b := h2.1
  subst hr
  have h1 : Seg m (some b) ((b, t) :: l) none := ⟨rfl, nx, hcell, hrest⟩
  have := seg_unique _ _ _ h1 h2
  have hlen := congrArg List.length this
  rw [hl] at hlen
  simp at hlen
  omega

theorem seg_nodup {m : List (Option (process_node P))} :
    ∀ (l : List (Nat × task P)) (p : Option Nat), Seg m p l none → (l.map Prod.fst).Nodup
  | [], _, _ => by simp
  | (a, t) :: l, p, h => by
    have hn := seg_not_mem h
    obtain ⟨_, nx, _, hrest⟩ := h
    simp only [List.map_cons, List.nodup_cons]
    exact ⟨hn, seg_nodup l nx hrest⟩

theorem seg_cell_lt {m : List (Option (process_node P))} :
    ∀ (l : List (Nat × task P)) (p q : Option Nat), Seg m p l q →
    ∀ a ∈ l.map Prod.fst, a < m.length
  | [], _, _, _, a, ha => by simp at ha
  | (b, t) :: l, p, q, h, a, ha => by
    obtain ⟨_, nx, hcell, hrest⟩ := h
    simp only [List.map_cons, List.mem_cons] at ha
    rcases ha with ha | ha
    · subst ha
      exact cell_lt hcell
    · exact seg_cell_lt l nx q hrest a ha

theorem seg_length_le {m : List (Option (process_node P))} {l : List (Nat × task P)}
    {p : Option Nat} (h : Seg m p l none) : l.length ≤ m.length := by
  have hnd := seg_nodup l p h
  have hlt := seg_cell_lt l p none h
  have hsub : l.map Prod.fst ⊆ List.range m.length := by
    intro a ha
    exact List.mem_range.2 (hlt a ha)
  have := (List.subperm_of_subset hnd hsub).length_le
  simpa using this

theorem seg_set {m : List (Option (process_node P))} {l : List (Nat × task P)}
    {p q : Option Nat} {a : Nat} (c : Option (process_node P)) (ha : a ∉ l.map Prod.fst)
    (h : Seg m p l q) : Seg (m.set a c) p l q := by
  refine seg_congr l p q ?_ h
  intro b hb
  exact cell_set_ne m a b c (fun e => ha (e ▸ hb))

theorem seg_last_cell {m : List (Option (process_node P))} {l0 : List (Nat × task P)} {z : Nat}
    {tz : task P} {p q : Option Nat} (h : Seg m p (l0 ++ [(z, tz)]) q) :
    cell m (some z) = some (tz.node q) ∧ Seg m p l0 (some z) := by
  obtain ⟨r, h1, h2⟩ := (seg_append l0 [(z, tz)] p q).1 h
  obtain ⟨hr, nx, hcell, hq⟩ := h2
  have hq : nx = q := hq
  subst hq
  subst hr
  exact ⟨hcell, h1⟩

theorem seg_snoc {m : List (Option (process_node P))} {l0 : List (Nat × task P)} {z : Nat}
    {t : task P} {p q : Option Nat} (h1 : Seg m p l0 (some z))
    (h2 : cell m (some z) = some (t.node q)) : Seg m p (l0 ++ [(z, t)]) q :=
  (seg_append l0 [(z, t)] p q).2 ⟨some z, h1, rfl, q, h2, rfl⟩

/-- The first cell of a non-empty segment holds the first task. -/
theorem seg_head_cell {m : List (Option (process_node P))} {l : List (Nat × task P)}
    {p q : Option Nat} (h : Seg m p l q) (hl : l ≠ []) :
    p = some (l.head hl).1 ∧ ∃ nx, cell m p = some ((l.head hl).2.node nx) := by
  cases l with
  | nil => exact absurd rfl hl
  | cons x l =>
    obtain ⟨a, t⟩ := x
    obtain ⟨hp, nx, hc, _⟩ := h
    subst hp
    exact ⟨rfl, nx, hc⟩

/-- Moving the first cell of a list behind the last one. -/
theorem seg_rotate {m : List (Option (process_node P))} {a z : Nat} {ta tz : task P}
    {l0 : List (Nat × task P)} {p : Option Nat}
    (h : Seg m p ((a, ta) :: (l0 ++ [(z, tz)])) none) :
    Seg ((m.set z (some (tz.node (some a)))).set a (some (ta.node none)))
      (first (l0 ++ [(z, tz)])) (l0 ++ [(z, tz)] ++ [(a, ta)]) none := by
  have hnd := seg_nodup _ _ h
  have hlt := seg_cell_lt _ _ _ h
  obtain ⟨hp, nx, hca, hrest⟩ := h
  obtain ⟨hcz, h0⟩ := seg_last_cell hrest
  simp only [List.map_cons, List.map_append, List.map_nil, List.nodup_cons, List.mem_append,
    List.mem_singleton, List.nodup_append, not_or] at hnd
  have haz : a ≠ z := hnd.1.2
  have hzl : z < m.length := hlt z (by simp)
  have hal : a < m.length := hlt a (by simp)
  have hnx : nx = first (l0 ++ [(z, tz)]) := by
    rw [first_eq_head _ (by simp)]
    exact (seg_head_cell hrest (by simp)).1
  subst hnx
  have hz0 : z ∉ l0.map Prod.fst := by
    intro hz
    exact hnd.2.2.2 hz (by simp)
  apply seg_snoc
  · apply seg_snoc
    · exact seg_set _ hnd.1.1 (seg_set _ hz0 h0)
    · rw [cell_set _ _ _ _ (by simpa using hal), cell_set _ _ _ _ hzl]
      simp [Ne.symm haz]
  · rw [cell_set _ _ _ _ (by simpa using hal)]
    simp

end Segments

end Sched

namespace Sched

namespace SchedulerShell

/-- What the `WIFSTOPPED` branch does when the stopped child is the head of a
list with at least two nodes. -/
theorem on_stop_exec (s : State) (a z b : Nat) (na nz nb : process_node Unit)
    (hhead : s.g.head = some a) (htail : s.g.tail = some z)
    (hca : cell s.mem (some a) = some na) (hcz : cell s.mem (some z) = some nz)
    (haz : a ≠ z) (hnx : na.next = some b) (hba : b ≠ a)
    (hcb : cell s.mem (some b) = some nb) :
    on_stop s na.pid = .ok
      { mem := (s.mem.set z (some { nz with next := some a })).set a
          (some { na with next := none }),
        g := { head := some b, tail := some a },
        out := s.out ++ [.alarm SCHED_TQ_SEC, .kill nb.pid .SIGCONT] } := by
  have hzl : z < s.mem.length := cell_lt hcz
  have hal : a < s.mem.length := cell_lt hca
  have hza : z ≠ a := Ne.symm haz
  by_cases hbz : b = z
  · subst hbz
    rw [hcz] at hcb
    have hcb := Option.some.inj hcb
    subst hcb
    simp [on_stop, Machine.load, Machine.set_next, Machine.store, Machine.setg, Machine.emit,
      hhead, htail, hca, hcz, cell_set, hzl, hal, haz, hza, hnx]
  · simp [on_stop, Machine.load, Machine.set_next, Machine.store, Machine.setg, Machine.emit,
      hhead, htail, hca, hcz, cell_set, hzl, hal, haz, hza, hnx, hba, hbz, hcb]

theorem on_stop_head (s : State) (a : Nat) (ta : task Unit) (t : List (Nat × task Unit))
    (hl : Holds s ((a, ta) :: t)) (ht : t ≠ []) :
    ∃ s2, on_stop s ta.pid = .ok s2 ∧ Holds s2 (t ++ [(a, ta)]) ∧
      s2.out = s.out ++ [.alarm SCHED_TQ_SEC, .kill (t.head ht).2.pid .SIGCONT] := by
  obtain ⟨hseg, htail⟩ := hl
  obtain ⟨t0, ⟨z, tz⟩, rfl⟩ := exists_snoc t ht
  have hrot := seg_rotate hseg
  have hnd := seg_nodup _ _ hseg
  obtain ⟨hhead, nx, hca, hrest⟩ := hseg
  obtain ⟨hcz, h0⟩ := seg_last_cell hrest
  obtain ⟨hnx, nxb, hcb⟩ := seg_head_cell hrest ht
  simp only [List.map_cons, List.map_append, List.map_nil, List.nodup_cons, List.mem_append,
    List.mem_singleton, not_or] at hnd
  rw [← List.cons_append, last_concat] at htail
  rw [first_eq_head _ ht] at hrot
  rw [hnx] at hcb
  have hba : ((t0 ++ [(z, tz)]).head ht).1 ≠ a := by
    intro e
    have hmem : a ∈ List.map Prod.fst (t0 ++ [(z, tz)]) := by
      rw [← e]
      exact List.mem_map_of_mem _ (List.head_mem ht)
    simp only [List.map_append, List.map_cons, List.map_nil, List.mem_append,
      List.mem_singleton] at hmem
    rcases hmem with h | h
    · exact hnd.1.1 h
    · exact hnd.1.2 h
  have hex := on_stop_exec s a z _ _ _ _ hhead htail hca hcz hnd.1.2 hnx hba hcb
  exact ⟨_, hex, ⟨hrot, (last_concat (t0 ++ [(z, tz)]) (a, ta)).symm⟩, rfl⟩

end SchedulerShell

end Sched

namespace Sched

namespace SchedulerShell

/-- C1: for a registry `h :: t` with `t` non-empty, a `stopped` notification for
the pid of `h` makes `sigchld_handler` return with the registry `t ++ [h]`,
having re-armed the timer and sent `SIGCONT` to the first task of `t`. -/
theorem C1_stopped_head_rotates (s : State) (h : Nat × task Unit) (t : List (Nat × task Unit))
    (hl : Holds s (h :: t)) (ht : t ≠ []) (hpid : 0 < h.2.pid) :
    ∃ s2, sigchld_handler s [(h.2.pid, .stopped)] = .ok s2 ∧ Holds s2 (t ++ [h]) ∧
      s2.out = s.out ++ [.alarm SCHED_TQ_SEC, .kill (t.head ht).2.pid .SIGCONT] := by
  obtain ⟨a, ta⟩ := h
  obtain ⟨s2, h1, h2, h3⟩ := on_stop_head s a ta t hl ht
  refine ⟨s2, ?_, h2, h3⟩
  have hp1 : ¬ ta.pid < 0 := by
    simp only at hpid
    omega
  have hp2 : ¬ ta.pid = 0 := by
    simp only at hpid
    omega
  simp [sigchld_handler, sigchld_step, hp1, hp2, h1]

theorem C1_witness :
    Holds ex3 [(0, ⟨101, (), 1⟩), (1, ⟨102, (), 2⟩), (2, ⟨103, (), 3⟩)] ∧
    ∃ s2, sigchld_handler ex3 [(101, .stopped)] = .ok s2 ∧
      Holds s2 [(1, ⟨102, (), 2⟩), (2, ⟨103, (), 3⟩), (0, ⟨101, (), 1⟩)] ∧
      s2.out = [.alarm SCHED_TQ_SEC, .kill 102 .SIGCONT] :=
  have hl : Holds ex3 [(0, ⟨101, (), 1⟩), (1, ⟨102, (), 2⟩), (2, ⟨103, (), 3⟩)] :=
    ⟨⟨rfl, _, rfl, rfl, _, rfl, rfl, _, rfl, rfl⟩, rfl⟩
  ⟨hl, C1_stopped_head_rotates ex3 (0, ⟨101, (), 1⟩) [(1, ⟨102, (), 2⟩), (2, ⟨103, (), 3⟩)] hl
    (by simp) (by decide)⟩

end SchedulerShell

end Sched

namespace Sched

/-! ## The loops that walk a list -/

section Walks

variable {G P : Type}

theorem maxid_of_ge (l : List (Nat × task P)) : ∀ acc : Int, acc ≤ maxid_of l acc := by
  induction l with
  | nil => intro acc; exact le_refl _
  | cons x l ih =>
    intro acc
    simp only [maxid_of, List.foldl_cons]
    have := ih (if x.2.id > acc then x.2.id else acc)
    simp only [maxid_of] at this
    split_ifs at this ⊢ <;> omega

theorem maxid_of_mem (l : List (Nat × task P)) :
    ∀ acc : Int, ∀ x ∈ l, x.2.id ≤ maxid_of l acc := by
  induction l with
  | nil => intro acc x hx; simp at hx
  | cons y l ih =>
    intro acc x hx
    simp only [List.mem_cons] at hx
    have hge := maxid_of_ge l (if y.2.id > acc then y.2.id else acc)
    have hrec := ih (if y.2.id > acc then y.2.id else acc)
    simp only [maxid_of, List.foldl_cons] at hge hrec ⊢
    rcases hx with hx | hx
    · subst hx
      split_ifs at hge ⊢ <;> omega
    · exact hrec x hx

theorem maxid_of_append (l1 l2 : List (Nat × task P)) (acc : Int) :
    maxid_of (l1 ++ l2) acc = maxid_of l2 (maxid_of l1 acc) := by
  unfold maxid_of
  rw [List.foldl_append]

/-- The id `maxid + 1` that `sched_create_task` assigns is not in the list. -/
theorem fresh_id_not_mem (l : List (Nat × task P)) (acc : Int) :
    maxid_of l acc + 1 ∉ ids l := by
  intro h
  obtain ⟨x, hx, hid⟩ := List.mem_map.1 h
  have := maxid_of_mem l acc x hx
  omega

theorem print_loop_seg (s : Machine G P) :
    ∀ (l : List (Nat × task P)) (p : Option Nat) (f : Nat),
    Seg s.mem p l none → l.length < f → s.print_loop f p = .ok ()
  | [], p, f, h, hf => by
    have hp : p = none := h
    subst hp
    obtain ⟨f, rfl⟩ : ∃ k, f = k + 1 := ⟨f - 1, by omega⟩
    rfl
  | (a, t) :: l, p, f, h, hf => by
    obtain ⟨hp, nx, hc, hrest⟩ := h
    subst hp
    obtain ⟨f, rfl⟩ : ∃ k, f = k + 1 := ⟨f - 1, by omega⟩
    simp only [List.length_cons, Nat.add_lt_add_iff_right] at hf
    simp [Machine.print_loop, Machine.load, hc, print_loop_seg s l nx f hrest hf]

theorem maxid_loop_seg (s : Machine G P) :
    ∀ (l : List (Nat × task P)) (p : Option Nat) (f : Nat) (acc : Int),
    Seg s.mem p l none → l.length < f → s.maxid_loop f p acc = .ok (maxid_of l acc)
  | [], p, f, acc, h, hf => by
    have hp : p = none := h
    subst hp
    obtain ⟨f, rfl⟩ : ∃ k, f = k + 1 := ⟨f - 1, by omega⟩
    rfl
  | (a, t) :: l, p, f, acc, h, hf => by
    obtain ⟨hp, nx, hc, hrest⟩ := h
    subst hp
    obtain ⟨f, rfl⟩ : ∃ k, f = k + 1 := ⟨f - 1, by omega⟩
    simp only [List.length_cons, Nat.add_lt_add_iff_right] at hf
    simp [Machine.maxid_loop, Machine.load, hc, maxid_loop_seg s l nx f _ hrest hf, maxid_of]

/-- A task whose id is not in the list is not found: no signal is sent. -/
theorem kill_loop_absent (s : Machine G P) (id : Int) :
    ∀ (l : List (Nat × task P)) (p : Option Nat) (f : Nat),
    Seg s.mem p l none → l.length < f → id ∉ ids l → s.kill_loop id f p = .ok s
  | [], p, f, h, hf, _ => by
    have hp : p = none := h
    subst hp
    obtain ⟨f, rfl⟩ : ∃ k, f = k + 1 := ⟨f - 1, by omega⟩
    rfl
  | (a, t) :: l, p, f, h, hf, hid => by
    obtain ⟨hp, nx, hc, hrest⟩ := h
    subst hp
    obtain ⟨f, rfl⟩ : ∃ k, f = k + 1 := ⟨f - 1, by omega⟩
    simp only [List.length_cons, Nat.add_lt_add_iff_right] at hf
    simp only [ids, List.map_cons, List.mem_cons, not_or] at hid
    have hne : ¬ t.id = id := fun e => hid.1 e.symm
    simp [Machine.kill_loop, Machine.load, hc, hne, kill_loop_absent s id l nx f hrest hf hid.2]

/-- The first task with the id is sent `SIGKILL`. -/
theorem kill_loop_present (s : Machine G P) (id : Int) (c : Nat) (tc : task P)
    (l2 : List (Nat × task P)) (hid : tc.id = id) :
    ∀ (l1 : List (Nat × task P)) (p : Option Nat) (f : Nat),
    Seg s.mem p (l1 ++ (c, tc) :: l2) none → l1.length < f → id ∉ ids l1 →
    s.kill_loop id f p = .ok (s.emit (.kill tc.pid .SIGKILL))
  | [], p, f, h, hf, _ => by
    obtain ⟨hp, nx, hc, hrest⟩ := h
    subst hp
    obtain ⟨f, rfl⟩ : ∃ k, f = k + 1 := ⟨f - 1, by omega⟩
    simp [Machine.kill_loop, Machine.load, hc, hid]
  | (a, t) :: l1, p, f, h, hf, hn => by
    obtain ⟨hp, nx, hc, hrest⟩ := h
    subst hp
    obtain ⟨f, rfl⟩ : ∃ k, f = k + 1 := ⟨f - 1, by omega⟩
    simp only [List.length_cons, Nat.add_lt_add_iff_right] at hf
    simp only [ids, List.map_cons, List.mem_cons, not_or] at hn
    have hne : ¬ t.id = id := fun e => hn.1 e.symm
    simp [Machine.kill_loop, Machine.load, hc, hne,
      kill_loop_present s id c tc l2 hid l1 nx f hrest hf hn.2]

/-- Whatever the list looks like, the search loop changes neither memory nor globals. -/
theorem kill_loop_frame (s : Machine G P) (id : Int) :
    ∀ (f : Nat) (p : Option Nat) (s2 : Machine G P),
    s.kill_loop id f p = .ok s2 → s2.mem = s.mem ∧ s2.g = s.g
  | 0, _, _, h => by simp [Machine.kill_loop] at h
  | f + 1, none, s2, h => by
    simp only [Machine.kill_loop, Run.ok.injEq] at h
    subst h
    exact ⟨rfl, rfl⟩
  | f + 1, some a, s2, h => by
    simp only [Machine.kill_loop, Machine.load] at h
    cases hc : cell s.mem (some a) with
    | none => simp [hc] at h
    | some n =>
      simp only [hc, Run.ok_bind] at h
      split_ifs at h with hid
      · simp only [Run.pure_eq, Run.ok.injEq] at h
        subst h
        exact ⟨rfl, rfl⟩
      · exact kill_loop_frame s id f n.next s2 h

/-- The search by pid stops at the first task with the pid; `prv` is then the
cell before it. -/
theorem find_loop_found (s : Machine G P) (p : Int) (c : Nat) (tc : task P)
    (l2 : List (Nat × task P)) (hpid : tc.pid = p) :
    ∀ (l1 : List (Nat × task P)) (prv nxt : Option Nat) (f : Nat),
    Seg s.mem nxt (l1 ++ (c, tc) :: l2) none → l1.length < f → p ∉ pids l1 →
    s.find_loop p f prv nxt = .ok ((last l1).or prv, some c)
  | [], prv, nxt, f, h, hf, _ => by
    obtain ⟨hp, nx, hc, hrest⟩ := h
    subst hp
    obtain ⟨f, rfl⟩ : ∃ k, f = k + 1 := ⟨f - 1, by omega⟩
    simp [Machine.find_loop, Machine.load, hc, hpid, last]
  | (a, t) :: l1, prv, nxt, f, h, hf, hn => by
    obtain ⟨hp, nx, hc, hrest⟩ := h
    subst hp
    obtain ⟨f, rfl⟩ : ∃ k, f = k + 1 := ⟨f - 1, by omega⟩
    simp only [List.length_cons, Nat.add_lt_add_iff_right] at hf
    simp only [pids, List.map_cons, List.mem_cons, not_or] at hn
    have hne : ¬ p = t.pid := hn.1
    have ih := find_loop_found s p c tc l2 hpid l1 (some a) nx f hrest hf hn.2
    simp only [Machine.find_loop, Machine.load, hc, Run.ok_bind, task.node_pid, ne_eq, hne,
      not_false_eq_true, if_true, task.node_next, ih]
    cases l1 with
    | nil => simp [last]
    | cons y l1 =>
      have hs : (y :: l1).getLast? = some ((y :: l1).getLast (by simp)) :=
        List.getLast?_eq_getLast _ _
      simp [last, hs]


/-- The search by pid runs off the end of a list that has no task with the pid. -/
theorem find_loop_absent (s : Machine G P) (p : Int) :
    ∀ (l : List (Nat × task P)) (prv nxt : Option Nat) (f : Nat),
    Seg s.mem nxt l none → l.length < f → p ∉ pids l →
    s.find_loop p f prv nxt = .fault s
  | [], prv, nxt, f, h, hf, _ => by
    have hp : nxt = none := h
    subst hp
    obtain ⟨f, rfl⟩ : ∃ k, f = k + 1 := ⟨f - 1, by omega⟩
    simp [Machine.find_loop, Machine.load]
  | (a, t) :: l, prv, nxt, f, h, hf, hn => by
    obtain ⟨hp, nx, hc, hrest⟩ := h
    subst hp
    obtain ⟨f, rfl⟩ : ∃ k, f = k + 1 := ⟨f - 1, by omega⟩
    simp only [List.length_cons, Nat.add_lt_add_iff_right] at hf
    simp only [pids, List.map_cons, List.mem_cons, not_or] at hn
    have hne : ¬ p = t.pid := hn.1
    simp [Machine.find_loop, Machine.load, hc, hne, find_loop_absent s p l (some a) nx f hrest hf hn.2]

theorem seg_fuel {s : Machine G P} {l : List (Nat × task P)} {p : Option Nat}
    (h : Seg s.mem p l none) : l.length < s.fuel :=
  Nat.lt_succ_of_le (seg_length_le h)

end Walks

end Sched

namespace Sched

section SegmentSurgery

variable {P : Type}

/-- A segment that ends in `NULL` starts at the first of its cells. -/
theorem seg_start {m : List (Option (process_node P))} {l : List (Nat × task P)}
    {p : Option Nat} (h : Seg m p l none) : p = first l := by
  cases l with
  | nil => exact h
  | cons x l => exact h.1

theorem last_append_ne (l r : List (Nat × task P)) (h : r ≠ []) : last (l ++ r) = last r := by
  obtain ⟨r0, x, rfl⟩ := exists_snoc r h
  rw [← List.append_assoc, last_concat, last_concat]

theorem last_cons_ne (x : Nat × task P) (r : List (Nat × task P)) (h : r ≠ []) :
    last (x :: r) = last r :=
  last_append_ne [x] r h

/-- Memory only grows at the end: a segment is not disturbed by `malloc`. -/
theorem seg_append_mem {m : List (Option (process_node P))} {l : List (Nat × task P)}
    {p q : Option Nat} (x : Option (process_node P)) (h : Seg m p l q) :
    Seg (m ++ [x]) p l q := by
  refine seg_congr l p q ?_ h
  intro a ha
  exact cell_append_lt m x a (seg_cell_lt l p q h a ha)

/-- Unlinking the cell `c` that follows the cell `b`, and freeing it. -/
theorem seg_unlink {m : List (Option (process_node P))} {b c : Nat} {tb tc : task P}
    {l1 l2 : List (Nat × task P)} {p : Option Nat}
    (h : Seg m p (l1 ++ [(b, tb)] ++ (c, tc) :: l2) none) :
    Seg ((m.set b (some (tb.node (first l2)))).set c none) p (l1 ++ [(b, tb)] ++ l2) none := by
  have hnd := seg_nodup _ _ h
  have hlt := seg_cell_lt _ _ _ h
  obtain ⟨r, h1, h2⟩ := (seg_append _ _ _ _).1 h
  obtain ⟨hcb, h0⟩ := seg_last_cell h1
  obtain ⟨hr, nx, hcc, hrest⟩ := h2
  have hnx := seg_start hrest
  subst hnx
  simp only [List.map_append, List.map_cons, List.map_nil] at hnd
  obtain ⟨hc, hnd2⟩ := List.nodup_cons.1 (List.nodup_middle.1 hnd)
  rw [List.append_assoc, List.singleton_append] at hnd2
  obtain ⟨hb, _⟩ := List.nodup_cons.1 (List.nodup_middle.1 hnd2)
  simp only [List.mem_append, List.mem_singleton, not_or] at hc hb
  have hbl : b < m.length := hlt b (by simp)
  have hcl : c < m.length := hlt c (by simp)
  have hb1 : b ∉ l1.map Prod.fst := hb.1
  have hc1 : c ∉ l1.map Prod.fst := hc.1.1
  have hb2 : b ∉ l2.map Prod.fst := hb.2
  have hc2 : c ∉ l2.map Prod.fst := hc.2
  have hbc : b ≠ c := fun e => hc.1.2 e.symm
  refine (seg_append _ _ _ _).2 ⟨first l2, ?_, ?_⟩
  · apply seg_snoc
    · exact seg_set _ hc1 (seg_set _ hb1 h0)
    · rw [cell_set_ne _ _ _ _ hbc, cell_set _ _ _ _ hbl]
      simp
  · exact seg_set _ hc2 (seg_set _ hb2 hrest)

/-- Freeing the first cell of a list leaves the rest of the list. -/
theorem seg_drop_head {m : List (Option (process_node P))} {a : Nat} {ta : task P}
    {t : List (Nat × task P)} {p : Option Nat} (h : Seg m p ((a, ta) :: t) none) :
    Seg (m.set a none) (first t) t none := by
  have hn := seg_not_mem h
  obtain ⟨_, nx, _, hrest⟩ := h
  have hnx := seg_start hrest
  subst hnx
  exact seg_set _ hn hrest

/-- Linking a cell that is not in the list behind the last cell of the list. -/
theorem seg_push {m : List (Option (process_node P))} {z n : Nat} {tz tn : task P}
    {l0 : List (Nat × task P)} {p : Option Nat} {x : Option (process_node P)}
    (h : Seg m p (l0 ++ [(z, tz)]) none) (hn : n ∉ (l0 ++ [(z, tz)]).map Prod.fst)
    (hnl : n < m.length) :
    Seg (((m.set n x).set z (some (tz.node (some n)))).set n (some (tn.node none))) p
      (l0 ++ [(z, tz)] ++ [(n, tn)]) none := by
  have hnd := seg_nodup _ _ h
  have hlt := seg_cell_lt _ _ _ h
  obtain ⟨hcz, h0⟩ := seg_last_cell h
  simp only [List.map_append, List.map_cons, List.map_nil, List.nodup_append, List.nodup_cons,
    List.mem_append, List.mem_singleton, not_or] at hnd hn
  have hzl : z < m.length := hlt z (by simp)
  have hz0 : z ∉ l0.map Prod.fst := fun hz => hnd.2.2 hz (by simp)
  have hzn : z ≠ n := fun e => hn.2 e.symm
  apply seg_snoc
  · apply seg_snoc
    · exact seg_set _ hn.1 (seg_set _ hz0 (seg_set _ hn.1 h0))
    · rw [cell_set_ne _ _ _ _ hzn, cell_set _ _ _ _ (by simpa using hzl)]
      simp
  · rw [cell_set _ _ _ _ (by simpa using hnl)]
    simp

/-- The first task of a list with a given pid. -/
theorem split_first_pid (p : Int) :
    ∀ l : List (Nat × task P), p ∈ pids l →
    ∃ l1 c tc l2, l = l1 ++ (c, tc) :: l2 ∧ tc.pid = p ∧ p ∉ pids l1
  | [], h => by simp [pids] at h
  | (a, t) :: l, h => by
    by_cases hp : t.pid = p
    · exact ⟨[], a, t, l, rfl, hp, by simp [pids]⟩
    · have hmem : p ∈ pids l := by
        simp only [pids, List.map_cons, List.mem_cons] at h
        rcases h with h | h
        · exact absurd h.symm hp
        · exact h
      obtain ⟨l1, c, tc, l2, hl, hpc, hn⟩ := split_first_pid p l hmem
      refine ⟨(a, t) :: l1, c, tc, l2, by rw [hl]; rfl, hpc, ?_⟩
      simp only [pids, List.map_cons, List.mem_cons, not_or]
      exact ⟨fun e => hp e.symm, hn⟩

/-- The first task of a list with a given id. -/
theorem split_first_id (i : Int) :
    ∀ l : List (Nat × task P), i ∈ ids l →
    ∃ l1 c tc l2, l = l1 ++ (c, tc) :: l2 ∧ tc.id = i ∧ i ∉ ids l1
  | [], h => by simp [ids] at h
  | (a, t) :: l, h => by
    by_cases hp : t.id = i
    · exact ⟨[], a, t, l, rfl, hp, by simp [ids]⟩
    · have hmem : i ∈ ids l := by
        simp only [ids, List.map_cons, List.mem_cons] at h
        rcases h with h | h
        · exact absurd h.symm hp
        · exact h
      obtain ⟨l1, c, tc, l2, hl, hpc, hn⟩ := split_first_id i l hmem
      refine ⟨(a, t) :: l1, c, tc, l2, by rw [hl]; rfl, hpc, ?_⟩
      simp only [ids, List.map_cons, List.mem_cons, not_or]
      exact ⟨fun e => hp e.symm, hn⟩

end SegmentSurgery

end Sched

namespace Sched

namespace SchedulerShell

/-! ## `scheduler-shell.c` -/

/-- What the exit branch does when the head dies and another task follows it. -/
theorem on_death_head_exec (s : State) (a b : Nat) (na nb : process_node Unit)
    (hhead : s.g.head = some a) (hca : cell s.mem (some a) = some na)
    (hnx : na.next = some b) (hba : b ≠ a) (hcb : cell s.mem (some b) = some nb) :
    on_death s na.pid = .ok
      { mem := s.mem.set a none,
        g := { head := some b, tail := s.g.tail },
        out := s.out ++ [.alarm SCHED_TQ_SEC, .kill nb.pid .SIGCONT] } := by
  have hal : a < s.mem.length := cell_lt hca
  simp [on_death, Machine.load, Machine.free, Machine.setg, Machine.emit, hhead, hca, hnx,
    cell_set, hal, hba, hcb]

/-- What the exit branch does when the only task dies. -/
theorem on_death_last_exec (s : State) (a : Nat) (na : process_node Unit)
    (hhead : s.g.head = some a) (hca : cell s.mem (some a) = some na) (hnx : na.next = none) :
    on_death s na.pid = .exit 0
      { mem := s.mem.set a none, g := { head := none, tail := s.g.tail }, out := s.out } := by
  simp [on_death, Machine.load, Machine.free, Machine.setg, hhead, hca, hnx]

/-- What the exit branch does when a task other than the head dies: `b` is the
cell before the cell `c` of the dead task. -/
theorem on_death_other_exec (s : State) (p : Int) (a b c : Nat) (na nb nc : process_node Unit)
    (hhead : s.g.head = some a) (hca : cell s.mem (some a) = some na) (hp : p ≠ na.pid)
    (hfind : (s.emit (.kill na.pid .SIGSTOP)).find_loop p s.fuel none (some a) =
      .ok (some b, some c))
    (hcb : cell s.mem (some b) = some nb) (hcc : cell s.mem (some c) = some nc)
    (hbc : b ≠ c) (hac : a ≠ c) :
    on_death s p = .ok
      { mem := (s.mem.set b (some { nb with next := nc.next })).set c none,
        g := if nc.next = none then { head := some a, tail := some b } else s.g,
        out := s.out ++ [.kill na.pid .SIGSTOP, .kill na.pid .SIGCONT] } := by
  have hbl : b < s.mem.length := cell_lt hcb
  have hcl : c < s.mem.length := cell_lt hcc
  have hcb2 : c ≠ b := Ne.symm hbc
  have hfind2 : Machine.find_loop
      ({ mem := s.mem, g := s.g, out := s.out ++ [.kill na.pid .SIGSTOP] } : State) p
      (s.mem.length + 1) none (some a) = .ok (some b, some c) := hfind
  by_cases hab : a = b
  · subst hab
    rw [hca] at hcb
    have hcb := Option.some.inj hcb
    subst hcb
    by_cases hn : nc.next = none
    · simp [on_death, Machine.load, Machine.free, Machine.setg, Machine.emit, Machine.set_next,
        Machine.store, hhead, hca, hp, hfind2, hcc, cell_set, hbl, hcl, hbc, hcb2, hac, hn,
        Machine.fuel]
    · simp [on_death, Machine.load, Machine.free, Machine.setg, Machine.emit, Machine.set_next,
        Machine.store, hhead, hca, hp, hfind2, hcc, cell_set, hbl, hcl, hbc, hcb2, hac, hn,
        Machine.fuel]
  · by_cases hn : nc.next = none
    · simp [on_death, Machine.load, Machine.free, Machine.setg, Machine.emit, Machine.set_next,
        Machine.store, hhead, hca, hp, hfind2, hcc, hcb, cell_set, hbl, hcl, hbc, hcb2, hac, hn,
        hab, Machine.fuel]
    · simp [on_death, Machine.load, Machine.free, Machine.setg, Machine.emit, Machine.set_next,
        Machine.store, hhead, hca, hp, hfind2, hcc, hcb, cell_set, hbl, hcl, hbc, hcb2, hac, hn,
        hab, Machine.fuel]

end SchedulerShell

end Sched

namespace Sched

namespace SchedulerShell

/-- What the `WIFSTOPPED` branch does when the only task is stopped. -/
theorem on_stop_single_exec (s : State) (a : Nat) (na : process_node Unit)
    (hhead : s.g.head = some a) (htail : s.g.tail = some a)
    (hca : cell s.mem (some a) = some na) :
    on_stop s na.pid = .ok
      { mem := (s.mem.set a (some { na with next := some a })).set a
          (some { na with next := none }),
        g := { head := some a, tail := some a },
        out := s.out ++ [.alarm SCHED_TQ_SEC, .kill na.pid .SIGCONT] } := by
  have hal : a < s.mem.length := cell_lt hca
  simp [on_stop, Machine.load, Machine.set_next, Machine.store, Machine.setg, Machine.emit,
    hhead, htail, hca, cell_set, hal]

/-- The registry only depends on memory and on the globals. -/
theorem Holds.of_eq {s s2 : State} {l : List (Nat × task Unit)} (h : Holds s l)
    (hm : s2.mem = s.mem) (hg : s2.g = s.g) : Holds s2 l := by
  unfold Holds at *
  rw [hm, hg]
  exact h

theorem Holds.head_cell {s : State} {a : Nat} {ta : task Unit} {t : List (Nat × task Unit)}
    (h : Holds s ((a, ta) :: t)) :
    s.g.head = some a ∧ cell s.mem (some a) = some (ta.node (first t)) := by
  obtain ⟨⟨hp, nx, hc, hrest⟩, _⟩ := h
  have := seg_start hrest
  subst this
  exact ⟨hp, hc⟩

/-- The head dies and other tasks remain: the rest of the list is the registry. -/
theorem on_death_head (s : State) (a : Nat) (ta : task Unit) (t : List (Nat × task Unit))
    (hl : Holds s ((a, ta) :: t)) (ht : t ≠ []) :
    ∃ s2, on_death s ta.pid = .ok s2 ∧ Holds s2 t ∧
      s2.out = s.out ++ [.alarm SCHED_TQ_SEC, .kill (t.head ht).2.pid .SIGCONT] := by
  obtain ⟨hhead, hca⟩ := hl.head_cell
  obtain ⟨hseg, htail⟩ := hl
  have hdrop := seg_drop_head hseg
  have hn := seg_not_mem hseg
  obtain ⟨_, nx, _, hrest⟩ := hseg
  obtain ⟨hnx, nxb, hcb⟩ := seg_head_cell hrest ht
  rw [hnx] at hcb
  have hba : (t.head ht).1 ≠ a := by
    intro e
    exact hn (e ▸ List.mem_map_of_mem _ (List.head_mem ht))
  have hex := on_death_head_exec s a _ _ _ hhead hca
    (by rw [task.node_next, first_eq_head _ ht]) hba hcb
  refine ⟨_, hex, ⟨?_, ?_⟩, rfl⟩
  · rw [first_eq_head _ ht] at hdrop
    exact hdrop
  · rw [htail]
    exact last_cons_ne _ _ ht

/-- The only task dies: the scheduler exits with code 0. -/
theorem on_death_last (s : State) (a : Nat) (ta : task Unit) (hl : Holds s [(a, ta)]) :
    ∃ s2, on_death s ta.pid = .exit 0 s2 := by
  obtain ⟨hhead, hca⟩ := hl.head_cell
  exact ⟨_, on_death_last_exec s a _ hhead hca rfl⟩

/-- The exit branch, when it returns, leaves a registry that is the old one
without one task. -/
theorem on_death_inv (s s2 : State) (p : Int) (l : List (Nat × task Unit))
    (hl : Holds s l) (hne : l ≠ []) (hrun : on_death s p = .ok s2) :
    ∃ l2, Holds s2 l2 ∧ l2 ≠ [] ∧ l2.Sublist l := by
  obtain ⟨⟨a, ta⟩, t, rfl⟩ := List.exists_cons_of_ne_nil hne
  obtain ⟨hhead, hca⟩ := hl.head_cell
  by_cases hp : p = ta.pid
  · subst hp
    by_cases ht : t = []
    · subst ht
      obtain ⟨s3, h3⟩ := on_death_last s a ta hl
      rw [h3] at hrun
      cases hrun
    · obtain ⟨s3, h3, hh, _⟩ := on_death_head s a ta t hl ht
      rw [h3] at hrun
      cases hrun
      exact ⟨t, hh, ht, List.sublist_cons_self _ _⟩
  · obtain ⟨hseg, htail⟩ := hl
    have hfuel : ((a, ta) :: t).length < s.fuel := seg_fuel hseg
    by_cases hmem : p ∈ pids ((a, ta) :: t)
    · obtain ⟨l1, c, tc, l2, hsplit, hpc, hn1⟩ := split_first_pid p _ hmem
      have hl1 : l1 ≠ [] := by
        intro e
        subst e
        simp only [List.nil_append, List.cons.injEq, Prod.mk.injEq] at hsplit
        exact hp (by rw [← hpc, ← hsplit.1.2])
      obtain ⟨l0, ⟨b, tb⟩, rfl⟩ := exists_snoc l1 hl1
      rw [hsplit] at hseg htail hfuel
      have hfind := find_loop_found (s.emit (.kill (ta.node (first t)).pid .SIGSTOP)) p c tc l2 hpc
        (l0 ++ [(b, tb)]) none (some a) s.fuel (by rw [← hhead]; exact hseg)
        (by simp only [List.length_append, List.length_cons] at hfuel ⊢; omega) hn1
      rw [last_concat] at hfind
      have hunl := seg_unlink hseg
      have hnd := seg_nodup _ _ hseg
      obtain ⟨r, h1, h2⟩ := (seg_append _ _ _ _).1 hseg
      obtain ⟨hcb, h0⟩ := seg_last_cell h1
      obtain ⟨hr, nx, hcc, hrest⟩ := h2
      have hnx := seg_start hrest
      subst hnx
      simp only [List.map_append, List.map_cons, List.map_nil] at hnd
      obtain ⟨hc, hnd2⟩ := List.nodup_cons.1 (List.nodup_middle.1 hnd)
      simp only [List.mem_append, List.mem_singleton, not_or] at hc
      have hbc : b ≠ c := fun e => hc.1.2 e.symm
      have hac : a ≠ c := by
        intro e
        have hain : a ∈ List.map Prod.fst (l0 ++ [(b, tb)]) := by
          have hh : ((a, ta) :: t).head? = (l0 ++ [(b, tb)] ++ (c, tc) :: l2).head? := by
            rw [hsplit]
          cases l0 with
          | nil =>
            simp at hh
            simp [hh.1]
          | cons y l0 =>
            simp at hh
            simp [← hh]
        simp only [List.map_append, List.map_cons, List.map_nil, List.mem_append,
          List.mem_singleton] at hain
        rcases hain with h | h
        · exact hc.1.1 (e ▸ h)
        · exact hc.1.2 (e ▸ h)
      have hex := on_death_other_exec s p a b c _ _ _ hhead hca hp hfind hcb hcc hbc hac
      rw [hex] at hrun
      cases hrun
      refine ⟨l0 ++ [(b, tb)] ++ l2, ⟨?_, ?_⟩, by simp, ?_⟩
      · simp only [task.node_next]
        have hh : s.g.head = (if first l2 = none then
            ({ head := some a, tail := some b } : Globals) else s.g).head := by
          split_ifs
          · exact hhead
          · rfl
        rw [← hh]
        exact hunl
      · simp only [task.node_next]
        by_cases hl2 : l2 = []
        · subst hl2
          simp [first, last_concat]
        · have hf : first l2 ≠ none := by
            rw [first_eq_head _ hl2]
            simp
          simp only [hf, if_false, htail]
          rw [last_append_ne _ _ (by simp), last_cons_ne _ _ hl2, last_append_ne _ _ hl2]
      · rw [hsplit]
        exact List.Sublist.append_left (List.sublist_cons_self _ _) _
    · have hfind := find_loop_absent (s.emit (.kill (ta.node (first t)).pid .SIGSTOP)) p _ none
        (some a) s.fuel (by rw [← hhead]; exact hseg) hfuel hmem
      have hfind2 : Machine.find_loop
          ({ mem := s.mem, g := s.g, out := s.out ++ [.kill ta.pid .SIGSTOP] } : State) p
          (s.mem.length + 1) none (some a) = .fault _ := hfind
      simp [on_death, Machine.load, hhead, hca, hp, Machine.emit, Machine.fuel, hfind2] at hrun

/-- The stop branch, when it returns, leaves a registry with the same tasks. -/
theorem on_stop_inv (s s2 : State) (p : Int) (l : List (Nat × task Unit))
    (hl : Holds s l) (hne : l ≠ []) (hrun : on_stop s p = .ok s2) :
    ∃ l2, Holds s2 l2 ∧ l2.Perm l := by
  obtain ⟨⟨a, ta⟩, t, rfl⟩ := List.exists_cons_of_ne_nil hne
  obtain ⟨hhead, hca⟩ := hl.head_cell
  by_cases hp : p = ta.pid
  · subst hp
    by_cases ht : t = []
    · subst ht
      have htail : s.g.tail = some a := hl.2
      have hex := on_stop_single_exec s a _ hhead htail hca
      rw [task.node_pid] at hex
      rw [hex] at hrun
      cases hrun
      refine ⟨[(a, ta)], ⟨⟨rfl, none, ?_, rfl⟩, rfl⟩, List.Perm.refl _⟩
      have hal : a < s.mem.length := cell_lt hca
      rw [cell_set _ _ _ _ (by simpa using hal)]
      simp [task.node]
    · obtain ⟨s3, h3, hh, _⟩ := on_stop_head s a ta t hl ht
      rw [h3] at hrun
      cases hrun
      exact ⟨_, hh, List.perm_append_singleton _ _⟩
  · have : on_stop s p = .ok s := by
      simp [on_stop, Machine.load, hhead, hca, hp]
    rw [this] at hrun
    cases hrun
    exact ⟨_, hl, List.Perm.refl _⟩

end SchedulerShell

end Sched

namespace Sched

namespace SchedulerShell

theorem cell_append {P : Type} (m : List (Option (process_node P))) (x : Option (process_node P))
    (b : Nat) :
    cell (m ++ [x]) (some b) =
      if b < m.length then cell m (some b) else if b = m.length then x else none := by
  by_cases h1 : b < m.length
  · simp [h1, cell_append_lt]
  · by_cases h2 : b = m.length
    · subst h2
      simp [cell_append_length]
    · have : m.length + 1 ≤ b := by omega
      simp [h1, h2, cell, List.getElem?_eq_none, this]

/-- A successful `sched_create_task` appends one task, with the id `maxid + 1`,
in a fresh cell, and sends nothing. -/
theorem sched_create_task_spec (s : State) (l : List (Nat × task Unit)) (hl : Holds s l)
    (hne : l ≠ []) (p : Int) (hp : 0 < p) (junk : process_node Unit) :
    ∃ s2, sched_create_task s p junk = .ok s2 ∧
      Holds s2 (l ++ [(s.mem.length, ⟨p, junk.prio, maxid_of l 0 + 1⟩)]) ∧ s2.out = s.out := by
  obtain ⟨hseg, htail⟩ := hl
  obtain ⟨l0, ⟨z, tz⟩, rfl⟩ := exists_snoc l hne
  rw [last_concat] at htail
  have hlt := seg_cell_lt _ _ _ hseg
  have hzl : z < s.mem.length := hlt z (by simp)
  obtain ⟨hcz, h0⟩ := seg_last_cell hseg
  have hp1 : ¬ p < 0 := by omega
  have hp2 : ¬ p = 0 := by omega
  have hzn : z ≠ s.mem.length := by omega
  have hnz : s.mem.length ≠ z := by omega
  unfold sched_create_task
  simp only [hp1, hp2, if_false, Machine.malloc, Machine.set_pid, Machine.load,
    cell_append_length, Run.ok_bind, Machine.store]
  have hnl : s.mem.length < (s.mem ++ [some junk]).length := by simp
  rw [maxid_loop_seg _ (l0 ++ [(z, tz)]) _ _ 0
    (seg_set _ (fun h => absurd (hlt _ h) (lt_irrefl _)) (seg_append_mem _ hseg))
    (by
      have := seg_length_le hseg
      simp only [Machine.fuel, List.length_set, List.length_append, List.length_cons,
        List.length_nil] at this ⊢
      omega)]
  simp [Machine.set_id, Machine.load, Machine.store, Machine.set_next, Machine.setg, cell_set,
    cell_append, htail, hcz, hzl, hzn, hnz]
  have hnd := seg_nodup _ _ hseg
  simp only [List.map_append, List.map_cons, List.map_nil] at hnd
  have hz0 : z ∉ l0.map Prod.fst := by
    have := (List.nodup_cons.1 (List.nodup_middle.1 hnd)).1
    simpa using this
  refine ⟨?_, ?_⟩
  · have h1 : Seg (s.mem.set z (some (tz.node (some s.mem.length))) ++
        [some ((⟨p, junk.prio, maxid_of (l0 ++ [(z, tz)]) 0 + 1⟩ : task Unit).node none)])
        s.g.head l0 (some z) := seg_append_mem _ (seg_set _ hz0 h0)
    have h2 := seg_snoc (seg_snoc h1 (q := some s.mem.length) (z := z) (t := tz)
        (by simp [cell_append, cell_set, hzl]))
      (q := none) (z := s.mem.length) (t := ⟨p, junk.prio, maxid_of (l0 ++ [(z, tz)]) 0 + 1⟩)
      (by simp [cell_append])
    simpa [task.node] using h2
  · have := last_concat (l0 ++ [(z, tz)])
      (s.mem.length, (⟨p, junk.prio, maxid_of (l0 ++ [(z, tz)]) 0 + 1⟩ : task Unit))
    simpa using this.symm

end SchedulerShell

end Sched

namespace Sched

namespace SchedulerShell

/-- Emitting an effect leaves the registry as it is. -/
theorem Holds.emit {s : State} {l : List (Nat × task Unit)} (h : Holds s l) (e : Effect) :
    Holds (s.emit e) l :=
  h.of_eq rfl rfl

theorem sigalrm_handler_inv (s s2 : State) (l : List (Nat × task Unit)) (hl : Holds s l)
    (hrun : sigalrm_handler s = .ok s2) : Holds s2 l := by
  unfold sigalrm_handler at hrun
  split_ifs at hrun
  · simp only [Machine.load] at hrun
    cases hc : cell s.mem s.g.head with
    | none => simp [hc] at hrun
    | some n =>
      simp only [hc, Run.ok_bind, Run.pure_eq, Run.ok.injEq] at hrun
      subst hrun
      exact hl.emit _
  · simp only [Run.pure_eq, Run.ok.injEq] at hrun
    subst hrun
    exact hl.emit _

theorem sched_kill_task_by_id_inv (s s2 : State) (id r : Int) (l : List (Nat × task Unit))
    (hl : Holds s l) (hrun : sched_kill_task_by_id s id = .ok (s2, r)) : Holds s2 l := by
  unfold sched_kill_task_by_id at hrun
  cases hk : s.kill_loop id s.fuel s.g.head with
  | ok s1 =>
    simp only [hk, Run.ok_bind, Run.pure_eq, Run.ok.injEq, Prod.mk.injEq] at hrun
    obtain ⟨hm, hg⟩ := kill_loop_frame s id _ _ _ hk
    rw [← hrun.1]
    exact hl.of_eq hm hg
  | exit c s1 => simp [hk] at hrun
  | fault s1 => simp [hk] at hrun
  | hang s1 => simp [hk] at hrun
  | exec s1 => simp [hk] at hrun

theorem sched_print_tasks_inv (s s2 : State) (hrun : sched_print_tasks s = .ok s2) : s2 = s := by
  unfold sched_print_tasks at hrun
  cases hk : s.print_loop s.fuel s.g.head with
  | ok u =>
    simp only [hk, Run.ok_bind, Run.pure_eq, Run.ok.injEq] at hrun
    exact hrun.symm
  | exit c s1 => simp [hk] at hrun
  | fault s1 => simp [hk] at hrun
  | hang s1 => simp [hk] at hrun
  | exec s1 => simp [hk] at hrun

theorem sigchld_step_inv (s s2 : State) (p : Int) (st : Status) (l : List (Nat × task Unit))
    (hl : Holds s l) (hne : l ≠ []) (hnd : (ids l).Nodup)
    (hrun : sigchld_step s p st = .ok s2) :
    ∃ l2, Holds s2 l2 ∧ l2 ≠ [] ∧ (ids l2).Nodup := by
  cases st with
  | exited =>
    simp only [sigchld_step, true_or, if_true, reduceCtorEq, if_false] at hrun
    cases hd : on_death s p with
    | ok s1 =>
      simp only [hd, Run.ok_bind, Run.pure_eq, Run.ok.injEq] at hrun
      subst hrun
      obtain ⟨l2, h2, hne2, hsub⟩ := on_death_inv s s1 p l hl hne hd
      exact ⟨l2, h2, hne2, hnd.sublist (hsub.map _)⟩
    | exit c s1 => simp [hd] at hrun
    | fault s1 => simp [hd] at hrun
    | hang s1 => simp [hd] at hrun
    | exec s1 => simp [hd] at hrun
  | signaled =>
    simp only [sigchld_step, or_true, if_true, reduceCtorEq, if_false] at hrun
    cases hd : on_death s p with
    | ok s1 =>
      simp only [hd, Run.ok_bind, Run.pure_eq, Run.ok.injEq] at hrun
      subst hrun
      obtain ⟨l2, h2, hne2, hsub⟩ := on_death_inv s s1 p l hl hne hd
      exact ⟨l2, h2, hne2, hnd.sublist (hsub.map _)⟩
    | exit c s1 => simp [hd] at hrun
    | fault s1 => simp [hd] at hrun
    | hang s1 => simp [hd] at hrun
    | exec s1 => simp [hd] at hrun
  | stopped =>
    simp only [sigchld_step, reduceCtorEq, or_self, if_false, Run.pure_eq, Run.ok_bind,
      if_true] at hrun
    obtain ⟨l2, h2, hperm⟩ := on_stop_inv s s2 p l hl hne hrun
    refine ⟨l2, h2, ?_, ?_⟩
    · intro e
      subst e
      exact hne (List.Perm.nil_eq hperm).symm
    · exact ((hperm.map _).nodup_iff).2 hnd

theorem sigchld_handler_inv :
    ∀ (evs : List (Int × Status)) (s s2 : State) (l : List (Nat × task Unit)),
    Holds s l → l ≠ [] → (ids l).Nodup → sigchld_handler s evs = .ok s2 →
    ∃ l2, Holds s2 l2 ∧ l2 ≠ [] ∧ (ids l2).Nodup
  | [], s, s2, l, hl, hne, hnd, hrun => by
    simp only [sigchld_handler, Run.ok.injEq] at hrun
    subst hrun
    exact ⟨l, hl, hne, hnd⟩
  | (p, st) :: evs, s, s2, l, hl, hne, hnd, hrun => by
    simp only [sigchld_handler] at hrun
    split_ifs at hrun with h1 h2
    · simp only [Run.ok.injEq] at hrun
      subst hrun
      exact ⟨l, hl, hne, hnd⟩
    · cases hd : sigchld_step s p st with
      | ok s1 =>
        simp only [hd, Run.ok_bind] at hrun
        obtain ⟨l1, hl1, hne1, hnd1⟩ := sigchld_step_inv s s1 p st l hl hne hnd hd
        exact sigchld_handler_inv evs s1 s2 l1 hl1 hne1 hnd1 hrun
      | exit c s1 => simp [hd] at hrun
      | fault s1 => simp [hd] at hrun
      | hang s1 => simp [hd] at hrun
      | exec s1 => simp [hd] at hrun

end SchedulerShell

end Sched

namespace Sched

namespace SchedulerShell

/-- One iteration of the loop of `main` appends the task with the given id. -/
theorem add_task_spec (s : State) (l : List (Nat × task Unit)) (hl : Holds s l)
    (hne : l ≠ []) (p i : Int) (junk : process_node Unit) :
    ∃ s2, add_task s p i junk = .ok s2 ∧
      Holds s2 (l ++ [(s.mem.length, ⟨p, junk.prio, i⟩)]) ∧ s2.out = s.out := by
  obtain ⟨hseg, htail⟩ := hl
  obtain ⟨l0, ⟨z, tz⟩, rfl⟩ := exists_snoc l hne
  rw [last_concat] at htail
  have hlt := seg_cell_lt _ _ _ hseg
  have hzl : z < s.mem.length := hlt z (by simp)
  obtain ⟨hcz, h0⟩ := seg_last_cell hseg
  have hzn : z ≠ s.mem.length := by omega
  have hnz : s.mem.length ≠ z := by omega
  simp [add_task, Machine.malloc, Machine.set_pid, Machine.set_id, Machine.load, Machine.store,
    Machine.set_next, Machine.setg, cell_set, cell_append, htail, hcz, hzl, hzn, hnz]
  have hnd := seg_nodup _ _ hseg
  simp only [List.map_append, List.map_cons, List.map_nil] at hnd
  have hz0 : z ∉ l0.map Prod.fst := by
    have := (List.nodup_cons.1 (List.nodup_middle.1 hnd)).1
    simpa using this
  refine ⟨?_, ?_⟩
  · have h1 : Seg (s.mem.set z (some (tz.node (some s.mem.length))) ++
        [some ((⟨p, junk.prio, i⟩ : task Unit).node none)])
        s.g.head l0 (some z) := seg_append_mem _ (seg_set _ hz0 h0)
    have h2 := seg_snoc (seg_snoc h1 (q := some s.mem.length) (z := z) (t := tz)
        (by simp [cell_append, cell_set, hzl]))
      (q := none) (z := s.mem.length) (t := ⟨p, junk.prio, i⟩)
      (by simp [cell_append])
    simpa [task.node] using h2
  · have := last_concat (l0 ++ [(z, tz)]) (s.mem.length, (⟨p, junk.prio, i⟩ : task Unit))
    simpa using this.symm

/-- The loop of `main` appends the tasks with consecutive ids from `i` on. -/
theorem add_tasks_spec :
    ∀ (tasks : List (Int × process_node Unit)) (s : State) (l : List (Nat × task Unit)) (i : Int),
    Holds s l → l ≠ [] →
    ∃ s2 l2, add_tasks s i tasks = .ok s2 ∧ Holds s2 (l ++ l2) ∧ s2.out = s.out ∧
      ids l2 = (List.range tasks.length).map (fun k : Nat => i + (k : Int))
  | [], s, l, i, hl, _ => ⟨s, [], rfl, by simpa using hl, rfl, rfl⟩
  | (p, junk) :: rest, s, l, i, hl, hne => by
    obtain ⟨s1, h1, hl1, ho1⟩ := add_task_spec s l hl hne p i junk
    obtain ⟨s2, l2, h2, hl2, ho2, hid⟩ := add_tasks_spec rest s1 _ (i + 1) hl1 (by simp)
    refine ⟨s2, (s.mem.length, ⟨p, junk.prio, i⟩) :: l2, ?_, ?_, ?_, ?_⟩
    · simp [add_tasks, h1, h2]
    · simpa using hl2
    · rw [ho2, ho1]
    · simp only [ids, List.map_cons, List.length_cons, List.range_succ_eq_map, List.map_map]
      simp only [ids] at hid
      rw [hid]
      simp only [Nat.cast_zero, add_zero, List.cons.injEq, true_and]
      apply List.map_congr_left
      intro k _
      simp only [Function.comp_apply, Nat.cast_succ]
      ring

/-- The function `main` sets up the registry of the shell, with id 0, followed
by the tasks of the command line, with ids 1 to N. -/
theorem main_spec (shell : Int × process_node Unit) (tasks : List (Int × process_node Unit)) :
    ∃ s l, main shell tasks = .ok s ∧ Holds s l ∧
      ids l = (List.range (tasks.length + 1)).map (fun k : Nat => (k : Int)) := by
  have h0 : Holds
      ({ mem := [some ((⟨shell.1, shell.2.prio, 0⟩ : task Unit).node none)],
         g := { head := some 0, tail := some 0 }, out := [] } : State)
      [(0, ⟨shell.1, shell.2.prio, 0⟩)] := ⟨⟨rfl, none, rfl, rfl⟩, rfl⟩
  obtain ⟨s2, l2, h2, hl2, ho2, hid⟩ := add_tasks_spec tasks _ _ 1 h0 (by simp)
  obtain ⟨hhead, hca⟩ := hl2.head_cell
  have hshell : sched_create_shell shell.1 shell.2 = .ok
      { mem := [some ((⟨shell.1, shell.2.prio, 0⟩ : task Unit).node none)],
        g := { head := some 0, tail := some 0 }, out := [] } := by
    simp [sched_create_shell, Machine.malloc, Machine.set_pid, Machine.set_id, Machine.load,
      Machine.store, Machine.set_next, Machine.setg, cell, task.node]
  refine ⟨(s2.emit (.kill shell.1 .SIGCONT)).emit (.alarm SCHED_TQ_SEC), _, ?_,
    (hl2.emit _).emit _, ?_⟩
  · simp only [main, hshell, Run.ok_bind, h2, Machine.load, hhead, hca, Run.pure_eq,
      task.node_pid]
  · simp only [ids, List.map_cons, List.singleton_append, List.range_succ_eq_map, List.map_map]
    simp only [ids] at hid
    rw [hid]
    simp only [Nat.cast_zero, List.cons.injEq, true_and]
    apply List.map_congr_left
    intro k _
    simp only [Function.comp_apply, Nat.cast_succ]
    ring

theorem range_cast_nodup (n : Nat) : ((List.range n).map (fun k : Nat => (k : Int))).Nodup :=
  (List.nodup_range n).map (fun _ _ h => Int.ofNat.inj h)

theorem sched_create_task_inv (s s2 : State) (p : Int) (junk : process_node Unit)
    (l : List (Nat × task Unit)) (hl : Holds s l) (hne : l ≠ []) (hnd : (ids l).Nodup)
    (hrun : sched_create_task s p junk = .ok s2) :
    ∃ a t, Holds s2 (l ++ [(a, t)]) ∧ t.id ∉ ids l ∧ (ids (l ++ [(a, t)])).Nodup := by
  have hp : 0 < p := by
    by_contra hp
    unfold sched_create_task at hrun
    split_ifs at hrun with h1 h2
    omega
  obtain ⟨s3, h3, hl3, _⟩ := sched_create_task_spec s l hl hne p hp junk
  rw [h3] at hrun
  cases hrun
  refine ⟨_, _, hl3, fresh_id_not_mem l 0, ?_⟩
  simp only [ids, List.map_append, List.map_cons, List.map_nil]
  exact List.Nodup.append hnd (List.nodup_singleton _)
    (by
      intro x hx hx2
      simp only [List.mem_singleton] at hx2
      subst hx2
      exact fresh_id_not_mem l 0 hx)

theorem process_request_inv (s s2 : State) (rq : request_struct) (p r : Int)
    (junk : process_node Unit) (l : List (Nat × task Unit)) (hl : Holds s l) (hne : l ≠ [])
    (hnd : (ids l).Nodup) (hrun : process_request s rq p junk = .ok (s2, r)) :
    ∃ l2, Holds s2 l2 ∧ l2 ≠ [] ∧ (ids l2).Nodup := by
  unfold process_request at hrun
  split at hrun
  · cases hk : sched_print_tasks s with
    | ok s1 =>
      simp only [hk, Run.ok_bind, Run.pure_eq, Run.ok.injEq, Prod.mk.injEq] at hrun
      have := sched_print_tasks_inv s s1 hk
      rw [← hrun.1, this]
      exact ⟨l, hl, hne, hnd⟩
    | exit c s1 => simp [hk] at hrun
    | fault s1 => simp [hk] at hrun
    | hang s1 => simp [hk] at hrun
    | exec s1 => simp [hk] at hrun
  · exact ⟨l, sched_kill_task_by_id_inv s s2 _ r l hl hrun, hne, hnd⟩
  · cases hk : sched_create_task s p junk with
    | ok s1 =>
      simp only [hk, Run.ok_bind, Run.pure_eq, Run.ok.injEq, Prod.mk.injEq] at hrun
      obtain ⟨a, t, h1, _, h3⟩ := sched_create_task_inv s s1 p junk l hl hne hnd hk
      rw [← hrun.1]
      exact ⟨_, h1, by simp, h3⟩
    | exit c s1 => simp [hk] at hrun
    | fault s1 => simp [hk] at hrun
    | hang s1 => simp [hk] at hrun
    | exec s1 => simp [hk] at hrun
  · simp only [Run.pure_eq, Run.ok.injEq, Prod.mk.injEq] at hrun
    rw [← hrun.1]
    exact ⟨l, hl, hne, hnd⟩

/-- Every reachable state of `scheduler-shell.c` holds a non-empty registry
whose ids are pairwise distinct. -/
theorem reachable_inv (s : State) (h : Reachable s) :
    ∃ l, Holds s l ∧ l ≠ [] ∧ (ids l).Nodup := by
  induction h with
  | init shell tasks s hmain =>
    obtain ⟨s1, l, h1, hl, hid⟩ := main_spec shell tasks
    rw [h1] at hmain
    cases hmain
    refine ⟨l, hl, ?_, ?_⟩
    · intro e
      subst e
      simp [ids, List.range_succ_eq_map] at hid
    · rw [hid]
      exact range_cast_nodup _
  | step s s2 e _ hstep ih =>
    obtain ⟨l, hl, hne, hnd⟩ := ih
    cases e with
    | request rq p junk =>
      simp only [step] at hstep
      cases hk : process_request s rq p junk with
      | ok r =>
        simp only [hk, Run.ok_bind, Run.pure_eq, Run.ok.injEq] at hstep
        subst hstep
        exact process_request_inv s r.1 rq p r.2 junk l hl hne hnd hk
      | exit c s1 => simp [hk] at hstep
      | fault s1 => simp [hk] at hstep
      | hang s1 => simp [hk] at hstep
      | exec s1 => simp [hk] at hstep
    | sigalrm => exact ⟨l, sigalrm_handler_inv s s2 l hl hstep, hne, hnd⟩
    | sigchld evs => exact sigchld_handler_inv evs s s2 l hl hne hnd hstep

end SchedulerShell

end Sched

namespace Sched

namespace SchedulerShell

/-! ## The claims about `scheduler-shell.c` -/

/-- C4: in every state of `scheduler-shell.c` reachable from the list that
`main` sets up (the shell with id 0, then ids 1 to N) through requests, timer
events and child events, the registry is a well-formed list whose ids are
pairwise distinct, and a `sched_create_task` that returns appends one task
whose id differs from every id already in the list. -/
theorem C4_ids_pairwise_distinct (s : State) (h : Reachable s) :
    ∃ l, Holds s l ∧ (ids l).Nodup ∧
      ∀ (p : Int) (junk : process_node Unit) (s2 : State),
        sched_create_task s p junk = .ok s2 →
        ∃ a t, Holds s2 (l ++ [(a, t)]) ∧ t.id ∉ ids l := by
  obtain ⟨l, hl, hne, hnd⟩ := reachable_inv s h
  refine ⟨l, hl, hnd, ?_⟩
  intro p junk s2 hrun
  obtain ⟨a, t, h1, h2, _⟩ := sched_create_task_inv s s2 p junk l hl hne hnd hrun
  exact ⟨a, t, h1, h2⟩

theorem C4_witness :
    Reachable ex_init ∧
    ∃ l, Holds ex_init l ∧ (ids l).Nodup ∧
      ∀ (p : Int) (junk : process_node Unit) (s2 : State),
        sched_create_task ex_init p junk = .ok s2 →
        ∃ a t, Holds s2 (l ++ [(a, t)]) ∧ t.id ∉ ids l :=
  have hr : Reachable ex_init :=
    Reachable.init (100, ⟨0, (), 0, none⟩) [(101, ⟨0, (), 0, none⟩)] ex_init rfl
  ⟨hr, C4_ids_pairwise_distinct ex_init hr⟩

/-- C5: for a registry `h :: t`, an `exited` or `killed` notification for the
pid of `h` makes `sigchld_handler` return with the registry `t`, having
re-armed the timer and sent `SIGCONT` to the first task of `t`, when `t` is
not empty, and makes the scheduler exit with code 0 when `t` is empty. -/
theorem C5_head_death (s : State) (h : Nat × task Unit) (t : List (Nat × task Unit))
    (hl : Holds s (h :: t)) (hpid : 0 < h.2.pid) (st : Status)
    (hst : st = .exited ∨ st = .signaled) :
    (∀ ht : t ≠ [], ∃ s2, sigchld_handler s [(h.2.pid, st)] = .ok s2 ∧ Holds s2 t ∧
      s2.out = s.out ++ [.alarm SCHED_TQ_SEC, .kill (t.head ht).2.pid .SIGCONT]) ∧
    (t = [] → ∃ s2, sigchld_handler s [(h.2.pid, st)] = .exit 0 s2) := by
  obtain ⟨a, ta⟩ := h
  have hp1 : ¬ ta.pid < 0 := by
    simp only at hpid
    omega
  have hp2 : ¬ ta.pid = 0 := by
    simp only at hpid
    omega
  have hns : ¬ st = .stopped := by
    rcases hst with e | e <;> simp [e]
  constructor
  · intro ht
    obtain ⟨s2, h1, h2, h3⟩ := on_death_head s a ta t hl ht
    exact ⟨s2, by simp [sigchld_handler, sigchld_step, hp1, hp2, hst, hns, h1], h2, h3⟩
  · intro ht
    subst ht
    obtain ⟨s2, h1⟩ := on_death_last s a ta hl
    exact ⟨s2, by simp [sigchld_handler, sigchld_step, hp1, hp2, hst, h1]⟩

theorem C5_witness :
    Holds ex3 [(0, ⟨101, (), 1⟩), (1, ⟨102, (), 2⟩), (2, ⟨103, (), 3⟩)] ∧
    (∀ ht : [(1, (⟨102, (), 2⟩ : task Unit)), (2, ⟨103, (), 3⟩)] ≠ [],
      ∃ s2, sigchld_handler ex3 [(101, .exited)] = .ok s2 ∧
        Holds s2 [(1, ⟨102, (), 2⟩), (2, ⟨103, (), 3⟩)] ∧
        s2.out = ex3.out ++ [.alarm SCHED_TQ_SEC,
          .kill (([(1, (⟨102, (), 2⟩ : task Unit)), (2, ⟨103, (), 3⟩)]).head ht).2.pid .SIGCONT]) ∧
    ([(1, (⟨102, (), 2⟩ : task Unit)), (2, ⟨103, (), 3⟩)] = [] →
      ∃ s2, sigchld_handler ex3 [(101, .exited)] = .exit 0 s2) :=
  have hl : Holds ex3 [(0, ⟨101, (), 1⟩), (1, ⟨102, (), 2⟩), (2, ⟨103, (), 3⟩)] :=
    ⟨⟨rfl, _, rfl, rfl, _, rfl, rfl, _, rfl, rfl⟩, rfl⟩
  ⟨hl, C5_head_death ex3 (0, ⟨101, (), 1⟩) [(1, ⟨102, (), 2⟩), (2, ⟨103, (), 3⟩)] hl
    (by decide) .exited (Or.inl rfl)⟩

/-- C9, as the code has it: for a registry `l` and an id that no task of `l`
has, `process_request` answers a KILL request with the id itself, whatever its
sign; it sends no signal and leaves the registry as it is. -/
theorem C9_kill_absent_returns_id (s : State) (l : List (Nat × task Unit)) (hl : Holds s l)
    (id : Int) (hid : id ∉ ids l) (path : String) (p : Int) (junk : process_node Unit) :
    process_request s ⟨.REQ_KILL_TASK, id, path⟩ p junk = .ok (s, id) := by
  have := kill_loop_absent s id l s.g.head s.fuel hl.1 (seg_fuel hl.1) hid
  simp [process_request, sched_kill_task_by_id, this]

theorem C9_witness :
    Holds ex3 [(0, ⟨101, (), 1⟩), (1, ⟨102, (), 2⟩), (2, ⟨103, (), 3⟩)] ∧
    (42 : Int) ∉ ids [(0, (⟨101, (), 1⟩ : task Unit)), (1, ⟨102, (), 2⟩), (2, ⟨103, (), 3⟩)] ∧
    process_request ex3 ⟨.REQ_KILL_TASK, 42, ""⟩ 0 ⟨0, (), 0, none⟩ = .ok (ex3, 42) :=
  have hl : Holds ex3 [(0, ⟨101, (), 1⟩), (1, ⟨102, (), 2⟩), (2, ⟨103, (), 3⟩)] :=
    ⟨⟨rfl, _, rfl, rfl, _, rfl, rfl, _, rfl, rfl⟩, rfl⟩
  ⟨hl, by decide, C9_kill_absent_returns_id ex3 _ hl 42 (by decide) "" 0 ⟨0, (), 0, none⟩⟩

/-- C9 as stated fails: with the tasks 1, 2, 3 in the registry, the answer to
`KILL(42)` is 42, which is not negative. -/
theorem C9_counterexample :
    Holds ex3 [(0, ⟨101, (), 1⟩), (1, ⟨102, (), 2⟩), (2, ⟨103, (), 3⟩)] ∧
    (42 : Int) ∉ ids [(0, (⟨101, (), 1⟩ : task Unit)), (1, ⟨102, (), 2⟩), (2, ⟨103, (), 3⟩)] ∧
    ∃ r, process_request ex3 ⟨.REQ_KILL_TASK, 42, ""⟩ 0 ⟨0, (), 0, none⟩ = .ok (ex3, r) ∧
      ¬ r < 0 :=
  ⟨⟨⟨rfl, _, rfl, rfl, _, rfl, rfl, _, rfl, rfl⟩, rfl⟩, by decide, 42, by decide, by decide⟩

end SchedulerShell

end Sched

namespace Sched

namespace Scheduler

/-! ## The claim about `scheduler.c` -/

/-- C8, what the code does at the failing input: with the tasks 1 and 2 in the
registry and task 1 at the head, a `stopped` notification for the pid of task
2, which is not the head, makes `sigchld_handler` move the head behind the
tail: the order becomes 2, 1, the timer is re-armed and task 2 is continued. -/
theorem C8_stray_stop_rotates :
    Holds ex2 [(0, ⟨201, (), 1⟩), (1, ⟨202, (), 2⟩)] ∧ (202 : Int) ≠ 201 ∧
    ∃ s2, sigchld_handler ex2 [(202, .stopped)] = .ok s2 ∧
      Holds s2 [(1, ⟨202, (), 2⟩), (0, ⟨201, (), 1⟩)] ∧
      s2.out = [.alarm SCHED_TQ_SEC, .kill 202 .SIGCONT] :=
  ⟨⟨⟨rfl, _, rfl, rfl, _, rfl, rfl⟩, rfl⟩, by decide,
    _, rfl, ⟨⟨rfl, _, rfl, rfl, _, rfl, rfl⟩, rfl⟩, rfl⟩

end Scheduler

end Sched

namespace Sched

namespace SchedulerShellPrio

/-! ## The claims about `scheduler-shell-prio.c` -/

/-- C6, what the code does at the failing input: with an empty HIGH queue and
the tasks 1 and 2 in the LOW queue, the `exited` notification for task 1 makes
`sigchld_handler` call `exit(0)` although task 2 is still in the LOW queue. -/
theorem C6_exit_with_task_left :
    Holds ex_ll [] [(0, ⟨301, 'l', 1⟩), (1, ⟨302, 'l', 2⟩)] ∧
    ∃ s2, sigchld_handler ex_ll [(301, .exited, ⟨0, 'l', 0, none⟩)] = .exit 0 s2 ∧
      Holds s2 [] [(1, ⟨302, 'l', 2⟩)] :=
  ⟨⟨rfl, rfl, ⟨rfl, _, rfl, rfl, _, rfl, rfl⟩, rfl⟩,
    _, rfl, ⟨rfl, rfl, ⟨rfl, _, rfl, rfl⟩, rfl⟩⟩

/-- C7, what the code does at the failing input: with the tasks 1, 2 in the HIGH
queue and 3, 4 in the LOW queue, the `exited` notification for task 1 removes
task 1 from the HIGH queue and then runs the block meant for LOW tasks as
well: task 3 is dropped from the LOW queue, which is left holding task 4
alone, and the node of task 1 is freed a second time, where the handler
faults. -/
theorem C7_high_exit_changes_low :
    Holds ex_hhll [(0, ⟨301, 'h', 1⟩), (1, ⟨302, 'h', 2⟩)]
      [(2, ⟨303, 'l', 3⟩), (3, ⟨304, 'l', 4⟩)] ∧
    ∃ s2, sigchld_handler ex_hhll [(301, .exited, ⟨0, 'l', 0, none⟩)] = .fault s2 ∧
      Holds s2 [(1, ⟨302, 'h', 2⟩)] [(3, ⟨304, 'l', 4⟩)] :=
  ⟨⟨⟨rfl, _, rfl, rfl, _, rfl, rfl⟩, rfl, ⟨rfl, _, rfl, rfl, _, rfl, rfl⟩, rfl⟩,
    _, rfl, ⟨⟨rfl, _, rfl, rfl⟩, rfl, ⟨rfl, _, rfl, rfl⟩, rfl⟩⟩

/-- C10, what the code does at the failing input: with task 1 in the HIGH queue
and task 2 in the LOW queue, `sched_kill_task_by_id(2)` searches the HIGH
queue only, sends no signal and returns, although task 2 is in the registry. -/
theorem C10_kill_low_task_not_found :
    Holds ex_hl [(0, ⟨301, 'h', 1⟩)] [(1, ⟨302, 'l', 2⟩)] ∧
    sched_kill_task_by_id ex_hl 2 = .ok (ex_hl, 2) ∧ ex_hl.out = [] :=
  ⟨⟨⟨rfl, _, rfl, rfl⟩, rfl, ⟨rfl, _, rfl, rfl⟩, rfl⟩, rfl, rfl⟩

end SchedulerShellPrio

end Sched

namespace Sched

namespace SchedulerPrioLab

/-! ## `scheduler-prio-lab.c` -/

theorem exec_all_reachable :
    ∀ (es : List Event) (sr sr2 : State × List Int),
    Reachable sr → exec_all sr es = .ok sr2 → Reachable sr2
  | [], sr, sr2, h, hrun => by
    simp only [exec_all, Run.ok.injEq] at hrun
    subst hrun
    exact h
  | e :: es, sr, sr2, h, hrun => by
    simp only [exec_all] at hrun
    cases he : exec sr e with
    | ok sr1 =>
      simp only [he, Run.ok_bind] at hrun
      exact exec_all_reachable es sr1 sr2 (Reachable.step sr sr1 e h he) hrun
    | exit c s1 => simp [he] at hrun
    | fault s1 => simp [he] at hrun
    | hang s1 => simp [he] at hrun
    | exec s1 => simp [he] at hrun

theorem run_reachable (shell : Int × process_node Char) (tasks : List (Int × process_node Char))
    (es : List Event) (sr : State × List Int) (hrun : run shell tasks es = .ok sr) :
    Reachable sr := by
  simp only [run] at hrun
  cases hs : start shell tasks with
  | ok sr0 =>
    simp only [hs, Run.ok_bind] at hrun
    exact exec_all_reachable es sr0 sr (Reachable.init shell tasks sr0 hs) hrun
  | exit c s1 => simp [hs] at hrun
  | fault s1 => simp [hs] at hrun
  | hang s1 => simp [hs] at hrun
  | exec s1 => simp [hs] at hrun

/-- C3, what the code does at the failing input: from the shell (pid 100, id 0)
and the tasks 1 and 2, the events `RAISE(1)`, `LOWER(0)`, `SPAWN` of a child
with pid 103 and the `stopped` notification of that child lead to a state in
which both task 1 (pid 101) and the shell (pid 100) are RUNNING. -/
theorem C3_two_running :
    run (100, junk0) [(101, junk0), (102, junk0)] c3_events = .ok (c3_state, [101, 100]) ∧
    Reachable (c3_state, [101, 100]) ∧
    Holds c3_state [(1, ⟨101, 'h', 1⟩)]
      [(2, ⟨102, 'l', 2⟩), (0, ⟨100, 'l', 0⟩), (3, ⟨103, 'l', 3⟩)] :=
  ⟨rfl, run_reachable (100, junk0) [(101, junk0), (102, junk0)] c3_events _ rfl,
    ⟨⟨rfl, _, rfl, rfl, _, rfl, rfl, _, rfl, rfl, _, rfl, rfl⟩, rfl, rfl, by decide, by decide⟩⟩

end SchedulerPrioLab

end Sched

namespace Sched

/-! ## Taking a computation apart -/

theorem Run.bind_eq_ok {σ α β : Type} {x : Run σ α} {f : α → Run σ β} {b : β} :
    (x >>= f) = Run.ok b ↔ ∃ a, x = Run.ok a ∧ f a = Run.ok b := by
  cases x with
  | ok a => simp
  | exit c s => simp
  | fault s => simp
  | hang s => simp
  | exec s => simp

section Primitives

variable {G P : Type}

theorem Machine.load_eq_ok {s : Machine G P} {p : Option Nat} {n : process_node P} :
    s.load p = .ok n ↔ cell s.mem p = some n := by
  unfold Machine.load
  cases h : cell s.mem p <;> simp

/-- A store that returns has overwritten a live cell. -/
theorem Machine.store_eq_ok {s s2 : Machine G P} {p : Option Nat} {m : process_node P}
    (h : s.store p m = .ok s2) :
    ∃ a n, p = some a ∧ cell s.mem (some a) = some n ∧
      s2 = { s with mem := s.mem.set a (some m) } := by
  unfold Machine.store at h
  cases p with
  | none => simp at h
  | some a =>
    cases hc : cell s.mem (some a) with
    | none => simp [hc] at h
    | some n =>
      simp only [hc, Run.ok.injEq] at h
      exact ⟨a, n, rfl, hc, h.symm⟩

theorem Machine.set_next_eq_ok {s s2 : Machine G P} {p v : Option Nat}
    (h : s.set_next p v = .ok s2) :
    ∃ a n, p = some a ∧ cell s.mem (some a) = some n ∧
      s2 = { s with mem := s.mem.set a (some { n with next := v }) } := by
  simp only [Machine.set_next, Run.bind_eq_ok, Machine.load_eq_ok] at h
  obtain ⟨n, hn, hs⟩ := h
  obtain ⟨a, n2, rfl, hc, rfl⟩ := Machine.store_eq_ok hs
  exact ⟨a, n, rfl, hn, rfl⟩

theorem Machine.set_prio_eq_ok {s s2 : Machine G P} {p : Option Nat} {c : P}
    (h : s.set_prio p c = .ok s2) :
    ∃ a n, p = some a ∧ cell s.mem (some a) = some n ∧
      s2 = { s with mem := s.mem.set a (some { n with prio := c }) } := by
  simp only [Machine.set_prio, Run.bind_eq_ok, Machine.load_eq_ok] at h
  obtain ⟨n, hn, hs⟩ := h
  obtain ⟨a, n2, rfl, hc, rfl⟩ := Machine.store_eq_ok hs
  exact ⟨a, n, rfl, hn, rfl⟩

theorem Machine.set_pid_eq_ok {s s2 : Machine G P} {p : Option Nat} {c : Int}
    (h : s.set_pid p c = .ok s2) :
    ∃ a n, p = some a ∧ cell s.mem (some a) = some n ∧
      s2 = { s with mem := s.mem.set a (some { n with pid := c }) } := by
  simp only [Machine.set_pid, Run.bind_eq_ok, Machine.load_eq_ok] at h
  obtain ⟨n, hn, hs⟩ := h
  obtain ⟨a, n2, rfl, hc, rfl⟩ := Machine.store_eq_ok hs
  exact ⟨a, n, rfl, hn, rfl⟩

theorem Machine.set_id_eq_ok {s s2 : Machine G P} {p : Option Nat} {c : Int}
    (h : s.set_id p c = .ok s2) :
    ∃ a n, p = some a ∧ cell s.mem (some a) = some n ∧
      s2 = { s with mem := s.mem.set a (some { n with id := c }) } := by
  simp only [Machine.set_id, Run.bind_eq_ok, Machine.load_eq_ok] at h
  obtain ⟨n, hn, hs⟩ := h
  obtain ⟨a, n2, rfl, hc, rfl⟩ := Machine.store_eq_ok hs
  exact ⟨a, n, rfl, hn, rfl⟩

theorem Machine.free_eq_ok {s s2 : Machine G P} {p : Option Nat} (h : s.free p = .ok s2) :
    (p = none ∧ s2 = s) ∨
    ∃ a n, p = some a ∧ cell s.mem (some a) = some n ∧ s2 = { s with mem := s.mem.set a none } := by
  unfold Machine.free at h
  cases p with
  | none =>
    simp only [Run.ok.injEq] at h
    exact Or.inl ⟨rfl, h.symm⟩
  | some a =>
    cases hc : cell s.mem (some a) with
    | none => simp [hc] at h
    | some n =>
      simp only [hc, Run.ok.injEq] at h
      exact Or.inr ⟨a, n, rfl, hc, h.symm⟩

end Primitives

namespace SchedulerPrioLab

/-! ## What the operations of `scheduler-prio-lab.c` leave alone -/

theorem Quiet.qrefl (s : State) : Quiet s s := ⟨rfl, rfl, rfl⟩

theorem Quiet.qtrans {s s2 s3 : State} (h1 : Quiet s s2) (h2 : Quiet s2 s3) : Quiet s s3 :=
  ⟨h2.1.trans h1.1, h2.2.1.trans h1.2.1, h2.2.2.trans h1.2.2⟩

theorem KeepsAt.krefl (a : Nat) (s : State) : KeepsAt a s s :=
  fun n h => ⟨n, h, rfl, rfl⟩

theorem KeepsAt.ktrans {a : Nat} {s s2 s3 : State} (h1 : KeepsAt a s s2) (h2 : KeepsAt a s2 s3) :
    KeepsAt a s s3 := by
  intro n hn
  obtain ⟨n2, hc2, hp2, hq2⟩ := h1 n hn
  obtain ⟨n3, hc3, hp3, hq3⟩ := h2 n2 hc2
  exact ⟨n3, hc3, hp3.trans hp2, hq3.trans hq2⟩

theorem Promotes.prefl (s : State) : Promotes s s :=
  fun _ n h => ⟨n, h, rfl, Or.inl rfl⟩

theorem Promotes.ptrans {s s2 s3 : State} (h1 : Promotes s s2) (h2 : Promotes s2 s3) :
    Promotes s s3 := by
  intro a n hn
  obtain ⟨n2, hc2, hp2, hq2⟩ := h1 a n hn
  obtain ⟨n3, hc3, hp3, hq3⟩ := h2 a n2 hc2
  refine ⟨n3, hc3, hp3.trans hp2, ?_⟩
  rcases hq3 with h | h
  · rcases hq2 with h' | h'
    · exact Or.inl (h.trans h')
    · exact Or.inr (h.trans h')
  · exact Or.inr h

theorem KeepsAt.promotes_of_all {s s2 : State} (h : ∀ a, KeepsAt a s s2) : Promotes s s2 := by
  intro a n hn
  obtain ⟨n2, hc, hp, hq⟩ := h a n hn
  exact ⟨n2, hc, hp, Or.inl hq⟩

/-- Writing a `next` field changes no pid and no tier. -/
theorem set_next_keeps {s s2 : State} {p v : Option Nat} (h : s.set_next p v = .ok s2)
    (a : Nat) : Quiet s s2 ∧ s2.g = s.g ∧ KeepsAt a s s2 := by
  obtain ⟨b, n, rfl, hc, rfl⟩ := Machine.set_next_eq_ok h
  refine ⟨⟨rfl, rfl, rfl⟩, rfl, ?_⟩
  intro m hm
  by_cases hab : a = b
  · subst hab
    rw [hc] at hm
    have hmn := Option.some.inj hm
    subst hmn
    exact ⟨{ n with next := v }, by rw [cell_set _ _ _ _ (cell_lt hc)]; simp, rfl, rfl⟩
  · exact ⟨m, by rw [cell_set_ne _ _ _ _ hab]; exact hm, rfl, rfl⟩

/-- Writing the `prio` field of another cell changes no pid and no tier here. -/
theorem set_prio_keeps {s s2 : State} {p : Option Nat} {c : Char}
    (h : s.set_prio p c = .ok s2) (a : Nat) (hp : p ≠ some a) :
    Quiet s s2 ∧ s2.g = s.g ∧ KeepsAt a s s2 := by
  obtain ⟨b, n, rfl, hc, rfl⟩ := Machine.set_prio_eq_ok h
  refine ⟨⟨rfl, rfl, rfl⟩, rfl, ?_⟩
  intro m hm
  have hab : a ≠ b := fun e => hp (by rw [e])
  exact ⟨m, by rw [cell_set_ne _ _ _ _ hab]; exact hm, rfl, rfl⟩

/-- Raising a cell to HIGH keeps every pid and lowers no tier. -/
theorem set_prio_h_promotes {s s2 : State} {p : Option Nat}
    (h : s.set_prio p 'h' = .ok s2) : Quiet s s2 ∧ s2.g = s.g ∧ Promotes s s2 := by
  obtain ⟨b, n, rfl, hc, rfl⟩ := Machine.set_prio_eq_ok h
  refine ⟨⟨rfl, rfl, rfl⟩, rfl, ?_⟩
  intro a m hm
  by_cases hab : a = b
  · subst hab
    rw [hc] at hm
    have hmn := Option.some.inj hm
    subst hmn
    exact ⟨{ n with prio := 'h' }, by rw [cell_set _ _ _ _ (cell_lt hc)]; simp, rfl, Or.inr rfl⟩
  · exact ⟨m, by rw [cell_set_ne _ _ _ _ hab]; exact hm, rfl, Or.inl rfl⟩

theorem set_next_promotes {s s2 : State} {p v : Option Nat} (h : s.set_next p v = .ok s2) :
    Quiet s s2 ∧ s2.g = s.g ∧ Promotes s s2 :=
  ⟨(set_next_keeps h 0).1, (set_next_keeps h 0).2.1,
    KeepsAt.promotes_of_all (fun a => (set_next_keeps h a).2.2)⟩

/-- Freeing another cell changes nothing here. -/
theorem free_keeps {s s2 : State} {p : Option Nat} (h : s.free p = .ok s2) (a : Nat)
    (hp : p ≠ some a) : Quiet s s2 ∧ s2.g = s.g ∧ KeepsAt a s s2 := by
  rcases Machine.free_eq_ok h with ⟨_, rfl⟩ | ⟨b, n, rfl, hc, rfl⟩
  · exact ⟨Quiet.qrefl _, rfl, KeepsAt.krefl _ _⟩
  · refine ⟨⟨rfl, rfl, rfl⟩, rfl, ?_⟩
    intro m hm
    have hab : a ≠ b := fun e => hp (by rw [e])
    exact ⟨m, by rw [cell_set_ne _ _ _ _ hab]; exact hm, rfl, rfl⟩

end SchedulerPrioLab

end Sched

namespace Sched

namespace SchedulerPrioLab

theorem qp_trans {s s2 s3 : State} (h1 : Quiet s s2 ∧ Promotes s s2)
    (h2 : Quiet s2 s3 ∧ Promotes s2 s3) : Quiet s s3 ∧ Promotes s s3 :=
  ⟨h1.1.qtrans h2.1, h1.2.ptrans h2.2⟩

theorem qp_set_next {s s2 : State} {p v : Option Nat} (h : s.set_next p v = .ok s2) :
    Quiet s s2 ∧ Promotes s s2 :=
  ⟨(set_next_promotes h).1, (set_next_promotes h).2.2⟩

theorem qp_set_prio {s s2 : State} {p : Option Nat} (h : s.set_prio p 'h' = .ok s2) :
    Quiet s s2 ∧ Promotes s s2 :=
  ⟨(set_prio_h_promotes h).1, (set_prio_h_promotes h).2.2⟩

theorem qp_setg (s : State) (g : Globals) (h1 : g.head = s.g.head)
    (h2 : g.fixproblem = s.g.fixproblem) : Quiet s (s.setg g) ∧ Promotes s (s.setg g) :=
  ⟨⟨h1, h2, rfl⟩, Promotes.prefl s⟩

theorem raise_first_loop_frame (s : State) (id : Int) :
    ∀ (f : Nat) (prev cur : Option Nat) (s2 : State) (c : Option Nat),
    raise_first_loop s id f prev cur = .ok (s2, c) → Quiet s s2 ∧ Promotes s s2
  | 0, _, _, _, _, h => by simp [raise_first_loop] at h
  | f + 1, prev, none, s2, c, h => by
    simp only [raise_first_loop, Run.ok.injEq, Prod.mk.injEq] at h
    obtain ⟨rfl, _⟩ := h
    exact ⟨Quiet.qrefl _, Promotes.prefl _⟩
  | f + 1, prev, some a, s2, c, h => by
    simp only [raise_first_loop, Run.bind_eq_ok, Machine.load_eq_ok] at h
    obtain ⟨n, hn, h⟩ := h
    split_ifs at h with hid
    · simp only [Run.bind_eq_ok, Machine.load_eq_ok] at h
      obtain ⟨s3, h3, n3, _, s4, h4, h⟩ := h
      have q4 := qp_trans (qp_set_prio h3) (qp_set_next h4)
      split_ifs at h with ht
      · simp only [Run.bind_eq_ok, Machine.load_eq_ok, Run.pure_eq, Run.ok.injEq,
          Prod.mk.injEq] at h
        obtain ⟨s5, h5, n5, _, s6, h6, s7, h7, rfl, _⟩ := h
        have q5 := qp_trans (qp_trans q4 (qp_setg s4
          ⟨s4.g.head, prev, s4.g.hiend, s4.g.fixproblem⟩ rfl rfl)) (qp_set_next h5)
        exact qp_trans (qp_trans (qp_trans q5 (qp_set_next h6)) (qp_set_next h7))
          (qp_setg _ _ rfl rfl)
      · simp only [Run.bind_eq_ok, Machine.load_eq_ok, Run.pure_eq, Run.ok.injEq,
          Prod.mk.injEq] at h
        obtain ⟨_, rfl, n5, _, s6, h6, s7, h7, rfl, _⟩ := h
        exact qp_trans (qp_trans (qp_trans q4 (qp_set_next h6)) (qp_set_next h7))
          (qp_setg _ _ rfl rfl)
    · simp only [Run.bind_eq_ok, Machine.load_eq_ok] at h
      obtain ⟨pn, _, h⟩ := h
      exact raise_first_loop_frame s id f _ _ s2 c h

theorem raise_loop_frame (s : State) (id : Int) :
    ∀ (f : Nat) (prev cur : Option Nat) (s2 : State) (c : Option Nat × Bool),
    raise_loop s id f prev cur = .ok (s2, c) → Quiet s s2 ∧ Promotes s s2
  | 0, _, _, _, _, h => by simp [raise_loop] at h
  | f + 1, prev, none, s2, c, h => by
    simp only [raise_loop, Run.ok.injEq, Prod.mk.injEq] at h
    obtain ⟨rfl, _⟩ := h
    exact ⟨Quiet.qrefl _, Promotes.prefl _⟩
  | f + 1, prev, some a, s2, c, h => by
    simp only [raise_loop, Run.bind_eq_ok, Machine.load_eq_ok] at h
    obtain ⟨n, hn, h⟩ := h
    split_ifs at h with hid
    · simp only [Run.bind_eq_ok, Machine.load_eq_ok, Run.pure_eq, Run.ok.injEq,
        Prod.mk.injEq] at h
      obtain ⟨s3, h3, n3, _, s4, h4, n5, _, s6, h6, s7, h7, rfl, _⟩ := h
      have q4 := qp_trans (qp_set_prio h3) (qp_set_next h4)
      have q5 : Quiet s4 (if some a = s4.g.tail then s4.setg
          { head := s4.g.head, tail := prev, hiend := s4.g.hiend,
            fixproblem := s4.g.fixproblem } else s4) ∧
          Promotes s4 (if some a = s4.g.tail then s4.setg
          { head := s4.g.head, tail := prev, hiend := s4.g.hiend,
            fixproblem := s4.g.fixproblem } else s4) := by
        split_ifs
        · exact qp_setg _ _ rfl rfl
        · exact ⟨Quiet.qrefl _, Promotes.prefl _⟩
      exact qp_trans (qp_trans (qp_trans (qp_trans q4 q5) (qp_set_next h6)) (qp_set_next h7))
        (qp_setg _ _ rfl rfl)
    · simp only [Run.bind_eq_ok, Machine.load_eq_ok] at h
      obtain ⟨pn, _, h⟩ := h
      exact raise_loop_frame s id f _ _ s2 c h

end SchedulerPrioLab

end Sched

namespace Sched

namespace SchedulerPrioLab

theorem set_prio_cell {s s2 : State} {p : Option Nat} {c : Char}
    (h : s.set_prio p c = .ok s2) : ∃ n, cell s2.mem p = some n ∧ n.prio = c := by
  obtain ⟨b, n, rfl, hc, rfl⟩ := Machine.set_prio_eq_ok h
  exact ⟨{ n with prio := c }, by rw [cell_set _ _ _ _ (cell_lt hc)]; simp, rfl⟩

theorem Promotes.high {s s2 : State} (h : Promotes s s2) {p : Option Nat}
    (hc : ∃ n, cell s.mem p = some n ∧ n.prio = 'h') :
    ∃ n, cell s2.mem p = some n ∧ n.prio = 'h' := by
  obtain ⟨n, hn, hp⟩ := hc
  cases p with
  | none => simp at hn
  | some a =>
    obtain ⟨n2, hc2, _, hq⟩ := h a n hn
    refine ⟨n2, hc2, ?_⟩
    rcases hq with e | e
    · rw [e, hp]
    · exact e

theorem high_move_frame (s s1 : State) (id : Int) (x : Option Nat × Bool × Bool)
    (h : high_move s id = .ok (s1, x)) :
    Quiet s s1 ∧ Promotes s s1 ∧
      (s.g.hiend = none → s1.g.hiend ≠ none →
        ∃ n, cell s1.mem s1.g.head = some n ∧ n.prio = 'h') := by
  unfold high_move at h
  by_cases hh : s.g.hiend = none
  · simp only [hh, if_true, Run.bind_eq_ok, Machine.load_eq_ok] at h
    obtain ⟨n0, hn0, h⟩ := h
    by_cases hid : n0.id = id
    · simp only [hid, if_true, Run.bind_eq_ok, Run.pure_eq, Run.ok.injEq, Prod.mk.injEq] at h
      obtain ⟨s3, h3, rfl, _⟩ := h
      have q := qp_trans (qp_set_prio h3) (qp_setg s3 _ rfl rfl)
      refine ⟨q.1, q.2, fun _ _ => ?_⟩
      have hg := (set_prio_h_promotes h3).2.1
      obtain ⟨n, hn, hp⟩ := set_prio_cell h3
      exact ⟨n, by simpa [Machine.setg, hg] using hn, hp⟩
    · by_cases ht : s.g.head = s.g.tail
      · simp only [hid, if_false, ht, ne_eq, not_true_eq_false, Run.pure_eq, Run.ok.injEq,
          Prod.mk.injEq] at h
        obtain ⟨rfl, _⟩ := h
        exact ⟨Quiet.qrefl _, Promotes.prefl _, fun _ h2 => absurd hh h2⟩
      · simp only [hid, if_false, ht, ne_eq, not_false_eq_true, if_true, Run.bind_eq_ok,
          Machine.load_eq_ok, Run.pure_eq, Run.ok.injEq, Prod.mk.injEq] at h
        obtain ⟨s3, h3, n4, _, ⟨s5, c5⟩, h5, rfl, _⟩ := h
        have q5 := raise_first_loop_frame _ _ _ _ _ _ _ h5
        have q := qp_trans (qp_trans (qp_set_prio h3) (qp_setg s3 _ rfl rfl)) q5
        refine ⟨q.1, q.2, fun _ _ => ?_⟩
        have hg := (set_prio_h_promotes h3).2.1
        obtain ⟨n, hn, hp⟩ := set_prio_cell h3
        have := q5.2.high (p := s.g.head) ⟨n, by simpa [Machine.setg] using hn, hp⟩
        rw [q.1.1]
        exact this
  · simp only [hh, if_false, Run.bind_eq_ok, Machine.load_eq_ok] at h
    obtain ⟨he, _, h⟩ := h
    by_cases hl : he.next = s.g.tail
    · simp only [hl, if_true, Run.bind_eq_ok, Machine.load_eq_ok, Run.pure_eq,
        Run.ok.injEq] at h
      obtain ⟨t, _, y, _, h⟩ := h
      cases y with
      | true =>
        simp only [if_true, Run.bind_eq_ok, Run.pure_eq, Run.ok.injEq, Prod.mk.injEq] at h
        obtain ⟨s3, h3, rfl, _⟩ := h
        have q2 := qp_set_prio h3
        have q := qp_trans (qp_setg s _ rfl rfl) q2
        exact ⟨q.1, q.2, fun h1 => absurd h1 hh⟩
      | false =>
        simp only [Bool.false_eq_true, if_false, Run.bind_eq_ok, Run.pure_eq, Run.ok.injEq,
          Prod.mk.injEq] at h
        obtain ⟨⟨s3, c3⟩, h3, rfl, _⟩ := h
        have q := raise_loop_frame _ _ _ _ _ _ _ h3
        exact ⟨q.1, q.2, fun h1 => absurd h1 hh⟩
    · simp only [hl, if_false, Run.bind_eq_ok, Run.pure_eq, Run.ok.injEq] at h
      obtain ⟨y, _, h⟩ := h
      cases y with
      | true =>
        simp only [if_true, Run.bind_eq_ok, Run.pure_eq, Run.ok.injEq, Prod.mk.injEq] at h
        obtain ⟨s3, h3, rfl, _⟩ := h
        have q2 := qp_set_prio h3
        have q := qp_trans (qp_setg s _ rfl rfl) q2
        exact ⟨q.1, q.2, fun h1 => absurd h1 hh⟩
      | false =>
        simp only [Bool.false_eq_true, if_false, Run.bind_eq_ok, Run.pure_eq, Run.ok.injEq,
          Prod.mk.injEq] at h
        obtain ⟨⟨s3, c3⟩, h3, rfl, _⟩ := h
        have q := raise_loop_frame _ _ _ _ _ _ _ h3
        exact ⟨q.1, q.2, fun h1 => absurd h1 hh⟩

/-- What `sched_high_task` leaves alone: it emits nothing, `head` and
`fixproblem` stay, every task keeps its pid and no task leaves the HIGH tier;
and when it makes the HIGH tier non-empty, the head is HIGH. -/
theorem sched_high_task_frame (s s2 : State) (id r : Int)
    (h : sched_high_task s id = .ok (s2, r)) :
    Quiet s s2 ∧ Promotes s s2 ∧
      (s.g.hiend = none → s2.g.hiend ≠ none →
        ∃ n, cell s2.mem s2.g.head = some n ∧ n.prio = 'h') := by
  simp only [sched_high_task, Run.bind_eq_ok] at h
  obtain ⟨⟨s1, cur, found, hishell⟩, h1, h2⟩ := h
  have hs : s2 = s1 := by
    simp only at h2
    split_ifs at h2
    · simp only [Run.bind_eq_ok, Run.pure_eq, Run.ok.injEq, Prod.mk.injEq] at h2
      obtain ⟨_, _, _, _, h2, _⟩ := h2
      exact h2.symm
    · simp only [Run.bind_eq_ok, Run.pure_eq, Run.ok.injEq, Prod.mk.injEq] at h2
      obtain ⟨_, _, h2, _⟩ := h2
      exact h2.symm
    · simp only [Run.pure_eq, Run.ok.injEq, Prod.mk.injEq] at h2
      exact h2.1.symm
  subst hs
  exact high_move_frame s s2 id _ h1

end SchedulerPrioLab

end Sched

namespace Sched

section Running

/-- A stop, an alarm or a `SIGKILL` starts no task. -/
theorem run_effect_sub (r : List Int) (e : Effect) (h : ∀ pid, e ≠ .kill pid .SIGCONT) :
    ∀ q ∈ run_effect r e, q ∈ r := by
  intro q hq
  cases e with
  | alarm sec => exact hq
  | kill pid sig =>
    cases sig with
    | SIGSTOP => exact (List.mem_filter.1 hq).1
    | SIGCONT => exact absurd rfl (h pid)
    | SIGKILL => exact hq

/-- After an alarm is set and a task continued, the RUNNING tasks are that task
and those that ran before. -/
theorem run_effects_cont (r : List Int) (sec : Nat) (pid : Int) :
    ∀ q ∈ run_effects r [.alarm sec, .kill pid .SIGCONT], q = pid ∨ q ∈ r := by
  intro q hq
  simp only [run_effects, List.foldl, run_effect] at hq
  split_ifs at hq with h
  · exact Or.inr hq
  · rcases List.mem_cons.1 hq with e | e
    · exact Or.inl e
    · exact Or.inr e

variable {G P : Type}

/-- The search of `sched_kill_task_by_id` changes neither the list nor the
globals, and emits at most one `SIGKILL`. -/
theorem kill_loop_out (s : Machine G P) (id : Int) :
    ∀ (f : Nat) (p : Option Nat) (s2 : Machine G P),
    s.kill_loop id f p = .ok s2 →
      s2.out = s.out ∨ ∃ pid, s2.out = s.out ++ [.kill pid .SIGKILL]
  | 0, _, _, h => by simp [Machine.kill_loop] at h
  | f + 1, none, s2, h => by
    simp only [Machine.kill_loop, Run.ok.injEq] at h
    subst h
    exact Or.inl rfl
  | f + 1, some a, s2, h => by
    simp only [Machine.kill_loop, Run.bind_eq_ok, Machine.load_eq_ok] at h
    obtain ⟨n, _, h⟩ := h
    by_cases hid : n.id = id
    · simp only [hid, if_true, Run.pure_eq, Run.ok.injEq] at h
      subst h
      exact Or.inr ⟨n.pid, rfl⟩
    · simp only [hid, if_false] at h
      exact kill_loop_out s id f n.next s2 h

end Running

namespace SchedulerPrioLab

/-- In a well-formed registry with a HIGH tier the head is HIGH. -/
theorem Holds.head_high {s : State} {hi lo : List (Nat × task Char)} (hw : Holds s hi lo)
    (hne : s.g.hiend ≠ none) {n : process_node Char} (hc : cell s.mem s.g.head = some n) :
    n.prio = 'h' := by
  obtain ⟨hseg, _, hhe, hhi, _⟩ := hw
  cases hi with
  | nil => exact absurd hhe hne
  | cons x hi =>
    obtain ⟨a, t⟩ := x
    have hseg : Seg s.mem s.g.head ((a, t) :: (hi ++ lo)) none := hseg
    obtain ⟨hp, nx, hcell, _⟩ := hseg
    rw [hp, hcell] at hc
    have e := Option.some.inj hc
    rw [← e]
    exact hhi (a, t) (List.mem_cons_self _ _)

/-- In a well-formed registry whose head is not the last HIGH task, the task
behind the head is HIGH. -/
theorem Holds.second_high {s : State} {hi lo : List (Nat × task Char)} (hw : Holds s hi lo)
    (hne : s.g.hiend ≠ none) (hd : s.g.head ≠ s.g.hiend) {n : process_node Char}
    (hc : cell s.mem s.g.head = some n) :
    ∃ b m, n.next = some b ∧ cell s.mem (some b) = some m ∧ m.prio = 'h' := by
  obtain ⟨hseg, _, hhe, hhi, _⟩ := hw
  cases hi with
  | nil => exact absurd hhe hne
  | cons x hi =>
    obtain ⟨a, t⟩ := x
    have hseg : Seg s.mem s.g.head ((a, t) :: (hi ++ lo)) none := hseg
    obtain ⟨hp, nx, hcell, hrest⟩ := hseg
    cases hi with
    | nil => exact absurd (hp.trans hhe.symm) hd
    | cons y hi =>
      obtain ⟨b, u⟩ := y
      have hrest : Seg s.mem nx ((b, u) :: (hi ++ lo)) none := hrest
      obtain ⟨hq, nx2, hcell2, _⟩ := hrest
      rw [hp, hcell] at hc
      have e := Option.some.inj hc
      refine ⟨b, u.node nx2, ?_, hcell2, ?_⟩
      · rw [← e]
        exact hq
      · exact hhi (b, u) (List.mem_cons_of_mem _ (List.mem_cons_self _ _))

/-- Strict priority carries over from a well-formed state to a state with the
same head whose cell kept its pid and tier, when no other task was started and
the HIGH tier did not come into being. -/
theorem strict_of_keeps {s s2 : State} {hi lo : List (Nat × task Char)} {r2 : List Int}
    (hw : Holds s hi lo) (hr : OnlyHeadRuns s r2) (hh : s2.g.head = s.g.head)
    (hk : ∀ a, s.g.head = some a → KeepsAt a s s2)
    (hhi : s2.g.hiend ≠ none → s.g.hiend ≠ none) : StrictPriority s2 r2 := by
  intro _ h2 pid hpid
  obtain ⟨n, hc, hp⟩ := hr pid hpid
  cases hhd : s.g.head with
  | none => rw [hhd] at hc; simp [cell] at hc
  | some a =>
    have hc2 := hc
    rw [hhd] at hc2
    obtain ⟨n2, hn2, hp2, hq2⟩ := hk a hhd n hc2
    refine ⟨n2, by rw [hh, hhd]; exact hn2, hp2.trans hp, ?_⟩
    rw [hq2]
    exact hw.head_high (hhi h2) hc

theorem OnlyHeadRuns.sub {s : State} {r r2 : List Int} (hr : OnlyHeadRuns s r)
    (h : ∀ q ∈ r2, q ∈ r) : OnlyHeadRuns s r2 :=
  fun pid hpid => hr pid (h pid hpid)

theorem emit_drop (s : State) (e : Effect) : (s.emit e).out.drop s.out.length = [e] := by
  simp [Machine.emit]

/-- The timer event keeps strict priority. -/
theorem sigalrm_strict {s s2 : State} {hi lo : List (Nat × task Char)} {r : List Int}
    (hw : Holds s hi lo) (hf : s.g.fixproblem = 0) (hr : OnlyHeadRuns s r)
    (h : sigalrm_handler s = .ok s2) :
    StrictPriority s2 (run_effects r (s2.out.drop s.out.length)) := by
  have key : ∀ e : Effect, (∀ pid, e ≠ .kill pid .SIGCONT) →
      StrictPriority (s.emit e) (run_effects r ((s.emit e).out.drop s.out.length)) := by
    intro e he
    rw [emit_drop]
    exact strict_of_keeps hw (hr.sub (run_effect_sub r e he)) rfl
      (fun a _ => fun n hn => ⟨n, hn, rfl, rfl⟩) (fun h => h)
  unfold sigalrm_handler at h
  by_cases c1 : s.g.head = s.g.hiend ∨ (s.g.hiend = none ∧ s.g.head = s.g.tail)
  · simp only [c1, if_true, Run.pure_eq, Run.ok.injEq] at h
    subst h
    exact key _ (fun pid hh => by cases hh)
  · have c2 : ¬ s.g.fixproblem = 1 := by rw [hf]; decide
    simp only [c1, c2, if_false, Run.bind_eq_ok, Machine.load_eq_ok, Run.pure_eq,
      Run.ok.injEq] at h
    obtain ⟨n, _, rfl⟩ := h
    exact key _ (fun pid hh => by cases hh)

/-- The request LIST keeps strict priority. -/
theorem print_strict {s s2 : State} {hi lo : List (Nat × task Char)} {r : List Int}
    (hw : Holds s hi lo) (hr : OnlyHeadRuns s r) (h : sched_print_tasks s = .ok s2) :
    StrictPriority s2 (run_effects r (s2.out.drop s.out.length)) := by
  simp only [sched_print_tasks, Run.bind_eq_ok, Run.pure_eq, Run.ok.injEq] at h
  obtain ⟨_, _, rfl⟩ := h
  rw [List.drop_length]
  exact strict_of_keeps hw hr rfl (fun a _ => KeepsAt.krefl a s) (fun h => h)

/-- The request KILL keeps strict priority. -/
theorem kill_strict {s s2 : State} {hi lo : List (Nat × task Char)} {r : List Int} {id : Int}
    {x : Int} (hw : Holds s hi lo) (hr : OnlyHeadRuns s r)
    (h : sched_kill_task_by_id s id = .ok (s2, x)) :
    StrictPriority s2 (run_effects r (s2.out.drop s.out.length)) := by
  simp only [sched_kill_task_by_id, Run.bind_eq_ok, Run.pure_eq, Run.ok.injEq,
    Prod.mk.injEq] at h
  obtain ⟨s1, h1, rfl, _⟩ := h
  obtain ⟨hm, hg⟩ := kill_loop_frame s id _ _ _ h1
  have hsub : ∀ q ∈ run_effects r (s1.out.drop s.out.length), q ∈ r := by
    rcases kill_loop_out s id _ _ _ h1 with e | ⟨pid, e⟩
    · rw [e, List.drop_length]
      exact fun q hq => hq
    · rw [e, List.drop_left]
      exact fun q hq => hq
  refine strict_of_keeps hw (hr.sub hsub) (by rw [hg]) ?_ (by rw [hg]; exact fun h => h)
  intro a _ n hn
  exact ⟨n, by rw [hm]; exact hn, rfl, rfl⟩

end SchedulerPrioLab

end Sched

namespace Sched

namespace SchedulerPrioLab

theorem malloc_keeps (s : State) (junk : process_node Char) (a : Nat) :
    KeepsAt a s (s.malloc junk).1 := by
  intro n hn
  exact ⟨n, by simpa [Machine.malloc, cell_append_lt _ _ _ (cell_lt hn)] using hn, rfl, rfl⟩

/-- Writing the `pid` field of another cell changes no pid and no tier here. -/
theorem set_pid_keeps {s s2 : State} {p : Option Nat} {c : Int}
    (h : s.set_pid p c = .ok s2) (a : Nat) (hp : p ≠ some a) :
    Quiet s s2 ∧ s2.g = s.g ∧ KeepsAt a s s2 := by
  obtain ⟨b, n, rfl, hc, rfl⟩ := Machine.set_pid_eq_ok h
  refine ⟨⟨rfl, rfl, rfl⟩, rfl, ?_⟩
  intro m hm
  have hab : a ≠ b := fun e => hp (by rw [e])
  exact ⟨m, by rw [cell_set_ne _ _ _ _ hab]; exact hm, rfl, rfl⟩

/-- Writing an `id` field changes no pid and no tier. -/
theorem set_id_keeps {s s2 : State} {p : Option Nat} {c : Int} (h : s.set_id p c = .ok s2)
    (a : Nat) : Quiet s s2 ∧ s2.g = s.g ∧ KeepsAt a s s2 := by
  obtain ⟨b, n, rfl, hc, rfl⟩ := Machine.set_id_eq_ok h
  refine ⟨⟨rfl, rfl, rfl⟩, rfl, ?_⟩
  intro m hm
  by_cases hab : a = b
  · subst hab
    rw [hc] at hm
    have hmn := Option.some.inj hm
    subst hmn
    exact ⟨{ n with id := c }, by rw [cell_set _ _ _ _ (cell_lt hc)]; simp, rfl, rfl⟩
  · exact ⟨m, by rw [cell_set_ne _ _ _ _ hab]; exact hm, rfl, rfl⟩

/-- The function `sched_create_task` emits nothing, keeps `head`, `hiend` and
`fixproblem`, and keeps the pid and the tier of every cell that was live. -/
theorem sched_create_task_frame {s s2 : State} {p : Int} {junk : process_node Char}
    (h : sched_create_task s p junk = .ok s2) (a : Nat) :
    Quiet s s2 ∧ s2.g.hiend = s.g.hiend ∧ (a < s.mem.length → KeepsAt a s s2) := by
  unfold sched_create_task at h
  by_cases c1 : p < 0
  · simp [c1] at h
  by_cases c2 : p = 0
  · simp [c1, c2] at h
  simp only [c1, c2, if_false, Machine.malloc, Run.bind_eq_ok] at h
  obtain ⟨s3, h3, maxid, _, s4, h4, s5, h5, s6, h6, h7⟩ := h
  have q0 : Quiet s (s.malloc junk).1 := ⟨rfl, rfl, rfl⟩
  have q6 : Quiet s6 (s6.setg { s6.g with tail := some s.mem.length }) := ⟨rfl, rfl, rfl⟩
  have k4 := set_id_keeps h4 a
  have k6 := set_next_keeps h6 a
  have k7 := set_next_keeps h7 a
  have hhe : s2.g.hiend = s.g.hiend := by
    rw [k7.2.1]
    show s6.g.hiend = s.g.hiend
    rw [k6.2.1, (set_prio_keeps h5 (s.mem.length + 1) (by simp)).2.1, k4.2.1,
      (set_pid_keeps h3 (s.mem.length + 1) (by simp)).2.1]
  have q3 := (set_pid_keeps h3 (s.mem.length + 1) (by simp)).1
  have q5 := (set_prio_keeps h5 (s.mem.length + 1) (by simp)).1
  refine ⟨q0.qtrans (q3.qtrans (k4.1.qtrans (q5.qtrans (k6.1.qtrans (q6.qtrans k7.1))))), hhe, ?_⟩
  intro ha
  have hne : (some s.mem.length : Option Nat) ≠ some a := by
    intro e
    have := Option.some.inj e
    omega
  have k0 := malloc_keeps s junk a
  have k3 := set_pid_keeps h3 a hne
  have k5 := set_prio_keeps h5 a hne
  exact k0.ktrans (k3.2.2.ktrans (k4.2.2.ktrans (k5.2.2.ktrans (k6.2.2.ktrans
    (KeepsAt.ktrans (fun n hn => ⟨n, hn, rfl, rfl⟩) k7.2.2)))))

/-- The request SPAWN keeps strict priority. -/
theorem create_strict {s s2 : State} {hi lo : List (Nat × task Char)} {r : List Int} {p : Int}
    {junk : process_node Char} (hw : Holds s hi lo) (hr : OnlyHeadRuns s r)
    (h : sched_create_task s p junk = .ok s2) :
    StrictPriority s2 (run_effects r (s2.out.drop s.out.length)) := by
  have hq : ∀ a, s.g.head = some a → a < s.mem.length := by
    intro a ha
    obtain ⟨hseg, _⟩ := hw
    rw [ha] at hseg
    cases hl : hi ++ lo with
    | nil => rw [hl] at hseg; cases hseg
    | cons x l =>
      rw [hl] at hseg
      obtain ⟨e, nx, hc, _⟩ := hseg
      rw [← e] at hc
      exact cell_lt hc
  have q := (sched_create_task_frame h 0).1
  have he := (sched_create_task_frame h 0).2.1
  rw [q.2.2, List.drop_length]
  exact strict_of_keeps hw hr q.1 (fun a ha => (sched_create_task_frame h a).2.2 (hq a ha))
    (by rw [he]; exact fun h => h)

end SchedulerPrioLab

end Sched

namespace Sched

namespace SchedulerPrioLab

/-- The request RAISE keeps strict priority. -/
theorem high_strict {s s2 : State} {hi lo : List (Nat × task Char)} {r : List Int} {id x : Int}
    (hw : Holds s hi lo) (hr : OnlyHeadRuns s r) (h : sched_high_task s id = .ok (s2, x)) :
    StrictPriority s2 (run_effects r (s2.out.drop s.out.length)) := by
  obtain ⟨q, pr, hnew⟩ := sched_high_task_frame s s2 id x h
  rw [q.2.2, List.drop_length]
  intro _ h2 pid hpid
  obtain ⟨n, hc, hp⟩ := hr pid hpid
  cases hhd : s.g.head with
  | none => rw [hhd] at hc; simp [cell] at hc
  | some a =>
    have hc0 := hc
    rw [hhd] at hc
    obtain ⟨n2, hn2, hp2, hq2⟩ := pr a n hc
    refine ⟨n2, by rw [q.1, hhd]; exact hn2, hp2.trans hp, ?_⟩
    by_cases he : s.g.hiend = none
    · obtain ⟨n3, hn3, hp3⟩ := hnew he h2
      rw [q.1, hhd, hn2] at hn3
      cases hn3
      exact hp3
    · rcases hq2 with e | e
      · rw [e]
        exact hw.head_high he hc0
      · exact e

/-- The loop of `sched_low_task` emits nothing, keeps `head` and `fixproblem`,
and keeps the pid and the tier of a cell whose id is not the one looked for. -/
theorem lower_loop_frame (s : State) (id : Int) (a : Nat) (n0 : process_node Char)
    (h0 : cell s.mem (some a) = some n0) (hid : n0.id ≠ id) :
    ∀ (f : Nat) (prev cur : Option Nat) (s2 : State) (x : Option Nat × Bool),
    lower_loop s id f prev cur = .ok (s2, x) → Quiet s s2 ∧ KeepsAt a s s2
  | 0, _, _, _, _, h => by simp [lower_loop] at h
  | f + 1, prev, cur, s2, x, h => by
    simp only [lower_loop, Run.bind_eq_ok, Machine.load_eq_ok] at h
    obtain ⟨he, _, h⟩ := h
    by_cases hc : cur = he.next
    · simp only [hc, if_true, Run.pure_eq, Run.ok.injEq, Prod.mk.injEq] at h
      obtain ⟨rfl, _⟩ := h
      exact ⟨Quiet.qrefl _, KeepsAt.krefl _ _⟩
    · simp only [hc, if_false, Run.bind_eq_ok, Machine.load_eq_ok] at h
      obtain ⟨c, hcell, h⟩ := h
      by_cases hi : c.id = id
      · simp only [hi, if_true, Run.bind_eq_ok, Machine.load_eq_ok, Run.pure_eq, Run.ok.injEq,
          Prod.mk.injEq] at h
        obtain ⟨s3, h3, c2, _, s4, h4, s5, h5, s6, h6, rfl, _⟩ := h
        have hne : cur ≠ some a := by
          intro e
          rw [e, h0] at hcell
          cases hcell
          exact hid hi
        have k3 := set_prio_keeps h3 a hne
        have k4 := set_next_keeps h4 a
        have k5 := set_next_keeps h5 a
        have k6 := set_next_keeps h6 a
        have q4 : Quiet s4 (if cur = s4.g.hiend then s4.setg { s4.g with hiend := prev } else s4) ∧
            KeepsAt a s4 (if cur = s4.g.hiend then s4.setg { s4.g with hiend := prev } else s4) := by
          split_ifs
          · exact ⟨⟨rfl, rfl, rfl⟩, fun n hn => ⟨n, hn, rfl, rfl⟩⟩
          · exact ⟨Quiet.qrefl _, KeepsAt.krefl _ _⟩
        have q5 : Quiet s5 (s5.setg { s5.g with tail := cur }) ∧
            KeepsAt a s5 (s5.setg { s5.g with tail := cur }) :=
          ⟨⟨rfl, rfl, rfl⟩, fun n hn => ⟨n, hn, rfl, rfl⟩⟩
        exact ⟨k3.1.qtrans (k4.1.qtrans (q4.1.qtrans (k5.1.qtrans (q5.1.qtrans k6.1)))),
          k3.2.2.ktrans (k4.2.2.ktrans (q4.2.ktrans (k5.2.2.ktrans (q5.2.ktrans k6.2.2))))⟩
      · simp only [hi, if_false, Run.bind_eq_ok, Machine.load_eq_ok] at h
        obtain ⟨pn, _, h⟩ := h
        exact lower_loop_frame s id a n0 h0 hid f _ _ s2 x h

end SchedulerPrioLab

end Sched

namespace Sched

namespace SchedulerPrioLab

theorem set_prio_g {s s2 : State} {p : Option Nat} {c : Char} (h : s.set_prio p c = .ok s2) :
    s2.g = s.g ∧ s2.out = s.out := by
  obtain ⟨b, n, rfl, hc, rfl⟩ := Machine.set_prio_eq_ok h
  exact ⟨rfl, rfl⟩

theorem set_next_g {s s2 : State} {p v : Option Nat} (h : s.set_next p v = .ok s2) :
    s2.g = s.g ∧ s2.out = s.out := by
  obtain ⟨b, n, rfl, hc, rfl⟩ := Machine.set_next_eq_ok h
  exact ⟨rfl, rfl⟩

/-- The request LOWER keeps strict priority: either the head keeps its place,
its pid and its tier, or the HIGH tier is left empty, or `fixproblem` is set. -/
theorem low_move_strict {s s1 : State} {hi lo : List (Nat × task Char)} {r : List Int}
    {id : Int} {x : Option Nat × Bool} (hw : Holds s hi lo) (hr : OnlyHeadRuns s r)
    (h : low_move s id = .ok (s1, x)) : s1.out = s.out ∧ StrictPriority s1 r := by
  have same : s.out = s.out ∧ StrictPriority s r :=
    ⟨rfl, strict_of_keeps hw hr rfl (fun a _ => KeepsAt.krefl a s) (fun h => h)⟩
  unfold low_move at h
  by_cases he : s.g.hiend = none
  · simp only [he, ne_eq, not_true_eq_false, if_false, Run.pure_eq, Run.ok.injEq,
      Prod.mk.injEq] at h
    obtain ⟨rfl, _⟩ := h
    exact same
  · simp only [he, ne_eq, not_false_eq_true, if_true, Run.bind_eq_ok, Machine.load_eq_ok] at h
    obtain ⟨n0, hn0, h⟩ := h
    by_cases c1 : n0.id = id ∧ s.g.head ≠ s.g.tail
    · simp only [c1, ne_eq, not_false_eq_true, and_self, if_true, Run.bind_eq_ok,
        Machine.load_eq_ok, Run.pure_eq, Run.ok.injEq, Prod.mk.injEq] at h
      obtain ⟨s3, h3, s4, h4, n5, _, s5, h5, rfl, _⟩ := h
      have g3 := set_prio_g h3
      have g4 := set_next_g h4
      have g5 := set_next_g h5
      have hfix : s5.g.fixproblem = 1 := by
        rw [g5.1]
        show s4.g.fixproblem = 1
        rw [g4.1]
        split_ifs
        · show s3.g.fixproblem = 1
          rw [g3.1]
          rfl
        · rw [g3.1]
          rfl
      have hout : s5.out = s.out := by
        rw [g5.2]
        show s4.out = s.out
        rw [g4.2]
        split_ifs
        · exact g3.2
        · exact g3.2
      refine ⟨hout, ?_⟩
      intro hf
      rw [hfix] at hf
      exact absurd hf (by decide)
    · by_cases c2 : n0.id = id ∧ s.g.head = s.g.hiend ∧ s.g.head = s.g.tail
      · rw [if_neg c1, if_pos c2] at h
        simp only [Run.bind_eq_ok, Run.pure_eq, Run.ok.injEq, Prod.mk.injEq] at h
        obtain ⟨s3, h3, rfl, _⟩ := h
        exact ⟨(set_prio_g h3).2, fun _ h2 => absurd rfl h2⟩
      · by_cases c3 : n0.id ≠ id ∧ s.g.head ≠ s.g.hiend
        · rw [if_neg c1, if_neg c2, if_pos c3] at h
          cases hhd : s.g.head with
          | none => rw [hhd] at hn0; simp [cell] at hn0
          | some a =>
            rw [hhd] at hn0
            obtain ⟨q, k⟩ := lower_loop_frame s id a n0 hn0 c3.1 _ _ _ _ _ h
            refine ⟨q.2.2, strict_of_keeps hw hr q.1 ?_ (fun _ => he)⟩
            intro b hb
            rw [hhd] at hb
            cases hb
            exact k
        · rw [if_neg c1, if_neg c2, if_neg c3] at h
          simp only [Run.pure_eq, Run.ok.injEq, Prod.mk.injEq] at h
          obtain ⟨rfl, _⟩ := h
          exact same

/-- The request LOWER keeps strict priority. -/
theorem low_strict {s s2 : State} {hi lo : List (Nat × task Char)} {r : List Int} {id x : Int}
    (hw : Holds s hi lo) (hr : OnlyHeadRuns s r) (h : sched_low_task s id = .ok (s2, x)) :
    StrictPriority s2 (run_effects r (s2.out.drop s.out.length)) := by
  simp only [sched_low_task, Run.bind_eq_ok] at h
  obtain ⟨⟨s1, cur, found⟩, h1, h2⟩ := h
  have hs : s2 = s1 := by
    simp only at h2
    split_ifs at h2
    · simp only [Run.bind_eq_ok, Run.pure_eq, Run.ok.injEq, Prod.mk.injEq] at h2
      obtain ⟨_, _, h2, _⟩ := h2
      exact h2.symm
    · simp only [Run.pure_eq, Run.ok.injEq, Prod.mk.injEq] at h2
      exact h2.1.symm
  subst hs
  obtain ⟨ho, hs⟩ := low_move_strict hw hr h1
  rw [ho, List.drop_length]
  exact hs

end SchedulerPrioLab

end Sched

namespace Sched

namespace SchedulerPrioLab

/-- The requests of the shell keep strict priority. -/
theorem request_strict {s s2 : State} {hi lo : List (Nat × task Char)} {r : List Int}
    {q : request_struct} {p x : Int} {junk : process_node Char}
    (hw : Holds s hi lo) (hr : OnlyHeadRuns s r)
    (h : process_request s q p junk = .ok (s2, x)) :
    StrictPriority s2 (run_effects r (s2.out.drop s.out.length)) := by
  unfold process_request at h
  cases hq : q.request_no with
  | REQ_PRINT_TASKS =>
    simp only [hq, Run.bind_eq_ok, Run.pure_eq, Run.ok.injEq, Prod.mk.injEq] at h
    obtain ⟨s3, h3, rfl, _⟩ := h
    exact print_strict hw hr h3
  | REQ_KILL_TASK =>
    simp only [hq] at h
    exact kill_strict hw hr h
  | REQ_EXEC_TASK =>
    simp only [hq, Run.bind_eq_ok, Run.pure_eq, Run.ok.injEq, Prod.mk.injEq] at h
    obtain ⟨s3, h3, rfl, _⟩ := h
    exact create_strict hw hr h3
  | REQ_HIGH_TASK =>
    simp only [hq, Run.bind_eq_ok, Run.pure_eq, Run.ok.injEq, Prod.mk.injEq] at h
    obtain ⟨⟨s3, y⟩, h3, rfl, _⟩ := h
    exact high_strict hw hr h3
  | REQ_LOW_TASK =>
    simp only [hq, Run.bind_eq_ok, Run.pure_eq, Run.ok.injEq, Prod.mk.injEq] at h
    obtain ⟨⟨s3, y⟩, h3, rfl, _⟩ := h
    exact low_strict hw hr h3
  | other n =>
    simp only [hq, Run.pure_eq, Run.ok.injEq, Prod.mk.injEq] at h
    obtain ⟨rfl, _⟩ := h
    rw [List.drop_length]
    exact strict_of_keeps hw hr rfl (fun a _ => KeepsAt.krefl a s) (fun h => h)

theorem reap_finish {s s3 t s2 : State} {a b : Nat}
    (k3 : Quiet s s3 ∧ s3.g = s.g ∧ KeepsAt a s s3) (hne : (some b : Option Nat) ≠ some a)
    (h4 : t.free (some b) = .ok s2)
    (ht : t.mem = s3.mem ∧ t.out = s3.out ∧ t.g.head = s3.g.head ∧
      t.g.fixproblem = s3.g.fixproblem ∧ (s3.g.hiend = none → t.g.hiend = none)) :
    Quiet s s2 ∧ KeepsAt a s s2 ∧ (s.g.hiend = none → s2.g.hiend = none) := by
  obtain ⟨hm, ho, hh, hf, he⟩ := ht
  have k4 := free_keeps h4 a hne
  have q : Quiet s3 t := ⟨hh, hf, ho⟩
  have k : KeepsAt a s3 t := fun n hn => ⟨n, by rw [hm]; exact hn, rfl, rfl⟩
  refine ⟨k3.1.qtrans (q.qtrans k4.1), k3.2.2.ktrans (k.ktrans k4.2.2), ?_⟩
  intro e
  rw [k4.2.1]
  apply he
  rw [k3.2.1]
  exact e

/-- The loop of `DEATH CASE 3` emits nothing, keeps `head` and `fixproblem`,
keeps the pid and the tier of a cell whose pid is not the one looked for, and
makes no HIGH tier. -/
theorem reap_loop_frame (s : State) (p : Int) (a : Nat) (n0 : process_node Char)
    (h0 : cell s.mem (some a) = some n0) (hp : n0.pid ≠ p) :
    ∀ (f : Nat) (prev cur : Option Nat) (s2 : State),
    reap_loop s p f prev cur = .ok s2 →
      Quiet s s2 ∧ KeepsAt a s s2 ∧ (s.g.hiend = none → s2.g.hiend = none)
  | 0, _, _, _, h => by simp [reap_loop] at h
  | f + 1, prev, none, s2, h => by
    simp only [reap_loop, Run.ok.injEq] at h
    subst h
    exact ⟨Quiet.qrefl _, KeepsAt.krefl _ _, fun h => h⟩
  | f + 1, prev, some b, s2, h => by
    simp only [reap_loop, Run.bind_eq_ok, Machine.load_eq_ok] at h
    obtain ⟨c, hcell, h⟩ := h
    by_cases hc : c.pid = p
    · simp only [hc, if_true, Run.bind_eq_ok] at h
      obtain ⟨s3, h3, h4⟩ := h
      have hne : (some b : Option Nat) ≠ some a := by
        intro e
        rw [e, h0] at hcell
        cases hcell
        exact hp hc
      have k3 := set_next_keeps h3 a
      split_ifs at h4 with d1 d2 d3
      · exact reap_finish k3 hne h4 ⟨rfl, rfl, rfl, rfl, fun e => by rw [e] at d1; cases d1⟩
      · exact reap_finish k3 hne h4 ⟨rfl, rfl, rfl, rfl, fun e => by rw [e] at d1; cases d1⟩
      · exact reap_finish k3 hne h4 ⟨rfl, rfl, rfl, rfl, fun e => e⟩
      · exact reap_finish k3 hne h4 ⟨rfl, rfl, rfl, rfl, fun e => e⟩
    · simp only [hc, if_false, Run.bind_eq_ok, Machine.load_eq_ok] at h
      obtain ⟨pn, _, h⟩ := h
      exact reap_loop_frame s p a n0 h0 hp f _ _ s2 h

end SchedulerPrioLab

end Sched

namespace Sched

namespace SchedulerPrioLab

/-- The death of a child keeps strict priority. -/
theorem on_death_strict {s s2 : State} {hi lo : List (Nat × task Char)} {r : List Int} {p : Int}
    (hw : Holds s hi lo) (hr : OnlyHeadRuns s r) (h : on_death s p = .ok s2) :
    StrictPriority s2 (run_effects (r.filter (fun q => q ≠ p)) (s2.out.drop s.out.length)) := by
  have hsub : OnlyHeadRuns s (r.filter (fun q => q ≠ p)) :=
    hr.sub (fun q hq => (List.mem_filter.1 hq).1)
  simp only [on_death, Run.bind_eq_ok, Machine.load_eq_ok] at h
  obtain ⟨n0, hn0, h⟩ := h
  have hgone : ∀ q ∈ r.filter (fun q => q ≠ p), n0.pid ≠ p := by
    intro q hq e
    obtain ⟨hq1, hq2⟩ := List.mem_filter.1 hq
    obtain ⟨n, hn, hp⟩ := hr q hq1
    rw [hn0] at hn
    cases hn
    rw [hp] at e
    simp [e] at hq2
  by_cases c1 : ((s.g.hiend ≠ none ∧ s.g.head ≠ s.g.hiend) ∨
      (s.g.hiend = none ∧ s.g.head ≠ s.g.tail)) ∧ n0.pid = p
  · rw [if_pos c1] at h
    simp only [Run.bind_eq_ok, Machine.load_eq_ok, Run.pure_eq, Run.ok.injEq] at h
    obtain ⟨s3, h3, n1, hn1, rfl⟩ := h
    cases hhd : s.g.head with
    | none => rw [hhd] at hn0; simp [cell] at hn0
    | some a =>
      rw [hhd] at h3
      rcases Machine.free_eq_ok h3 with ⟨e, _⟩ | ⟨b, n, e, hb, rfl⟩
      · cases e
      · cases e
        have hout : List.drop s.out.length ((s.out ++ [Effect.alarm SCHED_TQ_SEC]) ++
            [Effect.kill n1.pid Signal.SIGCONT]) =
            [Effect.alarm SCHED_TQ_SEC, Effect.kill n1.pid Signal.SIGCONT] := by simp
        have hn1 : cell (s.mem.set a none) n0.next = some n1 := hn1
        have hb : cell s.mem (some a) = some n := hb
        show StrictPriority _ (run_effects _ (List.drop s.out.length
          ((s.out ++ [Effect.alarm SCHED_TQ_SEC]) ++ [Effect.kill n1.pid Signal.SIGCONT])))
        rw [hout]
        intro _ h2 q hq
        have h2 : s.g.hiend ≠ none := h2
        rcases run_effects_cont _ _ _ q hq with e | e
        · subst e
          have hd : s.g.head ≠ s.g.hiend := by
            rcases c1.1 with c | c
            · exact c.2
            · exact absurd c.1 h2
          obtain ⟨b, m, hb1, hb2, hb3⟩ := hw.second_high h2 hd hn0
          refine ⟨n1, hn1, rfl, ?_⟩
          rw [hb1, cell_set _ _ _ _ (cell_lt hb)] at hn1
          by_cases hba : b = a
          · simp [hba] at hn1
          · simp only [hba, if_false] at hn1
            rw [hb2] at hn1
            cases hn1
            exact hb3
        · exact absurd c1.2 (hgone q e)
  · rw [if_neg c1] at h
    by_cases c2 : s.g.hiend ≠ none ∧ s.g.head = s.g.hiend ∧ n0.pid = p
    · rw [if_pos c2] at h
      simp only [Run.bind_eq_ok, Machine.load_eq_ok] at h
      obtain ⟨he, _, h⟩ := h
      by_cases c5 : he.next ≠ none
      · rw [if_pos c5] at h
        simp only [Run.bind_eq_ok, Machine.load_eq_ok, Run.pure_eq, Run.ok.injEq] at h
        obtain ⟨s3, h3, n1, hn1, rfl⟩ := h
        intro _ h2
        refine absurd ?_ h2
        rcases Machine.free_eq_ok h3 with ⟨_, rfl⟩ | ⟨b, n, _, _, rfl⟩
        · rfl
        · rfl
      · rw [if_neg c5] at h
        simp only [Run.bind_eq_ok] at h
        obtain ⟨_, _, h⟩ := h
        cases h
    · rw [if_neg c2] at h
      by_cases c3 : n0.next ≠ none ∧ n0.pid ≠ p
      · rw [if_pos c3] at h
        cases hhd : s.g.head with
        | none => rw [hhd] at hn0; simp [cell] at hn0
        | some a =>
          rw [hhd] at hn0
          obtain ⟨q, k, hx⟩ := reap_loop_frame s p a n0 hn0 c3.2 _ _ _ _ h
          rw [q.2.2, List.drop_length]
          refine strict_of_keeps hw hsub q.1 ?_ (fun h2 e => h2 (hx e))
          intro b hb
          rw [hhd] at hb
          cases hb
          exact k
      · rw [if_neg c3] at h
        by_cases c4 : s.g.hiend = none ∧ s.g.head = s.g.tail ∧ n0.pid = p
        · rw [if_pos c4] at h
          simp only [Run.bind_eq_ok] at h
          obtain ⟨_, _, h⟩ := h
          cases h
        · rw [if_neg c4] at h
          simp only [Run.pure_eq, Run.ok.injEq] at h
          subst h
          rw [List.drop_length]
          exact strict_of_keeps hw hsub rfl (fun a _ => KeepsAt.krefl a s) (fun h => h)

end SchedulerPrioLab

end Sched

namespace Sched

namespace SchedulerPrioLab

theorem set_next_other {s s2 : State} {p v : Option Nat} (h : s.set_next p v = .ok s2)
    (q : Option Nat) (hq : q ≠ p) : cell s2.mem q = cell s.mem q := by
  obtain ⟨b, n, rfl, hc, rfl⟩ := Machine.set_next_eq_ok h
  cases q with
  | none => rfl
  | some a => exact cell_set_ne _ _ _ _ (fun e => hq (by rw [e]))

/-- The stop of a child that was not RUNNING keeps strict priority. -/
theorem on_stop_strict {s s2 : State} {hi lo : List (Nat × task Char)} {r : List Int} {p : Int}
    (hw : Holds s hi lo) (hf : s.g.fixproblem = 0) (hr : OnlyHeadRuns s r) (hp : p ∉ r)
    (h : on_stop s p = .ok s2) :
    StrictPriority s2 (run_effects r (s2.out.drop s.out.length)) := by
  have c0 : ¬ s.g.fixproblem = 1 := by rw [hf]; decide
  unfold on_stop at h
  rw [if_neg c0] at h
  simp only [Run.bind_eq_ok, Machine.load_eq_ok] at h
  obtain ⟨n0, hn0, h⟩ := h
  have hout : ∀ (o : List Effect) (e1 e2 : Effect),
      List.drop o.length ((o ++ [e1]) ++ [e2]) = [e1, e2] := by
    intro o e1 e2
    simp
  by_cases c2 : s.g.hiend ≠ none ∧ s.g.head ≠ s.g.hiend ∧ n0.pid = p
  · rw [if_pos c2] at h
    simp only [Run.bind_eq_ok, Machine.load_eq_ok, Run.pure_eq, Run.ok.injEq] at h
    obtain ⟨he, hhe, s3, h3, n1, hn1, he2, hhe2, s4, h4, n2, hn2, rfl⟩ := h
    have g3 := set_next_g h3
    have g4 := set_next_g h4
    have ho : s4.out = s.out := (g4.2 : s4.out = s3.out).trans g3.2
    have hhead : s4.g.head = n1.next := congrArg Globals.head g4.1
    rw [g3.1, set_next_other h3 _ c2.2.1, hn0] at hn1
    cases hn1
    obtain ⟨b, m, hb1, hb2, hb3⟩ := hw.second_high c2.1 c2.2.1 hn0
    obtain ⟨m3, hm3, _, hq3⟩ := (set_next_keeps h3 b).2.2 m hb2
    obtain ⟨m4, hm4, _, hq4⟩ := (set_next_keeps h4 b).2.2 m3 hm3
    have hn2 : cell s4.mem s4.g.head = some n2 := hn2
    show StrictPriority _ (run_effects r (List.drop s.out.length ((s4.out ++ [_]) ++ [_])))
    rw [ho, hout]
    intro _ _ q hq
    rcases run_effects_cont _ _ _ q hq with e | e
    · refine ⟨n2, hn2, e.symm, ?_⟩
      rw [hhead, hb1, hm4] at hn2
      cases hn2
      rw [hq4, hq3]
      exact hb3
    · obtain ⟨n, hn, hnp⟩ := hr q e
      rw [hn0] at hn
      cases hn
      rw [c2.2.2] at hnp
      rw [hnp] at hp
      exact absurd e hp
  · rw [if_neg c2] at h
    by_cases c3 : s.g.hiend = none ∧ s.g.head ≠ s.g.tail ∧ n0.pid = p
    · rw [if_pos c3] at h
      simp only [Run.bind_eq_ok, Machine.load_eq_ok, Run.pure_eq, Run.ok.injEq] at h
      obtain ⟨s3, h3, n1, hn1, t1, ht1, s4, h4, n2, hn2, rfl⟩ := h
      intro _ h2
      refine absurd ?_ h2
      show s4.g.hiend = none
      rw [(set_next_g h4).1]
      show s3.g.hiend = none
      rw [(set_next_g h3).1]
      exact c3.1
    · rw [if_neg c3] at h
      by_cases c4 : s.g.hiend ≠ none ∧ s.g.head = s.g.hiend ∧ n0.pid = p
      · rw [if_pos c4] at h
        simp only [Run.pure_eq, Run.ok.injEq] at h
        subst h
        show StrictPriority _ (run_effects r (List.drop s.out.length ((s.out ++ [_]) ++ [_])))
        rw [hout]
        refine strict_of_keeps hw ?_ rfl (fun a _ => fun n hn => ⟨n, hn, rfl, rfl⟩) (fun h => h)
        intro q hq
        rcases run_effects_cont _ _ _ q hq with e | e
        · exact ⟨n0, hn0, e.symm⟩
        · exact hr q e
      · rw [if_neg c4] at h
        by_cases c5 : s.g.hiend = none ∧ s.g.head = s.g.tail ∧ n0.pid = p
        · rw [if_pos c5] at h
          simp only [Run.pure_eq, Run.ok.injEq] at h
          subst h
          exact fun _ h2 => absurd c5.1 h2
        · rw [if_neg c5] at h
          simp only [Run.pure_eq, Run.ok.injEq] at h
          subst h
          rw [List.drop_length]
          exact strict_of_keeps hw hr rfl (fun a _ => KeepsAt.krefl a s) (fun h => h)

end SchedulerPrioLab

end Sched

namespace Sched

namespace SchedulerPrioLab

/-- One step from a well-formed registry: in `scheduler-prio-lab.c`, from a
well-formed registry with `fixproblem = 0` in which no task other than the head
of the list is RUNNING, a timer event, child notification (a child reported as
stopped not being RUNNING) or request whose handler returns leads to a state in
which, if the HIGH tier is not empty and `fixproblem = 0`, every RUNNING task
is the head of the list and is HIGH.  This says nothing about the states with
`fixproblem = 1`, nor about states in which another task than the head runs. -/
theorem strict_priority_step (s s2 : State) (hi lo : List (Nat × task Char))
    (r r2 : List Int) (e : Event)
    (hw : Holds s hi lo) (hf : s.g.fixproblem = 0) (hr : OnlyHeadRuns s r)
    (henv : ∀ p, e = .sigchld p .stopped → p ∉ r)
    (hex : exec (s, r) e = .ok (s2, r2)) : StrictPriority s2 r2 := by
  simp only [exec, Run.bind_eq_ok, Run.pure_eq, Run.ok.injEq, Prod.mk.injEq] at hex
  obtain ⟨s3, h3, rfl, rfl⟩ := hex
  cases e with
  | request q p junk =>
    simp only [step, Run.bind_eq_ok, Run.pure_eq, Run.ok.injEq] at h3
    obtain ⟨⟨s4, x⟩, h4, rfl⟩ := h3
    exact request_strict hw hr h4
  | sigalrm => exact sigalrm_strict hw hf hr h3
  | sigchld p status =>
    have hb : OnlyHeadRuns s (before r (.sigchld p status)) := by
      cases status with
      | exited => exact hr.sub (fun q hq => (List.mem_filter.1 hq).1)
      | signaled => exact hr.sub (fun q hq => (List.mem_filter.1 hq).1)
      | stopped => exact hr
    simp only [step, sigchld_handler] at h3
    by_cases c1 : p < 0
    · rw [if_pos c1] at h3
      cases h3
    · rw [if_neg c1] at h3
      by_cases c2 : p = 0
      · rw [if_pos c2] at h3
        simp only [Run.ok.injEq] at h3
        subst h3
        rw [List.drop_length]
        exact strict_of_keeps hw hb rfl (fun a _ => KeepsAt.krefl a s) (fun h => h)
      · rw [if_neg c2] at h3
        simp only [Run.bind_eq_ok, Run.ok.injEq] at h3
        obtain ⟨s4, h4, rfl⟩ := h3
        cases status with
        | exited =>
          simp [sigchld_step, Run.bind_eq_ok] at h4
          exact on_death_strict hw hr h4
        | signaled =>
          simp [sigchld_step, Run.bind_eq_ok] at h4
          exact on_death_strict hw hr h4
        | stopped =>
          simp [sigchld_step, Run.bind_eq_ok] at h4
          exact on_stop_strict hw hf hr (henv p rfl) h4

/-- The step lemma at an input: in `c2_before` the head, task 1, has been
stopped and no task is RUNNING; its `stopped` notification puts task 2, which
is HIGH, at the head and continues it. -/
theorem strict_priority_step_example :
    Holds c2_before [(1, ⟨101, 'h', 1⟩), (2, ⟨102, 'h', 2⟩)] [(0, ⟨100, 'l', 0⟩)] ∧
    c2_before.g.fixproblem = 0 ∧ OnlyHeadRuns c2_before [] ∧
    exec (c2_before, []) (.sigchld 101 .stopped) = .ok (c2_after, [102]) ∧
    StrictPriority c2_after [102] :=
  have hw : Holds c2_before [(1, ⟨101, 'h', 1⟩), (2, ⟨102, 'h', 2⟩)] [(0, ⟨100, 'l', 0⟩)] :=
    ⟨⟨rfl, _, rfl, rfl, _, rfl, rfl, _, rfl, rfl⟩, rfl, rfl, by decide, by decide⟩
  have hr : OnlyHeadRuns c2_before [] := fun _ h => absurd h (List.not_mem_nil _)
  ⟨hw, rfl, hr, rfl,
    strict_priority_step c2_before c2_after _ _ [] [102] (.sigchld 101 .stopped) hw rfl hr
      (fun _ _ => List.not_mem_nil _) rfl⟩

end SchedulerPrioLab

end Sched

namespace Sched

section MoreSegments

variable {P : Type}

/-- The first cell of a list points to the second. -/
theorem seg_head_next {m : List (Option (process_node P))} {a : Nat} {t : task P}
    {l : List (Nat × task P)} {p : Option Nat} (h : Seg m p ((a, t) :: l) none) :
    p = some a ∧ cell m (some a) = some (t.node (first l)) := by
  obtain ⟨hp, nx, hc, hrest⟩ := h
  rw [seg_start hrest] at hc
  exact ⟨hp, hc⟩

/-- Giving the first cell of a list another task with the same `next`. -/
theorem seg_retask_head {m : List (Option (process_node P))} {a : Nat} {t : task P}
    {l : List (Nat × task P)} {p : Option Nat} (h : Seg m p ((a, t) :: l) none)
    (t2 : task P) : Seg (m.set a (some (t2.node (first l)))) p ((a, t2) :: l) none := by
  have hn := seg_not_mem h
  obtain ⟨hp, nx, hc, hrest⟩ := h
  refine ⟨hp, first l, ?_, ?_⟩
  · rw [cell_set _ _ _ _ (cell_lt hc)]
    simp
  · rw [← seg_start hrest]
    exact seg_set _ hn hrest

theorem last_mem (l : List (Nat × task P)) (b : Nat) (h : last l = some b) :
    b ∈ l.map Prod.fst := by
  cases l with
  | nil => cases h
  | cons x l =>
    obtain ⟨l0, y, e⟩ := exists_snoc (x :: l) (by simp)
    rw [e, last_concat] at h
    rw [e]
    simp only [List.map_append, List.map_cons, List.map_nil, List.mem_append,
      List.mem_singleton]
    exact Or.inr (Option.some.inj h).symm

theorem last_ne_none (l : List (Nat × task P)) (h : l ≠ []) : last l ≠ none := by
  obtain ⟨l0, y, e⟩ := exists_snoc l h
  rw [e, last_concat]
  simp

theorem last_map_eq (l l2 : List (Nat × task P)) (h : l.map Prod.fst = l2.map Prod.fst) :
    last l = last l2 := by
  unfold last
  rw [← List.getLast?_map, ← List.getLast?_map, h]

end MoreSegments

end Sched

namespace Sched

namespace SchedulerPrioLab

/-- C13: in `scheduler-prio-lab.c`, for a well-formed registry whose HIGH tier
is empty and whose head has id `x`, `sched_high_task(x)` returns, makes the
head the only HIGH task, leaves the order of the list as it is and sends no
signal. -/
theorem C13_raise_running_head (s : State) (a : Nat) (x : task Char)
    (lo : List (Nat × task Char)) (hw : Holds s [] ((a, x) :: lo)) :
    ∃ s2, sched_high_task s x.id = .ok (s2, 0) ∧
      Holds s2 [(a, { x with prio := 'h' })] lo ∧ s2.out = s.out ∧
      s2.g.head = s.g.head ∧ s2.g.fixproblem = s.g.fixproblem := by
  obtain ⟨hseg, htail, hhe, _, hlo⟩ := hw
  have hseg : Seg s.mem s.g.head ((a, x) :: lo) none := hseg
  have hna := seg_not_mem hseg
  obtain ⟨hhead, nx, hca, hrest⟩ := hseg
  have hhe : s.g.hiend = none := hhe
  have hal : a < s.mem.length := cell_lt hca
  refine ⟨{ mem := s.mem.set a (some (({ x with prio := 'h' } : task Char).node nx)),
            g := { s.g with hiend := some a }, out := s.out }, ?_, ?_, rfl, rfl, rfl⟩
  · simp [sched_high_task, high_move, hhe, hhead, Machine.load, hca, Machine.set_prio,
      Machine.store, Machine.setg, cell_set, hal, task.node]
  · refine ⟨⟨hhead, nx, ?_, seg_set _ hna hrest⟩, ?_, rfl, ?_, ?_⟩
    · rw [cell_set _ _ _ _ hal]
      simp
    · show s.g.tail = _
      rw [htail]
      exact last_map_eq _ _ rfl
    · intro y hy
      simp only [List.mem_singleton] at hy
      subst hy
      rfl
    · intro y hy
      exact hlo y (List.mem_cons_of_mem _ hy)

end SchedulerPrioLab

end Sched

namespace Sched

namespace SchedulerPrioLab

/-- C11: in `scheduler-prio-lab.c`, for a well-formed registry that is not
empty, `sched_create_task` with a successful `fork` returns and appends one
task in a fresh cell at the end of the list, LOW and with the id
`maxid + 1`, where `maxid` is the maximum of 0 and the ids in the list; the
tasks that were there, their order, their tiers, `head`, `hiend` and
`fixproblem` are as before and nothing is sent. -/
theorem C11_create_appends_low (s : State) (hi lo : List (Nat × task Char))
    (hw : Holds s hi lo) (hne : hi ++ lo ≠ []) (p : Int) (hp : 0 < p)
    (junk : process_node Char) :
    ∃ s2, sched_create_task s p junk = .ok s2 ∧
      Holds s2 hi (lo ++ [(s.mem.length, ⟨p, 'l', maxid_of (hi ++ lo) 0 + 1⟩)]) ∧
      s2.out = s.out ∧ s2.g.head = s.g.head ∧ s2.g.hiend = s.g.hiend ∧
      s2.g.fixproblem = s.g.fixproblem := by
  obtain ⟨hseg, htail, hhe, hhi, hlo⟩ := hw
  generalize hl : hi ++ lo = l at hseg htail hne
  obtain ⟨l0, ⟨z, tz⟩, rfl⟩ := exists_snoc l hne
  rw [last_concat] at htail
  have hlt := seg_cell_lt _ _ _ hseg
  have hzl : z < s.mem.length := hlt z (by simp)
  obtain ⟨hcz, h0⟩ := seg_last_cell hseg
  have hp1 : ¬ p < 0 := by omega
  have hp2 : ¬ p = 0 := by omega
  have hzn : z ≠ s.mem.length := by omega
  have hnz : s.mem.length ≠ z := by omega
  unfold sched_create_task
  simp only [hp1, hp2, if_false, Machine.malloc, Machine.set_pid, Machine.load,
    cell_append_length, Run.ok_bind, Machine.store]
  rw [maxid_loop_seg _ (l0 ++ [(z, tz)]) _ _ 0
    (seg_set _ (fun h => absurd (hlt _ h) (lt_irrefl _)) (seg_append_mem _ hseg))
    (by
      have := seg_length_le hseg
      simp only [Machine.fuel, List.length_set, List.length_append, List.length_cons,
        List.length_nil] at this ⊢
      omega)]
  simp [Machine.set_id, Machine.set_prio, Machine.load, Machine.store, Machine.set_next,
    Machine.setg, cell_set, SchedulerShell.cell_append, htail, hcz, hzl, hzn, hnz]
  have hnd := seg_nodup _ _ hseg
  simp only [List.map_append, List.map_cons, List.map_nil] at hnd
  have hz0 : z ∉ l0.map Prod.fst := by
    have := (List.nodup_cons.1 (List.nodup_middle.1 hnd)).1
    simpa using this
  refine ⟨?_, ?_, hhe, hhi, ?_⟩
  · rw [← List.append_assoc, hl]
    have h1 : Seg (s.mem.set z (some (tz.node (some s.mem.length))) ++
        [some ((⟨p, 'l', maxid_of (l0 ++ [(z, tz)]) 0 + 1⟩ : task Char).node none)])
        s.g.head l0 (some z) := seg_append_mem _ (seg_set _ hz0 h0)
    have h2 := seg_snoc (seg_snoc h1 (q := some s.mem.length) (z := z) (t := tz)
        (by simp [SchedulerShell.cell_append, cell_set, hzl]))
      (q := none) (z := s.mem.length) (t := ⟨p, 'l', maxid_of (l0 ++ [(z, tz)]) 0 + 1⟩)
      (by simp [SchedulerShell.cell_append])
    simpa [task.node] using h2
  · rw [← List.append_assoc, hl]
    have := last_concat (l0 ++ [(z, tz)])
      (s.mem.length, (⟨p, 'l', maxid_of (l0 ++ [(z, tz)]) 0 + 1⟩ : task Char))
    simpa using this.symm
  · intro y hy
    rcases List.mem_append.1 hy with h | h
    · exact hlo y h
    · simp only [List.mem_singleton] at h
      subst h
      rfl

end SchedulerPrioLab

end Sched

namespace Sched

namespace SchedulerPrioLab

/-- What `sched_low_task` does to the head of a list with at least two nodes:
the head becomes LOW and goes behind the tail, `fixproblem` is set and nothing
is sent. -/
theorem low_head_exec (s : State) (a z : Nat) (na nz : process_node Char)
    (hhead : s.g.head = some a) (htail : s.g.tail = some z) (hhe : s.g.hiend ≠ none)
    (hca : cell s.mem (some a) = some na) (hcz : cell s.mem (some z) = some nz)
    (haz : a ≠ z) :
    sched_low_task s na.id = .ok
      ({ mem := ((s.mem.set a (some { na with prio := 'l' })).set z
            (some { nz with next := some a })).set a (some { na with prio := 'l', next := none }),
         g := { head := na.next, tail := some a,
                hiend := if some a = s.g.hiend then none else s.g.hiend, fixproblem := 1 },
         out := s.out }, 0) := by
  have hzl : z < s.mem.length := cell_lt hcz
  have hal : a < s.mem.length := cell_lt hca
  have hza : z ≠ a := Ne.symm haz
  by_cases hah : some a = s.g.hiend
  · simp [sched_low_task, low_move, Machine.load, Machine.set_next, Machine.set_prio,
      Machine.store, Machine.setg, hhead, htail, hca, hcz, cell_set, hzl, hal, haz, hza,
      hah.symm]
  · simp [sched_low_task, low_move, Machine.load, Machine.set_next, Machine.set_prio,
      Machine.store, Machine.setg, hhead, htail, hhe, hca, hcz, cell_set, hzl, hal, haz, hza,
      hah]

end SchedulerPrioLab

end Sched

namespace Sched

namespace SchedulerPrioLab

/-- The search of `sched_high_task` behind `hiend` finds no task with an id
that is not there, and changes nothing. -/
theorem raise_loop_absent (s : State) (id : Int) :
    ∀ (l : List (Nat × task Char)) (prev cur : Option Nat) (f : Nat) (pn : process_node Char),
    Seg s.mem cur l none → id ∉ ids l → l.length < f → cell s.mem prev = some pn →
    pn.next = cur → raise_loop s id f prev cur = .ok (s, none, false)
  | [], prev, cur, f, pn, h, _, hf, _, _ => by
    have hp : cur = none := h
    subst hp
    obtain ⟨f, rfl⟩ : ∃ k, f = k + 1 := ⟨f - 1, by omega⟩
    rfl
  | (a, t) :: l, prev, cur, f, pn, h, hid, hf, hpn, hnx => by
    obtain ⟨hp, nx, hc, hrest⟩ := h
    subst hp
    obtain ⟨f, rfl⟩ : ∃ k, f = k + 1 := ⟨f - 1, by omega⟩
    simp only [List.length_cons, Nat.add_lt_add_iff_right] at hf
    simp only [ids, List.map_cons, List.mem_cons, not_or] at hid
    have hne : ¬ t.id = id := fun e => hid.1 e.symm
    simp only [raise_loop, Machine.load, hc, hpn, Run.ok_bind, task.node_id, hne, if_false,
      task.node_next, hnx]
    exact raise_loop_absent s id l _ nx f (t.node nx) hrest hid.2 hf hc rfl

/-- The search of `sched_low_task` through the HIGH tier finds no task with an
id that is not there, and changes nothing. -/
theorem lower_loop_absent (s : State) (id : Int) (he : process_node Char)
    (hhe : cell s.mem s.g.hiend = some he) :
    ∀ (l : List (Nat × task Char)) (prev cur : Option Nat) (f : Nat) (pn : process_node Char),
    Seg s.mem cur l he.next → id ∉ ids l → l.length < f → cell s.mem prev = some pn →
    pn.next = cur → ∃ c, lower_loop s id f prev cur = .ok (s, c, false)
  | [], prev, cur, f, pn, h, _, hf, _, _ => by
    have hp : cur = he.next := h
    obtain ⟨f, rfl⟩ : ∃ k, f = k + 1 := ⟨f - 1, by omega⟩
    exact ⟨cur, by simp [lower_loop, Machine.load, hhe, hp]⟩
  | (a, t) :: l, prev, cur, f, pn, h, hid, hf, hpn, hnx => by
    obtain ⟨hp, nx, hc, hrest⟩ := h
    subst hp
    obtain ⟨f, rfl⟩ : ∃ k, f = k + 1 := ⟨f - 1, by omega⟩
    simp only [List.length_cons, Nat.add_lt_add_iff_right] at hf
    simp only [ids, List.map_cons, List.mem_cons, not_or] at hid
    have hne : ¬ t.id = id := fun e => hid.1 e.symm
    by_cases hstop : some a = he.next
    · exact ⟨some a, by simp [lower_loop, Machine.load, hhe, hstop]⟩
    · obtain ⟨c, hc2⟩ :=
        lower_loop_absent s id he hhe l (some a) nx f (t.node nx) hrest hid.2 hf hc rfl
      refine ⟨c, ?_⟩
      simp only [lower_loop, Machine.load, hhe, hc, hpn, Run.ok_bind, hstop, if_false,
        task.node_id, hne, task.node_next, Run.pure_eq, hnx]
      exact hc2

/-- In a well-formed registry with a HIGH tier, `hiend` is the last HIGH cell
and points to the first LOW cell. -/
theorem Holds.hiend_cell {s : State} {hi lo : List (Nat × task Char)} {z : Nat}
    {tz : task Char} (hw : Holds s (hi ++ [(z, tz)]) lo) :
    s.g.hiend = some z ∧ cell s.mem (some z) = some (tz.node (first lo)) ∧
      Seg s.mem s.g.head hi (some z) ∧ Seg s.mem (first lo) lo none := by
  obtain ⟨hseg, _, hhe, _, _⟩ := hw
  rw [last_concat] at hhe
  obtain ⟨r, h1, h2⟩ := (seg_append _ _ _ _).1 hseg
  obtain ⟨hcz, h0⟩ := seg_last_cell h1
  rw [seg_start h2] at hcz h2
  exact ⟨hhe, hcz, h0, h2⟩

/-- Raising an id that no LOW task has, in a registry with a HIGH tier,
changes nothing. -/
theorem sched_high_task_skip (s : State) (hi lo : List (Nat × task Char)) (hw : Holds s hi lo)
    (hne : hi ≠ []) (id : Int) (hid : id ∉ ids lo) : sched_high_task s id = .ok (s, 0) := by
  obtain ⟨h0, ⟨z, tz⟩, rfl⟩ := exists_snoc hi hne
  obtain ⟨hhe, hcz, _, hlo⟩ := hw.hiend_cell
  have htail := hw.2.1
  have hfuel : lo.length < s.fuel := by
    have := seg_fuel hw.1
    simp only [List.length_append] at this
    omega
  have hloop := raise_loop_absent s id lo s.g.hiend (first lo) s.fuel _ hlo hid hfuel
    (by rw [hhe]; exact hcz) rfl
  rw [hhe] at hloop
  by_cases hft : first lo = s.g.tail
  · cases lo with
    | nil =>
      rw [List.append_nil, last_concat] at htail
      rw [htail] at hft
      cases hft
    | cons y lo =>
      obtain ⟨b, u⟩ := y
      obtain ⟨_, nx, hcb, _⟩ := hlo
      have hft2 : s.g.tail = some b := hft.symm
      simp only [ids, List.map_cons, List.mem_cons, not_or] at hid
      have hne : ¬ u.id = id := fun e => hid.1 e.symm
      simp [sched_high_task, high_move, hhe, Machine.load, hcz, hft2, hcb, hne, first]
      have hloop2 : raise_loop s id s.fuel (some z) (some b) = .ok (s, none, false) := hloop
      simp [hloop2]
  · simp [sched_high_task, high_move, hhe, Machine.load, hcz, hft, hloop]

end SchedulerPrioLab

end Sched

namespace Sched

namespace SchedulerPrioLab

/-- Lowering an id that no HIGH task has changes nothing. -/
theorem sched_low_task_skip (s : State) (hi lo : List (Nat × task Char)) (hw : Holds s hi lo)
    (id : Int) (hid : id ∉ ids hi) : sched_low_task s id = .ok (s, 0) := by
  cases hi with
  | nil =>
    have hhe : s.g.hiend = none := hw.2.2.1
    simp [sched_low_task, low_move, hhe]
  | cons y hi =>
    obtain ⟨a, t⟩ := y
    have hne : (a, t) :: hi ≠ [] := by simp
    obtain ⟨h0, ⟨z, tz⟩, e⟩ := exists_snoc _ hne
    have hw2 := hw
    rw [e] at hw2
    obtain ⟨hhe, hcz, hseg0, _⟩ := hw2.hiend_cell
    have hhn : s.g.hiend ≠ none := by rw [hhe]; simp
    have hseg : Seg s.mem s.g.head ((a, t) :: (hi ++ lo)) none := hw.1
    obtain ⟨hhead, hca⟩ := seg_head_next hseg
    simp only [ids, List.map_cons, List.mem_cons, not_or] at hid
    have hne1 : ¬ t.id = id := fun e => hid.1 e.symm
    have hfuel : hi.length < s.fuel := by
      have := seg_fuel hw.1
      simp only [List.length_append, List.length_cons] at this
      omega
    -- the HIGH tier behind the head, as a segment up to the first LOW cell
    obtain ⟨r, h1, h2⟩ := (seg_append ((a, t) :: hi) lo _ _).1 hw.1
    obtain ⟨_, nx, hca2, hrest⟩ := h1
    rw [hca] at hca2
    have hnx : first (hi ++ lo) = nx := by
      have := Option.some.inj hca2
      exact congrArg process_node.next this
    have hr : r = first lo := seg_start h2
    rw [hr] at hrest
    obtain ⟨c, hc⟩ := lower_loop_absent s id (tz.node (first lo)) (by rw [hhe]; exact hcz) hi
      s.g.head nx s.fuel (t.node (first (hi ++ lo))) hrest hid.2 hfuel
      (by rw [hhead]; exact hca) hnx
    by_cases hd : s.g.head = s.g.hiend
    · have hd3 : s.g.hiend = some a := by rw [← hd, hhead]
      simp [sched_low_task, low_move, Machine.load, hhead, hca, hne1, hd3]
    · have hd2 : ¬ some a = s.g.hiend := by rw [← hhead]; exact hd
      rw [hhead] at hc
      simp [sched_low_task, low_move, hhn, Machine.load, hhead, hca, hne1, hd2, hnx, hc]

end SchedulerPrioLab

end Sched

namespace Sched

section MoreWalks

variable {G P : Type}

/-- The search by pid through a list that does not hold the pid ends at `NULL`,
after as many steps as the list has cells, without setting `found`. -/
theorem search_pid_absent (s : Machine G P) (p : Int) :
    ∀ (l : List (Nat × task P)) (cur : Option Nat) (f pos : Nat),
    Seg s.mem cur l none → p ∉ pids l → l.length < f →
    s.search_pid p f cur pos = .ok (none, pos + l.length, false)
  | [], cur, f, pos, h, _, hf => by
    have hp : cur = none := h
    subst hp
    obtain ⟨f, rfl⟩ : ∃ k, f = k + 1 := ⟨f - 1, by omega⟩
    rfl
  | (a, t) :: l, cur, f, pos, h, hid, hf => by
    obtain ⟨hp, nx, hc, hrest⟩ := h
    subst hp
    obtain ⟨f, rfl⟩ : ∃ k, f = k + 1 := ⟨f - 1, by omega⟩
    simp only [List.length_cons, Nat.add_lt_add_iff_right] at hf
    simp only [pids, List.map_cons, List.mem_cons, not_or] at hid
    have hne : ¬ t.pid = p := fun e => hid.1 e.symm
    simp only [Machine.search_pid, Machine.load, hc, Run.ok_bind, task.node_pid, hne, if_false,
      task.node_next]
    rw [search_pid_absent s p l nx f (pos + 1) hrest hid.2 hf]
    simp only [List.length_cons]
    congr 3
    omega

end MoreWalks

end Sched

namespace Sched

namespace SchedulerShellPrio

/-- What the `WIFSTOPPED` branch does for a child that is in neither queue,
when the LOW queue is not empty: a fresh cell for it is linked behind `tail`. -/
theorem adopt_exec (s : State) (v : Locals) (p : Int) (junk : process_node Char) (z : Nat)
    (nz : process_node Char) (htail : s.g.tail = some z) (hcz : cell s.mem (some z) = some nz)
    (hhn : s.g.head ≠ none) (m1 m2 : Int)
    (h1 : ∀ x : Option (process_node Char),
      Machine.maxid_loop ({ mem := s.mem ++ [x], g := s.g, out := s.out } : State)
        (s.mem.length + 1 + 1) s.g.head v.maxid = .ok m1)
    (h2 : ∀ x : Option (process_node Char),
      Machine.maxid_loop ({ mem := s.mem ++ [x], g := s.g, out := s.out } : State)
        (s.mem.length + 1 + 1) s.g.highhead m1 = .ok m2) :
    adopt s v p junk = .ok
      ({ mem := s.mem.set z (some { nz with next := some s.mem.length }) ++
           [some ⟨p, 'l', m2 + 1, none⟩],
         g := { s.g with tail := some s.mem.length }, out := s.out },
       { v with current := none, maxid := m2 }) := by
  have hzl : z < s.mem.length := cell_lt hcz
  have hzn : z ≠ s.mem.length := by omega
  have hnz : s.mem.length ≠ z := by omega
  have hset : ∀ (x v : Option (process_node Char)),
      (s.mem ++ [x]).set s.mem.length v = s.mem ++ [v] := by
    intro x v
    simp
  simp only [adopt, Machine.malloc, Machine.set_pid, Machine.load, cell_append_length,
    Run.ok_bind, Machine.store, hset, Machine.fuel, List.length_append, List.length_singleton,
    h1, h2]
  simp [Machine.set_id, Machine.set_prio, Machine.load, Machine.store, Machine.set_next,
    Machine.setg, cell_set, SchedulerShell.cell_append, htail, hcz, hzl, hzn, hnz, hhn]

end SchedulerShellPrio

end Sched

namespace Sched

namespace SchedulerShellPrio

/-- C12, amended: in `scheduler-shell-prio.c`, `process_request` for a SPAWN
request whose `fork` succeeded returns 0 and leaves the state as it is: the new
task is in neither queue.  It enters the registry when `sigchld_handler` gets
the `stopped` notification of the child: for a well-formed registry whose LOW
queue is not empty and a pid that is in neither queue, the handler returns
and the task is the last of the LOW queue, in a fresh cell, LOW, with the id
`maxid + 1`; the HIGH queue and the rest of the LOW queue are as before and
nothing is sent. -/
theorem C12_spawn_defers_insertion (s : State) (hi lo : List (Nat × task Char))
    (hw : Holds s hi lo) (hdis : ∀ a ∈ hi.map Prod.fst, a ∉ lo.map Prod.fst) (hne : lo ≠ [])
    (q : request_struct) (hq : q.request_no = .REQ_EXEC_TASK) (p : Int) (hp : 0 < p)
    (habs : p ∉ pids hi ∧ p ∉ pids lo) (junk : process_node Char) :
    process_request s q p = .ok (s, 0) ∧
    ∃ s2, sigchld_handler s [(p, .stopped, junk)] = .ok s2 ∧
      Holds s2 hi (lo ++ [(s.mem.length, ⟨p, 'l', maxid_of hi (maxid_of lo 0) + 1⟩)]) ∧
      s2.out = s.out := by
  have hp1 : ¬ p < 0 := by omega
  have hp2 : ¬ p = 0 := by omega
  refine ⟨by simp [process_request, hq, sched_create_task, hp1, hp2], ?_⟩
  obtain ⟨hsh, hht, hsl, htail⟩ := hw
  obtain ⟨l0, ⟨z, tz⟩, rfl⟩ := exists_snoc lo hne
  rw [last_concat] at htail
  have hlt := seg_cell_lt _ _ _ hsl
  have hlth := seg_cell_lt _ _ _ hsh
  have hzl : z < s.mem.length := hlt z (by simp)
  obtain ⟨hcz, h0⟩ := seg_last_cell hsl
  have hzn : z ≠ s.mem.length := by omega
  have hnz : s.mem.length ≠ z := by omega
  obtain ⟨hhead, nxh, hch⟩ := seg_head_cell hsl (by simp)
  have hhn : s.g.head ≠ none := by rw [hhead]; simp
  have hfl : (l0 ++ [(z, tz)]).length < s.fuel := seg_fuel hsl
  have hfh : hi.length < s.fuel := seg_fuel hsh
  have hs1 := search_pid_absent s p hi s.g.highhead s.fuel 0 hsh habs.1 hfh
  have hs2 := search_pid_absent s p _ s.g.head s.fuel 0 hsl habs.2 hfl
  have hmx1 : ∀ x : Option (process_node Char),
      Machine.maxid_loop ({ mem := s.mem ++ [x], g := s.g, out := s.out } : State)
        (s.mem.length + 1 + 1) s.g.head 0 = .ok (maxid_of (l0 ++ [(z, tz)]) 0) := by
    intro x
    apply maxid_loop_seg
    · exact seg_append_mem _ hsl
    · have : (l0 ++ [(z, tz)]).length < s.mem.length + 1 := hfl
      omega
  have hmx2 : ∀ (x : Option (process_node Char)),
      Machine.maxid_loop ({ mem := s.mem ++ [x], g := s.g, out := s.out } : State)
        (s.mem.length + 1 + 1) s.g.highhead (maxid_of (l0 ++ [(z, tz)]) 0) =
        .ok (maxid_of hi (maxid_of (l0 ++ [(z, tz)]) 0)) := by
    intro x
    apply maxid_loop_seg
    · exact seg_append_mem _ hsh
    · have : hi.length < s.mem.length + 1 := hfh
      omega
  simp only [sigchld_handler, sigchld_loop, hp1, hp2, if_false, sigchld_step, on_stop,
    Machine.load, hch, Run.ok_bind, reduceCtorEq, false_or, if_true, Run.pure_eq, hs1, hs2,
    ite_self, Bool.or_false, Bool.false_eq_true, not_false_eq_true, ite_not]
  rw [adopt_exec s _ p junk z _ htail hcz hhn _ _ hmx1 hmx2]
  refine ⟨_, rfl, ?_, rfl⟩
  have hnd := seg_nodup _ _ hsl
  simp only [List.map_append, List.map_cons, List.map_nil] at hnd
  have hz0 : z ∉ l0.map Prod.fst := by
    have := (List.nodup_cons.1 (List.nodup_middle.1 hnd)).1
    simpa using this
  have hzh : z ∉ hi.map Prod.fst := by
    intro h
    exact hdis z h (by simp)
  refine ⟨?_, hht, ?_, ?_⟩
  · exact seg_append_mem _ (seg_set _ hzh hsh)
  · have h1 : Seg (s.mem.set z (some (tz.node (some s.mem.length))) ++
        [some ((⟨p, 'l', maxid_of hi (maxid_of (l0 ++ [(z, tz)]) 0) + 1⟩ : task Char).node none)])
        s.g.head l0 (some z) := seg_append_mem _ (seg_set _ hz0 h0)
    have h2 := seg_snoc (seg_snoc h1 (q := some s.mem.length) (z := z) (t := tz)
        (by simp [SchedulerShell.cell_append, cell_set, hzl]))
      (q := none) (z := s.mem.length)
      (t := ⟨p, 'l', maxid_of hi (maxid_of (l0 ++ [(z, tz)]) 0) + 1⟩)
      (by simp [SchedulerShell.cell_append])
    simpa [task.node] using h2
  · have := last_concat (l0 ++ [(z, tz)])
      (s.mem.length, (⟨p, 'l', maxid_of hi (maxid_of (l0 ++ [(z, tz)]) 0) + 1⟩ : task Char))
    simpa using this.symm

end SchedulerShellPrio

end Sched

namespace Sched

section MoveSegments

variable {P : Type}

theorem last_or_cons (a : Nat) (t : task P) (l : List (Nat × task P)) (prev : Option Nat) :
    (last ((a, t) :: l)).or prev = (last l).or (some a) := by
  cases l with
  | nil => rfl
  | cons y l =>
    rw [last_cons_ne _ _ (by simp)]
    obtain ⟨l0, w, e⟩ := exists_snoc (y :: l) (by simp)
    rw [e, last_concat]
    rfl

theorem seg_of_start_eq {m : List (Option (process_node P))} {l : List (Nat × task P)}
    {p p2 q : Option Nat} (e : p2 = p) (h : Seg m p l q) : Seg m p2 l q := by
  subst e
  exact h

/-- Giving the last cell of a list another task. -/
theorem seg_retask_last {m : List (Option (process_node P))} {l : List (Nat × task P)}
    {x : Nat} {tx : task P} {p : Option Nat} (h : Seg m p (l ++ [(x, tx)]) none)
    (t2 : task P) : Seg (m.set x (some (t2.node none))) p (l ++ [(x, t2)]) none := by
  have hnd := seg_nodup _ _ h
  obtain ⟨hcx, h0⟩ := seg_last_cell h
  simp only [List.map_append, List.map_cons, List.map_nil] at hnd
  have hx0 : x ∉ l.map Prod.fst := by
    have := (List.nodup_cons.1 (List.nodup_middle.1 hnd)).1
    simpa using this
  apply seg_snoc (seg_set _ hx0 h0)
  rw [cell_set _ _ _ _ (cell_lt hcx)]
  simp

/-- The pieces of a list in which the cell `x` comes somewhere behind the cell
`z`, with the cell `b` right before it. -/
theorem seg_split_far {m : List (Option (process_node P))} {A l1 l2 : List (Nat × task P)}
    {z b x : Nat} {tz tb tx : task P} {p : Option Nat}
    (h : Seg m p (A ++ [(z, tz)] ++ (l1 ++ [(b, tb)]) ++ (x, tx) :: l2) none) :
    Seg m p A (some z) ∧ cell m (some z) = some (tz.node (first (l1 ++ [(b, tb)]))) ∧
    Seg m (first (l1 ++ [(b, tb)])) l1 (some b) ∧ cell m (some b) = some (tb.node (some x)) ∧
    cell m (some x) = some (tx.node (first l2)) ∧ Seg m (first l2) l2 none := by
  obtain ⟨r2, h12, h3⟩ := (seg_append _ _ _ _).1 h
  obtain ⟨hr2, nx, hcx, h4⟩ := h3
  rw [seg_start h4] at hcx h4
  subst hr2
  obtain ⟨r1, h1, h2⟩ := (seg_append _ _ _ _).1 h12
  obtain ⟨hcz, hA⟩ := seg_last_cell h1
  obtain ⟨hcb, hl1⟩ := seg_last_cell h2
  have hr1 : r1 = first (l1 ++ [(b, tb)]) := by
    cases l1 with
    | nil => exact hl1
    | cons y l1 => exact hl1.1
  subst hr1
  exact ⟨hA, hcz, hl1, hcb, hcx, h4⟩

/-- Moving the cell `x` from behind the cell `b` to right behind the cell `z`,
with a new task in it. -/
theorem seg_move_far {m : List (Option (process_node P))} {A l1 l2 : List (Nat × task P)}
    {z b x : Nat} {tz tb tx : task P} {p : Option Nat} (t2 : task P)
    (h : Seg m p (A ++ [(z, tz)] ++ (l1 ++ [(b, tb)]) ++ (x, tx) :: l2) none) :
    Seg ((((m.set x (some (t2.node (first l2)))).set b (some (tb.node (first l2)))).set x
        (some (t2.node (first (l1 ++ [(b, tb)]))))).set z (some (tz.node (some x)))) p
      (A ++ [(z, tz)] ++ [(x, t2)] ++ (l1 ++ [(b, tb)]) ++ l2) none := by
  have hnd := seg_nodup _ _ h
  have hlt := seg_cell_lt _ _ _ h
  obtain ⟨hA, hcz, hl1, hcb, hcx, hl2⟩ := seg_split_far h
  simp only [List.map_append, List.map_cons, List.map_nil, List.nodup_append, List.nodup_cons,
    List.mem_append, List.mem_cons, List.mem_singleton, List.not_mem_nil, or_false, not_or,
    List.nodup_nil, and_true, true_and, List.disjoint_append_left, List.disjoint_append_right,
    List.disjoint_cons_right, List.disjoint_cons_left, List.singleton_disjoint,
    List.disjoint_singleton, not_false_eq_true, List.disjoint_nil_left,
    List.disjoint_nil_right] at hnd
  obtain ⟨⟨⟨_, hzA⟩, ⟨_, hbl1⟩, ⟨_, hzl1⟩, hbA, hbz⟩, ⟨hxl2, _⟩, ⟨⟨hxA, hxz⟩, hxl1, hxb⟩,
    ⟨_, hzl2⟩, _, hbl2⟩ := hnd
  have hzl : z < m.length := cell_lt hcz
  have hbl : b < m.length := cell_lt hcb
  have hxl : x < m.length := cell_lt hcx
  have hzx : ¬ z = x := fun e => hxz e.symm
  have hbx : ¬ b = x := fun e => hxb e.symm
  have hzb : ¬ z = b := fun e => hbz e.symm
  -- the cells of the new list
  have c1 : cell ((((m.set x (some (t2.node (first l2)))).set b (some (tb.node (first l2)))).set x
      (some (t2.node (first (l1 ++ [(b, tb)]))))).set z (some (tz.node (some x)))) (some z) =
      some (tz.node (some x)) := by
    rw [cell_set _ _ _ _ (by simpa using hzl)]
    simp
  have c2 : cell ((((m.set x (some (t2.node (first l2)))).set b (some (tb.node (first l2)))).set x
      (some (t2.node (first (l1 ++ [(b, tb)]))))).set z (some (tz.node (some x)))) (some x) =
      some (t2.node (first (l1 ++ [(b, tb)]))) := by
    rw [cell_set_ne _ _ _ _ hxz, cell_set _ _ _ _ (by simpa using hxl)]
    simp
  have c3 : cell ((((m.set x (some (t2.node (first l2)))).set b (some (tb.node (first l2)))).set x
      (some (t2.node (first (l1 ++ [(b, tb)]))))).set z (some (tz.node (some x)))) (some b) =
      some (tb.node (first l2)) := by
    rw [cell_set_ne _ _ _ _ hbz, cell_set_ne _ _ _ _ hbx, cell_set _ _ _ _ (by simpa using hbl)]
    simp
  have f : ∀ (l : List (Nat × task P)) (q r : Option Nat), x ∉ l.map Prod.fst →
      b ∉ l.map Prod.fst → z ∉ l.map Prod.fst → Seg m q l r →
      Seg ((((m.set x (some (t2.node (first l2)))).set b (some (tb.node (first l2)))).set x
        (some (t2.node (first (l1 ++ [(b, tb)]))))).set z (some (tz.node (some x)))) q l r :=
    fun l q r h1 h2 h3 h => seg_set _ h3 (seg_set _ h1 (seg_set _ h2 (seg_set _ h1 h)))
  refine (seg_append _ _ _ _).2 ⟨first l2, ?_, f _ _ _ hxl2 hbl2 hzl2 hl2⟩
  refine (seg_append _ _ _ _).2 ⟨first (l1 ++ [(b, tb)]), ?_,
    seg_snoc (f _ _ _ hxl1 hbl1 hzl1 hl1) c3⟩
  exact seg_snoc (seg_snoc (f _ _ _ hxA hbA hzA hA) c1) c2

/-- The pieces of a list in which the cell `x` comes right behind the cell `z`. -/
theorem seg_split_near {m : List (Option (process_node P))} {A l2 : List (Nat × task P)}
    {z x : Nat} {tz tx : task P} {p : Option Nat}
    (h : Seg m p (A ++ [(z, tz)] ++ (x, tx) :: l2) none) :
    Seg m p A (some z) ∧ cell m (some z) = some (tz.node (some x)) ∧
    cell m (some x) = some (tx.node (first l2)) ∧ Seg m (first l2) l2 none := by
  obtain ⟨r2, h12, h3⟩ := (seg_append _ _ _ _).1 h
  obtain ⟨hr2, nx, hcx, h4⟩ := h3
  rw [seg_start h4] at hcx h4
  subst hr2
  obtain ⟨hcz, hA⟩ := seg_last_cell h12
  exact ⟨hA, hcz, hcx, h4⟩

/-- Unlinking the cell `x` right behind the cell `z` and linking it there
again, with a new task in it. -/
theorem seg_move_near {m : List (Option (process_node P))} {A l2 : List (Nat × task P)}
    {z x : Nat} {tz tx : task P} {p : Option Nat} (t2 : task P)
    (h : Seg m p (A ++ [(z, tz)] ++ (x, tx) :: l2) none) :
    Seg ((((m.set x (some (t2.node (first l2)))).set z (some (tz.node (first l2)))).set x
        (some (t2.node (first l2)))).set z (some (tz.node (some x)))) p
      (A ++ [(z, tz)] ++ (x, t2) :: l2) none := by
  have hnd := seg_nodup _ _ h
  obtain ⟨hA, hcz, hcx, hl2⟩ := seg_split_near h
  simp only [List.map_append, List.map_cons, List.map_nil, List.nodup_append, List.nodup_cons,
    List.mem_append, List.mem_cons, List.mem_singleton, List.not_mem_nil, or_false, not_or,
    List.nodup_nil, and_true, true_and, List.disjoint_append_left, List.disjoint_append_right,
    List.disjoint_cons_right, List.disjoint_cons_left, List.singleton_disjoint,
    List.disjoint_singleton, not_false_eq_true, List.disjoint_nil_left,
    List.disjoint_nil_right] at hnd
  obtain ⟨⟨_, hzA⟩, ⟨hxl2, _⟩, ⟨hxA, hxz⟩, _, hzl2⟩ := hnd
  have hzl : z < m.length := cell_lt hcz
  have hxl : x < m.length := cell_lt hcx
  have hzx : ¬ z = x := fun e => hxz e.symm
  have c1 : cell ((((m.set x (some (t2.node (first l2)))).set z (some (tz.node (first l2)))).set x
      (some (t2.node (first l2)))).set z (some (tz.node (some x)))) (some z) =
      some (tz.node (some x)) := by
    rw [cell_set _ _ _ _ (by simpa using hzl)]
    simp
  have c2 : cell ((((m.set x (some (t2.node (first l2)))).set z (some (tz.node (first l2)))).set x
      (some (t2.node (first l2)))).set z (some (tz.node (some x)))) (some x) =
      some (t2.node (first l2)) := by
    rw [cell_set_ne _ _ _ _ hxz, cell_set _ _ _ _ (by simpa using hxl)]
    simp
  have f : ∀ (l : List (Nat × task P)) (q r : Option Nat), x ∉ l.map Prod.fst →
      z ∉ l.map Prod.fst → Seg m q l r →
      Seg ((((m.set x (some (t2.node (first l2)))).set z (some (tz.node (first l2)))).set x
        (some (t2.node (first l2)))).set z (some (tz.node (some x)))) q l r :=
    fun l q r h1 h3 h => seg_set _ h3 (seg_set _ h1 (seg_set _ h3 (seg_set _ h1 h)))
  refine (seg_append _ _ _ _).2 ⟨some x, seg_snoc (f _ _ _ hxA hzA hA) c1, ?_⟩
  exact ⟨rfl, _, c2, f _ _ _ hxl2 hzl2 hl2⟩

end MoveSegments

end Sched

namespace Sched

namespace SchedulerPrioLab

/-- The search of `sched_high_task` behind `hiend` walks past the tasks with
another id, up to the first task with the id. -/
theorem raise_loop_walk (s : State) (id : Int) (x : Nat) (tx : task Char)
    (l2 : List (Nat × task Char)) :
    ∀ (l1 : List (Nat × task Char)) (prev cur : Option Nat) (f : Nat) (pn : process_node Char),
    Seg s.mem cur (l1 ++ (x, tx) :: l2) none → id ∉ ids l1 → l1.length < f →
    cell s.mem prev = some pn → pn.next = cur →
    raise_loop s id f prev cur = raise_loop s id (f - l1.length) ((last l1).or prev) (some x)
  | [], prev, cur, f, pn, h, _, _, _, _ => by
    have hp : cur = some x := h.1
    subst hp
    rfl
  | (a, t) :: l1, prev, cur, f, pn, h, hid, hf, hpn, hnx => by
    obtain ⟨hp, nx, hc, hrest⟩ := h
    subst hp
    obtain ⟨f, rfl⟩ : ∃ k, f = k + 1 := ⟨f - 1, by omega⟩
    simp only [List.length_cons, Nat.add_lt_add_iff_right] at hf
    simp only [ids, List.map_cons, List.mem_cons, not_or] at hid
    have hne : ¬ t.id = id := fun e => hid.1 e.symm
    rw [last_or_cons]
    have e : f + 1 - ((a, t) :: l1).length = f - l1.length := by
      simp only [List.length_cons]
      omega
    rw [e, ← raise_loop_walk s id x tx l2 l1 (some a) nx f (t.node nx) hrest hid.2 hf hc rfl]
    simp only [raise_loop, Machine.load, hc, hpn, Run.ok_bind, task.node_id, hne, if_false,
      task.node_next, hnx]

/-- What the loop of `sched_high_task` does at the task with the id, when the
cell before it is not `hiend`. -/
theorem raise_loop_found_far (s : State) (id : Int) (k x b z : Nat)
    (nx nb nz : process_node Char) (hhe : s.g.hiend = some z)
    (hcx : cell s.mem (some x) = some nx) (hcb : cell s.mem (some b) = some nb)
    (hcz : cell s.mem (some z) = some nz) (hid : nx.id = id) (hxb : x ≠ b) (hxz : x ≠ z)
    (hbz : b ≠ z) :
    raise_loop s id (k + 1) (some b) (some x) = .ok
      ({ mem := (((s.mem.set x (some { nx with prio := 'h' })).set b
            (some { nb with next := nx.next })).set x
            (some { nx with prio := 'h', next := nz.next })).set z
            (some { nz with next := some x }),
         g := { s.g with tail := if some x = s.g.tail then some b else s.g.tail,
                         hiend := some x },
         out := s.out }, some x, true) := by
  have hxl : x < s.mem.length := cell_lt hcx
  have hbl : b < s.mem.length := cell_lt hcb
  have hzl : z < s.mem.length := cell_lt hcz
  have hbx : b ≠ x := Ne.symm hxb
  have hzx : z ≠ x := Ne.symm hxz
  have hzb : z ≠ b := Ne.symm hbz
  by_cases ht : some x = s.g.tail
  · simp [raise_loop, Machine.load, Machine.set_next, Machine.set_prio, Machine.store,
      Machine.setg, hhe, hcx, hcb, hcz, hid, cell_set, hxl, hbl, hzl, hxb, hxz, hbz, hbx, hzx,
      hzb, ← ht]
  · simp [raise_loop, Machine.load, Machine.set_next, Machine.set_prio, Machine.store,
      Machine.setg, hhe, hcx, hcb, hcz, hid, cell_set, hxl, hbl, hzl, hxb, hxz, hbz, hbx, hzx,
      hzb, ht]

/-- What the loop of `sched_high_task` does at the task with the id, when the
cell before it is `hiend`. -/
theorem raise_loop_found_near (s : State) (id : Int) (k x z : Nat)
    (nx nz : process_node Char) (hhe : s.g.hiend = some z)
    (hcx : cell s.mem (some x) = some nx) (hcz : cell s.mem (some z) = some nz)
    (hid : nx.id = id) (hxz : x ≠ z) :
    raise_loop s id (k + 1) (some z) (some x) = .ok
      ({ mem := (((s.mem.set x (some { nx with prio := 'h' })).set z
            (some { nz with next := nx.next })).set x
            (some { nx with prio := 'h', next := nx.next })).set z
            (some { nz with next := some x }),
         g := { s.g with tail := if some x = s.g.tail then some z else s.g.tail,
                         hiend := some x },
         out := s.out }, some x, true) := by
  have hxl : x < s.mem.length := cell_lt hcx
  have hzl : z < s.mem.length := cell_lt hcz
  have hzx : z ≠ x := Ne.symm hxz
  by_cases ht : some x = s.g.tail
  · simp [raise_loop, Machine.load, Machine.set_next, Machine.set_prio, Machine.store,
      Machine.setg, hhe, hcx, hcz, hid, cell_set, hxl, hzl, hxz, hzx, ← ht]
  · simp [raise_loop, Machine.load, Machine.set_next, Machine.set_prio, Machine.store,
      Machine.setg, hhe, hcx, hcz, hid, cell_set, hxl, hzl, hxz, hzx, ht]

end SchedulerPrioLab

end Sched

namespace Sched

namespace SchedulerPrioLab

/-- The function `sched_high_task` when `hiend` is not `NULL`, the cell after
`hiend` is not the tail and the loop finds the task. -/
theorem sched_high_task_of_loop (s S : State) (id : Int) (z x : Nat)
    (nz nS : process_node Char) (hhe : s.g.hiend = some z)
    (hcz : cell s.mem (some z) = some nz) (hft : ¬ nz.next = s.g.tail)
    (hloop : raise_loop s id s.fuel (some z) nz.next = .ok (S, some x, true))
    (hcur : cell S.mem (some x) = some nS) : sched_high_task s id = .ok (S, 0) := by
  simp [sched_high_task, high_move, hhe, Machine.load, hcz, hft, hloop, hcur]

/-- The function `sched_high_task` when the only LOW task is the tail and has
the id: it becomes the last HIGH task. -/
theorem sched_high_task_last (s : State) (z x : Nat) (nz nx : process_node Char)
    (hhe : s.g.hiend = some z) (hcz : cell s.mem (some z) = some nz)
    (hnz : nz.next = some x) (htail : s.g.tail = some x)
    (hcx : cell s.mem (some x) = some nx) :
    sched_high_task s nx.id = .ok
      ({ mem := s.mem.set x (some { nx with prio := 'h' }),
         g := { s.g with hiend := some x }, out := s.out }, 0) := by
  have hxl : x < s.mem.length := cell_lt hcx
  simp [sched_high_task, high_move, hhe, Machine.load, hcz, hnz, htail, hcx, Machine.set_prio,
    Machine.store, Machine.setg, cell_set, hxl]

end SchedulerPrioLab

end Sched

namespace Sched

namespace SchedulerPrioLab

/-- C15: in `scheduler-prio-lab.c`, for a well-formed registry with a HIGH tier
that is not empty and a LOW task `x` (the first LOW task with its id, as it is
when ids are distinct), `sched_high_task(x.id)` returns 0; afterwards the HIGH
tier is the old HIGH tier followed by `x`, the LOW tier is the old LOW tier
without `x` in the same order, `head` is unchanged, `tail` is the last node
and nothing is sent. -/
theorem C15_raise_joins_high (s : State) (hi l1 l2 : List (Nat × task Char)) (x : Nat)
    (tx : task Char) (hw : Holds s hi (l1 ++ (x, tx) :: l2)) (hne : hi ≠ [])
    (hid : tx.id ∉ ids l1) :
    ∃ s2, sched_high_task s tx.id = .ok (s2, 0) ∧
      Holds s2 (hi ++ [(x, { tx with prio := 'h' })]) (l1 ++ l2) ∧ s2.out = s.out ∧
      s2.g.head = s.g.head ∧ s2.g.fixproblem = s.g.fixproblem := by
  obtain ⟨hi0, ⟨z, tz⟩, rfl⟩ := exists_snoc hi hne
  obtain ⟨hseg, htail, hhe, hhi, hlo⟩ := hw
  rw [last_concat] at hhe
  have hhe : s.g.hiend = some z := hhe
  have hnd := seg_nodup _ _ hseg
  have hfuel := seg_fuel hseg
  have hhi2 : ∀ y ∈ hi0 ++ [(z, tz)] ++ [(x, ({ tx with prio := 'h' } : task Char))],
      y.2.prio = 'h' := by
    intro y hy
    rcases List.mem_append.1 hy with h | h
    · exact hhi y h
    · simp only [List.mem_singleton] at h
      subst h
      rfl
  have hlo2 : ∀ y ∈ l1 ++ l2, y.2.prio = 'l' := by
    intro y hy
    apply hlo y
    simp only [List.mem_append, List.mem_cons] at hy ⊢
    tauto
  by_cases hl1 : l1 = []
  · -- `x` is right behind `hiend`
    subst hl1
    have hseg : Seg s.mem s.g.head (hi0 ++ [(z, tz)] ++ (x, tx) :: l2) none := hseg
    have htail : s.g.tail = last (hi0 ++ [(z, tz)] ++ (x, tx) :: l2) := htail
    obtain ⟨hA, hcz, hcx, hl2⟩ := seg_split_near hseg
    simp only [List.map_append, List.map_cons, List.map_nil, List.nodup_append, List.nodup_cons,
      List.mem_append, List.mem_cons, List.mem_singleton, List.not_mem_nil, or_false, not_or,
      List.nodup_nil, and_true, true_and, List.disjoint_append_left, List.disjoint_append_right,
      List.disjoint_cons_right, List.disjoint_cons_left, List.singleton_disjoint,
      List.disjoint_singleton, not_false_eq_true, List.disjoint_nil_left,
      List.disjoint_nil_right, List.nil_append] at hnd
    obtain ⟨⟨_, hzA⟩, ⟨hxl2, _⟩, ⟨hxA, hxz⟩, _, hzl2⟩ := hnd
    by_cases hl2e : l2 = []
    · subst hl2e
      rw [last_concat] at htail
      have e := sched_high_task_last s z x _ _ hhe hcz rfl htail hcx
      simp only [task.node_id] at e
      rw [e]
      refine ⟨_, rfl, ⟨?_, ?_, ?_, hhi2, hlo2⟩, rfl, rfl, rfl⟩
      · have := seg_retask_last hseg ({ tx with prio := 'h' } : task Char)
        simpa using this
      · show s.g.tail = _
        rw [htail]
        simp [last]
      · show some x = _
        rw [last_concat]
    · have htl : s.g.tail = last l2 := by
        rw [htail, last_append_ne _ _ (by simp), last_cons_ne _ _ hl2e]
      have hft : ¬ (tz.node (some x)).next = s.g.tail := by
        intro e2
        have hm := last_mem l2 x (by rw [← htl, ← e2]; rfl)
        exact hxl2 hm
      have hxt : ¬ some x = s.g.tail := hft
      have hloop := raise_loop_found_near s tx.id s.mem.length x z _ _ hhe hcx hcz rfl hxz
      rw [if_neg hxt] at hloop
      have hxl : x < s.mem.length := cell_lt hcx
      have hzl : z < s.mem.length := cell_lt hcz
      have e := sched_high_task_of_loop s _ tx.id z x _
        (({ tx with prio := 'h' } : task Char).node (first l2)) hhe hcz hft hloop
        (by
          rw [cell_set_ne _ _ _ _ hxz, cell_set _ _ _ _ (by simpa using hxl)]
          simp [task.node])
      rw [e]
      refine ⟨_, rfl, ⟨?_, ?_, ?_, hhi2, hlo2⟩, rfl, rfl, rfl⟩
      · have := seg_move_near ({ tx with prio := 'h' } : task Char) hseg
        simpa [task.node] using this
      · show s.g.tail = _
        rw [htl, List.nil_append, last_append_ne _ _ hl2e]
      · show some x = _
        rw [last_concat]
  · -- `x` is further behind `hiend`, the cell `b` is before it
    obtain ⟨l1, ⟨b, tb⟩, rfl⟩ := exists_snoc l1 hl1
    have hseg2 : Seg s.mem s.g.head (hi0 ++ [(z, tz)] ++ (l1 ++ [(b, tb)]) ++ (x, tx) :: l2)
        none := by
      rw [List.append_assoc (hi0 ++ [(z, tz)])]
      exact hseg
    have htail : s.g.tail = last (hi0 ++ [(z, tz)] ++ (l1 ++ [(b, tb)]) ++ (x, tx) :: l2) := by
      rw [List.append_assoc (hi0 ++ [(z, tz)])]
      exact htail
    have hnd := seg_nodup _ _ hseg2
    obtain ⟨hA, hcz, hl1s, hcb, hcx, hl2⟩ := seg_split_far hseg2
    simp only [List.map_append, List.map_cons, List.map_nil, List.nodup_append, List.nodup_cons,
      List.mem_append, List.mem_cons, List.mem_singleton, List.not_mem_nil, or_false, not_or,
      List.nodup_nil, and_true, true_and, List.disjoint_append_left, List.disjoint_append_right,
      List.disjoint_cons_right, List.disjoint_cons_left, List.singleton_disjoint,
      List.disjoint_singleton, not_false_eq_true, List.disjoint_nil_left,
      List.disjoint_nil_right] at hnd
    obtain ⟨⟨⟨_, hzA⟩, ⟨_, hbl1⟩, ⟨_, hzl1⟩, hbA, hbz⟩, ⟨hxl2, _⟩, ⟨⟨hxA, hxz⟩, hxl1, hxb⟩,
      ⟨_, hzl2⟩, hd12, hbl2⟩ := hnd
    -- the tail is `x` or behind `x`
    have htl : s.g.tail = if l2 = [] then some x else last l2 := by
      rw [htail]
      by_cases hl2e : l2 = []
      · subst hl2e
        rw [if_pos rfl, last_append_ne _ _ (by simp)]
        rfl
      · rw [if_neg hl2e, last_append_ne _ _ (by simp), last_cons_ne _ _ hl2e]
    have hft : ¬ (tz.node (first (l1 ++ [(b, tb)]))).next = s.g.tail := by
      intro e2
      have e3 : first (l1 ++ [(b, tb)]) = s.g.tail := e2
      obtain ⟨c, hc1, hc2⟩ : ∃ c, first (l1 ++ [(b, tb)]) = some c ∧
          (c ∈ l1.map Prod.fst ∨ c = b) := by
        cases l1 with
        | nil => exact ⟨b, rfl, Or.inr rfl⟩
        | cons y l1 => exact ⟨y.1, rfl, Or.inl (by simp)⟩
      rw [hc1, htl] at e3
      by_cases hl2e : l2 = []
      · rw [if_pos hl2e] at e3
        have := Option.some.inj e3
        subst this
        rcases hc2 with h | h
        · exact hxl1 h
        · exact hxb h
      · rw [if_neg hl2e] at e3
        have hm := last_mem l2 c e3.symm
        rcases hc2 with h | h
        · exact hd12 h hm
        · subst h
          exact hbl2 hm
    have hsegLo : Seg s.mem (first (l1 ++ [(b, tb)])) (l1 ++ [(b, tb)] ++ (x, tx) :: l2) none :=
      (seg_append _ _ _ _).2 ⟨some x, seg_snoc hl1s hcb, ⟨rfl, _, hcx, hl2⟩⟩
    have hlen : (l1 ++ [(b, tb)]).length < s.fuel := by
      simp only [List.length_append, List.length_cons, List.length_nil] at hfuel ⊢
      omega
    obtain ⟨k, hk⟩ : ∃ k, s.fuel - (l1 ++ [(b, tb)]).length = k + 1 :=
      ⟨s.fuel - (l1 ++ [(b, tb)]).length - 1, by omega⟩
    have hwalk := raise_loop_walk s tx.id x tx l2 (l1 ++ [(b, tb)]) (some z)
      (first (l1 ++ [(b, tb)])) s.fuel _ hsegLo hid hlen hcz rfl
    rw [hk, last_concat] at hwalk
    have hfound := raise_loop_found_far s tx.id k x b z _ _ _ hhe hcx hcb hcz rfl hxb hxz hbz
    have hloop := hwalk.trans hfound
    have hxl : x < s.mem.length := cell_lt hcx
    have e := sched_high_task_of_loop s _ tx.id z x _
      (({ tx with prio := 'h' } : task Char).node (first (l1 ++ [(b, tb)]))) hhe hcz hft hloop
      (by
        rw [cell_set_ne _ _ _ _ hxz, cell_set _ _ _ _ (by simpa using hxl)]
        simp [task.node])
    rw [e]
    refine ⟨_, rfl, ⟨?_, ?_, ?_, hhi2, hlo2⟩, rfl, rfl, rfl⟩
    · have := seg_move_far ({ tx with prio := 'h' } : task Char) hseg2
      rw [List.append_assoc _ _ l2] at this
      exact this
    · show (if some x = s.g.tail then some b else s.g.tail) = _
      rw [htl]
      by_cases hl2e : l2 = []
      · subst hl2e
        rw [if_pos rfl, if_pos rfl, List.append_nil, ← List.append_assoc, last_concat]
      · have hx2 : ¬ some x = last l2 := fun e2 => hxl2 (last_mem l2 x e2.symm)
        rw [if_neg hl2e, if_neg hx2, ← List.append_assoc, last_append_ne _ _ hl2e]
    · show some x = _
      rw [last_concat]

end SchedulerPrioLab

end Sched

namespace Sched

namespace SchedulerPrioLab

/-- The search of `sched_high_task` behind the head walks past the tasks with
another id, up to the first task with the id. -/
theorem raise_first_loop_walk (s : State) (id : Int) (x : Nat) (tx : task Char)
    (l2 : List (Nat × task Char)) :
    ∀ (l1 : List (Nat × task Char)) (prev cur : Option Nat) (f : Nat) (pn : process_node Char),
    Seg s.mem cur (l1 ++ (x, tx) :: l2) none → id ∉ ids l1 → l1.length < f →
    cell s.mem prev = some pn → pn.next = cur →
    raise_first_loop s id f prev cur =
      raise_first_loop s id (f - l1.length) ((last l1).or prev) (some x)
  | [], prev, cur, f, pn, h, _, _, _, _ => by
    have hp : cur = some x := h.1
    subst hp
    rfl
  | (a, t) :: l1, prev, cur, f, pn, h, hid, hf, hpn, hnx => by
    obtain ⟨hp, nx, hc, hrest⟩ := h
    subst hp
    obtain ⟨f, rfl⟩ : ∃ k, f = k + 1 := ⟨f - 1, by omega⟩
    simp only [List.length_cons, Nat.add_lt_add_iff_right] at hf
    simp only [ids, List.map_cons, List.mem_cons, not_or] at hid
    have hne : ¬ t.id = id := fun e => hid.1 e.symm
    rw [last_or_cons]
    have e : f + 1 - ((a, t) :: l1).length = f - l1.length := by
      simp only [List.length_cons]
      omega
    rw [e, ← raise_first_loop_walk s id x tx l2 l1 (some a) nx f (t.node nx) hrest hid.2 hf hc
      rfl]
    simp only [raise_first_loop, Machine.load, hc, hpn, Run.ok_bind, task.node_id, hne,
      if_false, task.node_next, hnx]

/-- What the first loop of `sched_high_task` does at the task with the id,
when the cell before it is not the head and the task is not the tail. -/
theorem raise_first_found_far (s : State) (id : Int) (k x b a : Nat)
    (nx nb na : process_node Char) (hhead : s.g.head = some a)
    (hcx : cell s.mem (some x) = some nx) (hcb : cell s.mem (some b) = some nb)
    (hca : cell s.mem (some a) = some na) (hid : nx.id = id) (hxb : x ≠ b) (hxa : x ≠ a)
    (hba : b ≠ a) (ht : ¬ some x = s.g.tail) :
    raise_first_loop s id (k + 1) (some b) (some x) = .ok
      ({ mem := (((s.mem.set x (some { nx with prio := 'h' })).set b
            (some { nb with next := nx.next })).set x
            (some { nx with prio := 'h', next := na.next })).set a
            (some { na with next := some x }),
         g := { s.g with hiend := some x }, out := s.out }, some x) := by
  have hxl : x < s.mem.length := cell_lt hcx
  have hbl : b < s.mem.length := cell_lt hcb
  have hal : a < s.mem.length := cell_lt hca
  have hbx : b ≠ x := Ne.symm hxb
  have hax : a ≠ x := Ne.symm hxa
  have hab : a ≠ b := Ne.symm hba
  simp [raise_first_loop, Machine.load, Machine.set_next, Machine.set_prio, Machine.store,
    Machine.setg, hhead, hcx, hcb, hca, hid, cell_set, hxl, hbl, hal, hxb, hxa, hba, hbx, hax,
    hab, ht]

/-- What the first loop of `sched_high_task` does at the task with the id,
when the cell before it is not the head and the task is the tail. -/
theorem raise_first_found_last (s : State) (id : Int) (k x b a : Nat)
    (nx nb na : process_node Char) (hhead : s.g.head = some a)
    (hcx : cell s.mem (some x) = some nx) (hcb : cell s.mem (some b) = some nb)
    (hca : cell s.mem (some a) = some na) (hid : nx.id = id) (hxb : x ≠ b) (hxa : x ≠ a)
    (hba : b ≠ a) (ht : s.g.tail = some x) :
    raise_first_loop s id (k + 1) (some b) (some x) = .ok
      ({ mem := (((s.mem.set x (some { nx with prio := 'h' })).set b
            (some { nb with next := none })).set x
            (some { nx with prio := 'h', next := na.next })).set a
            (some { na with next := some x }),
         g := { s.g with tail := some b, hiend := some x }, out := s.out }, some x) := by
  have hxl : x < s.mem.length := cell_lt hcx
  have hbl : b < s.mem.length := cell_lt hcb
  have hal : a < s.mem.length := cell_lt hca
  have hbx : b ≠ x := Ne.symm hxb
  have hax : a ≠ x := Ne.symm hxa
  have hab : a ≠ b := Ne.symm hba
  simp [raise_first_loop, Machine.load, Machine.set_next, Machine.set_prio, Machine.store,
    Machine.setg, hhead, hcx, hcb, hca, hid, cell_set, hxl, hbl, hal, hxb, hxa, hba, hbx, hax,
    hab, ht]

/-- What the first loop of `sched_high_task` does at the task with the id,
when it is right behind the head and is not the tail. -/
theorem raise_first_found_near (s : State) (id : Int) (k x a : Nat)
    (nx na : process_node Char) (hhead : s.g.head = some a)
    (hcx : cell s.mem (some x) = some nx) (hca : cell s.mem (some a) = some na)
    (hid : nx.id = id) (hxa : x ≠ a) (ht : ¬ some x = s.g.tail) :
    raise_first_loop s id (k + 1) (some a) (some x) = .ok
      ({ mem := (((s.mem.set x (some { nx with prio := 'h' })).set a
            (some { na with next := nx.next })).set x
            (some { nx with prio := 'h', next := nx.next })).set a
            (some { na with next := some x }),
         g := { s.g with hiend := some x }, out := s.out }, some x) := by
  have hxl : x < s.mem.length := cell_lt hcx
  have hal : a < s.mem.length := cell_lt hca
  have hax : a ≠ x := Ne.symm hxa
  simp [raise_first_loop, Machine.load, Machine.set_next, Machine.set_prio, Machine.store,
    Machine.setg, hhead, hcx, hca, hid, cell_set, hxl, hal, hxa, hax, ht]

/-- The function `sched_high_task` when no task is HIGH, the head has another
id, is not the tail, and the loop finds the task. -/
theorem sched_high_task_first (s S : State) (id : Int) (a x : Nat)
    (na : process_node Char) (hhe : s.g.hiend = none) (hhead : s.g.head = some a)
    (hca : cell s.mem (some a) = some na) (hid : ¬ na.id = id) (hat : ¬ some a = s.g.tail)
    (hloop : raise_first_loop
      { mem := s.mem.set a (some { na with prio := 'h' }),
        g := { head := some a, tail := s.g.tail, hiend := some a,
               fixproblem := s.g.fixproblem },
        out := s.out } id (s.mem.length + 1) (some a) na.next =
      .ok (S, some x))
    (hcur : ∃ n, cell S.mem (some x) = some n) (hch : ∃ n, cell S.mem S.g.head = some n) :
    sched_high_task s id = .ok (S, 0) := by
  obtain ⟨nS, hcur⟩ := hcur
  obtain ⟨nH, hch⟩ := hch
  have hal : a < s.mem.length := cell_lt hca
  simp [sched_high_task, high_move, hhe, hhead, Machine.load, hca, hid, hat, Machine.set_prio,
    Machine.store, Machine.setg, cell_set, hal, Machine.fuel, hloop, hcur, hch]

end SchedulerPrioLab

end Sched

namespace Sched

namespace SchedulerPrioLab

/-- C14, amended: in `scheduler-prio-lab.c`, for a well-formed registry whose
HIGH tier is empty, whose head `r` has another id and which holds a further
task besides `r` and the LOW task `x` (the first task with its id),
`sched_high_task(x.id)` returns 0 and sends no signal: the head `r` is made
HIGH as well and stays the head, `x` is made HIGH and put right behind it, so
that the HIGH tier is `r`, `x`, and the other tasks stay LOW in their order. -/
theorem C14_raise_elevates_head (s : State) (a : Nat) (r : task Char)
    (l1 l2 : List (Nat × task Char)) (x : Nat) (tx : task Char)
    (hw : Holds s [] ((a, r) :: (l1 ++ (x, tx) :: l2))) (hr : r.id ≠ tx.id)
    (hid : tx.id ∉ ids l1) (hne : l1 ++ l2 ≠ []) :
    ∃ s2, sched_high_task s tx.id = .ok (s2, 0) ∧
      Holds s2 [(a, { r with prio := 'h' }), (x, { tx with prio := 'h' })] (l1 ++ l2) ∧
      s2.out = s.out ∧ s2.g.head = s.g.head ∧ s2.g.fixproblem = s.g.fixproblem := by
  obtain ⟨hseg, htail, hhe, _, hlo⟩ := hw
  have hseg : Seg s.mem s.g.head ((a, r) :: (l1 ++ (x, tx) :: l2)) none := hseg
  have htail : s.g.tail = last ((a, r) :: (l1 ++ (x, tx) :: l2)) := htail
  have hhe : s.g.hiend = none := hhe
  have hfuel := seg_fuel hseg
  obtain ⟨hhead, hca⟩ := seg_head_next hseg
  have hseg1 := seg_retask_head hseg ({ r with prio := 'h' } : task Char)
  rw [hhead] at hseg1
  have hal : a < s.mem.length := cell_lt hca
  have hhi2 : ∀ y ∈ [(a, ({ r with prio := 'h' } : task Char)),
      (x, ({ tx with prio := 'h' } : task Char))], y.2.prio = 'h' := by
    intro y hy
    simp only [List.mem_cons, List.mem_singleton, List.not_mem_nil, or_false] at hy
    rcases hy with h | h <;> subst h <;> rfl
  have hlo2 : ∀ y ∈ l1 ++ l2, y.2.prio = 'l' := by
    intro y hy
    apply hlo y
    simp only [List.mem_append, List.mem_cons] at hy ⊢
    tauto
  have htl : s.g.tail = if l2 = [] then some x else last l2 := by
    rw [htail, last_cons_ne _ _ (by simp)]
    by_cases hl2e : l2 = []
    · subst hl2e
      rw [if_pos rfl]
      exact last_concat _ _
    · rw [if_neg hl2e, last_append_ne _ _ (by simp), last_cons_ne _ _ hl2e]
  have hra : ¬ (r.node (first (l1 ++ (x, tx) :: l2))).id = tx.id := hr
  by_cases hl1 : l1 = []
  · -- `x` is right behind the head
    subst hl1
    have hl2e : l2 ≠ [] := by simpa using hne
    have hseg2 : Seg (s.mem.set a (some (({ r with prio := 'h' } : task Char).node
        (first ([] ++ (x, tx) :: l2))))) (some a)
        ([] ++ [(a, ({ r with prio := 'h' } : task Char))] ++ (x, tx) :: l2) none := hseg1
    have hnd := seg_nodup _ _ hseg2
    obtain ⟨_, hca1, hcx, hl2s⟩ := seg_split_near hseg2
    simp only [List.map_append, List.map_cons, List.map_nil, List.nodup_append, List.nodup_cons,
      List.mem_append, List.mem_cons, List.mem_singleton, List.not_mem_nil, or_false, not_or,
      List.nodup_nil, and_true, true_and, List.disjoint_append_left, List.disjoint_append_right,
      List.disjoint_cons_right, List.disjoint_cons_left, List.singleton_disjoint,
      List.disjoint_singleton, not_false_eq_true, List.disjoint_nil_left,
      List.disjoint_nil_right, List.nil_append, or_self, false_or, not_false_iff] at hnd
    obtain ⟨⟨hxl2, _⟩, hxa, hal2⟩ := hnd
    have hat : ¬ some a = s.g.tail := by
      rw [htl, if_neg hl2e]
      exact fun e => hal2 (last_mem l2 a e.symm)
    have hxt : ¬ some x = s.g.tail := by
      rw [htl, if_neg hl2e]
      exact fun e => hxl2 (last_mem l2 x e.symm)
    have hxl : x < s.mem.length := by simpa using cell_lt hcx
    have hfound := raise_first_found_near
      ⟨s.mem.set a (some (({ r with prio := 'h' } : task Char).node
        (first ([] ++ (x, tx) :: l2)))), ⟨some a, s.g.tail, some a, s.g.fixproblem⟩, s.out⟩
      tx.id s.mem.length x a _ _ rfl hcx hca1 rfl hxa hxt
    have e := sched_high_task_first s _ tx.id a x _ hhe hhead hca hra hat hfound
      ⟨_, by rw [cell_set_ne _ _ _ _ hxa, cell_set _ _ _ _ (by simpa using hxl), if_pos rfl]⟩
      ⟨_, by
        show cell _ (some a) = _
        rw [cell_set _ _ _ _ (by simpa using hal), if_pos rfl]⟩
    rw [e]
    refine ⟨_, rfl, ⟨?_, ?_, ?_, hhi2, hlo2⟩, rfl, hhead.symm, rfl⟩
    · exact seg_move_near ({ tx with prio := 'h' } : task Char) hseg2
    · show s.g.tail = _
      rw [htl, if_neg hl2e]
      exact (last_append_ne [(a, _), (x, _)] l2 hl2e).symm
    · rfl
  · -- `x` is further behind the head, the cell `b` is before it
    obtain ⟨l1, ⟨b, tb⟩, rfl⟩ := exists_snoc l1 hl1
    have hseg2 : Seg (s.mem.set a (some (({ r with prio := 'h' } : task Char).node
        (first (l1 ++ [(b, tb)] ++ (x, tx) :: l2))))) (some a)
        ([] ++ [(a, ({ r with prio := 'h' } : task Char))] ++ (l1 ++ [(b, tb)]) ++ (x, tx) :: l2)
        none := hseg1
    have hnd := seg_nodup _ _ hseg2
    obtain ⟨_, hca1, hl1s, hcb, hcx, hl2s⟩ := seg_split_far hseg2
    simp only [List.map_append, List.map_cons, List.map_nil, List.nodup_append, List.nodup_cons,
      List.mem_append, List.mem_cons, List.mem_singleton, List.not_mem_nil, or_false, not_or,
      List.nodup_nil, and_true, true_and, List.disjoint_append_left, List.disjoint_append_right,
      List.disjoint_cons_right, List.disjoint_cons_left, List.singleton_disjoint,
      List.disjoint_singleton, not_false_eq_true, List.disjoint_nil_left,
      List.disjoint_nil_right, List.nil_append, or_self, false_or, not_false_iff] at hnd
    obtain ⟨⟨⟨_, hbl1⟩, hal1, hba⟩, ⟨hxl2, _⟩, ⟨hxa, hxl1, hxb⟩, hal2, hd12, hbl2⟩ := hnd
    have hat : ¬ some a = s.g.tail := by
      rw [htl]
      by_cases hl2e : l2 = []
      · rw [if_pos hl2e]
        exact fun e => hxa (Option.some.inj e).symm
      · rw [if_neg hl2e]
        exact fun e => hal2 (last_mem l2 a e.symm)
    have hxl : x < s.mem.length := by simpa using cell_lt hcx
    have hsegLo : Seg (s.mem.set a (some (({ r with prio := 'h' } : task Char).node
        (first (l1 ++ [(b, tb)] ++ (x, tx) :: l2))))) (first (l1 ++ [(b, tb)] ++ (x, tx) :: l2))
        (l1 ++ [(b, tb)] ++ (x, tx) :: l2) none :=
      seg_of_start_eq (first_append_ne _ _ (by simp))
        ((seg_append _ _ _ _).2 ⟨some x, seg_snoc hl1s hcb, ⟨rfl, _, hcx, hl2s⟩⟩)
    have hlen : (l1 ++ [(b, tb)]).length < s.mem.length + 1 := by
      have : ((a, r) :: (l1 ++ [(b, tb)] ++ (x, tx) :: l2)).length < s.mem.length + 1 := hfuel
      simp only [List.length_append, List.length_cons, List.length_nil] at this ⊢
      omega
    obtain ⟨k, hk⟩ : ∃ k, s.mem.length + 1 - (l1 ++ [(b, tb)]).length = k + 1 :=
      ⟨s.mem.length + 1 - (l1 ++ [(b, tb)]).length - 1, by omega⟩
    have hwalk := raise_first_loop_walk
      ⟨s.mem.set a (some (({ r with prio := 'h' } : task Char).node
        (first (l1 ++ [(b, tb)] ++ (x, tx) :: l2)))), ⟨some a, s.g.tail, some a, s.g.fixproblem⟩,
        s.out⟩
      tx.id x tx l2 (l1 ++ [(b, tb)]) (some a) (first (l1 ++ [(b, tb)] ++ (x, tx) :: l2))
      (s.mem.length + 1) _ hsegLo hid hlen hca1 (first_append_ne _ _ (by simp)).symm
    rw [hk, last_concat] at hwalk
    by_cases hl2e : l2 = []
    · -- `x` is the tail
      subst hl2e
      have hxt : s.g.tail = some x := by rw [htl, if_pos rfl]
      have hfound := raise_first_found_last
        ⟨s.mem.set a (some (({ r with prio := 'h' } : task Char).node
          (first (l1 ++ [(b, tb)] ++ [(x, tx)])))), ⟨some a, s.g.tail, some a, s.g.fixproblem⟩,
          s.out⟩
        tx.id k x b a _ _ _ rfl hcx hcb hca1 rfl hxb hxa hba hxt
      have hloop := hwalk.trans hfound
      have e := sched_high_task_first s _ tx.id a x _ hhe hhead hca hra hat hloop
        ⟨_, by rw [cell_set_ne _ _ _ _ hxa, cell_set _ _ _ _ (by simpa using hxl), if_pos rfl]⟩
        ⟨_, by
          show cell _ (some a) = _
          rw [cell_set _ _ _ _ (by simpa using hal), if_pos rfl]⟩
      rw [e]
      refine ⟨_, rfl, ⟨?_, ?_, ?_, hhi2, hlo2⟩, rfl, hhead.symm, rfl⟩
      · have := seg_move_far ({ tx with prio := 'h' } : task Char) hseg2
        rw [List.append_assoc _ _ []] at this
        exact this
      · show some b = _
        rw [List.append_nil, ← List.append_assoc, last_concat]
      · rfl
    · have hxt : ¬ some x = s.g.tail := by
        rw [htl, if_neg hl2e]
        exact fun e => hxl2 (last_mem l2 x e.symm)
      have hfound := raise_first_found_far
        ⟨s.mem.set a (some (({ r with prio := 'h' } : task Char).node
          (first (l1 ++ [(b, tb)] ++ (x, tx) :: l2)))),
          ⟨some a, s.g.tail, some a, s.g.fixproblem⟩, s.out⟩
        tx.id k x b a _ _ _ rfl hcx hcb hca1 rfl hxb hxa hba hxt
      have hloop := hwalk.trans hfound
      have e := sched_high_task_first s _ tx.id a x _ hhe hhead hca hra hat hloop
        ⟨_, by rw [cell_set_ne _ _ _ _ hxa, cell_set _ _ _ _ (by simpa using hxl), if_pos rfl]⟩
        ⟨_, by
          show cell _ (some a) = _
          rw [cell_set _ _ _ _ (by simpa using hal), if_pos rfl]⟩
      rw [e]
      refine ⟨_, rfl, ⟨?_, ?_, ?_, hhi2, hlo2⟩, rfl, hhead.symm, rfl⟩
      · have := seg_move_far ({ tx with prio := 'h' } : task Char) hseg2
        rw [List.append_assoc _ _ l2] at this
        exact this
      · show s.g.tail = _
        rw [htl, if_neg hl2e, ← List.append_assoc, last_append_ne _ _ hl2e]
      · rfl

end SchedulerPrioLab

end Sched

namespace Sched

namespace SchedulerPrioLab

/-- C11 at an input: a child with pid 103 spawned in `lab_start` becomes task 3,
LOW, behind task 2. -/
theorem C11_witness :
    Holds lab_start [] [(0, ⟨100, 'l', 0⟩), (1, ⟨101, 'l', 1⟩), (2, ⟨102, 'l', 2⟩)] ∧
    ∃ s2, sched_create_task lab_start 103 junk0 = .ok s2 ∧
      Holds s2 [] ([(0, ⟨100, 'l', 0⟩), (1, ⟨101, 'l', 1⟩), (2, ⟨102, 'l', 2⟩)] ++
        [(3, ⟨103, 'l', 3⟩)]) ∧
      s2.out = lab_start.out ∧ s2.g.head = lab_start.g.head ∧
      s2.g.hiend = lab_start.g.hiend ∧ s2.g.fixproblem = lab_start.g.fixproblem :=
  have hw : Holds lab_start [] [(0, ⟨100, 'l', 0⟩), (1, ⟨101, 'l', 1⟩), (2, ⟨102, 'l', 2⟩)] :=
    ⟨⟨rfl, _, rfl, rfl, _, rfl, rfl, _, rfl, rfl⟩, rfl, rfl, by decide, by decide⟩
  ⟨hw, C11_create_appends_low lab_start [] _ hw (by simp) 103 (by decide) junk0⟩

/-- C13 at an input: raising the shell, the head of `lab_start`, makes it the
only HIGH task. -/
theorem C13_witness :
    Holds lab_start [] [(0, ⟨100, 'l', 0⟩), (1, ⟨101, 'l', 1⟩), (2, ⟨102, 'l', 2⟩)] ∧
    ∃ s2, sched_high_task lab_start 0 = .ok (s2, 0) ∧
      Holds s2 [(0, ⟨100, 'h', 0⟩)] [(1, ⟨101, 'l', 1⟩), (2, ⟨102, 'l', 2⟩)] ∧
      s2.out = lab_start.out ∧ s2.g.head = lab_start.g.head ∧
      s2.g.fixproblem = lab_start.g.fixproblem :=
  have hw : Holds lab_start [] [(0, ⟨100, 'l', 0⟩), (1, ⟨101, 'l', 1⟩), (2, ⟨102, 'l', 2⟩)] :=
    ⟨⟨rfl, _, rfl, rfl, _, rfl, rfl, _, rfl, rfl⟩, rfl, rfl, by decide, by decide⟩
  ⟨hw, C13_raise_running_head lab_start 0 ⟨100, 'l', 0⟩ _ hw⟩

/-- C16: in `scheduler-prio-lab.c`, for a well-formed registry with pairwise
distinct ids and the id of a task of the HIGH tier, `sched_high_task(id)`
returns 0 and leaves the state as it is: the list, the tiers, `hiend` and
`tail` are unchanged and nothing is sent. -/
theorem C16_raise_high_is_noop (s : State) (hi lo : List (Nat × task Char))
    (hw : Holds s hi lo) (hnd : (ids (hi ++ lo)).Nodup) (id : Int) (hid : id ∈ ids hi) :
    sched_high_task s id = .ok (s, 0) := by
  have hne : hi ≠ [] := by
    intro e
    rw [e] at hid
    simp [ids] at hid
  have hlo : id ∉ ids lo := by
    intro h
    simp only [ids, List.map_append] at hnd
    exact (List.nodup_append.1 hnd).2.2 hid h
  exact sched_high_task_skip s hi lo hw hne id hlo

/-- C16 at an input: raising task 1, which is HIGH in `c2_before`, changes
nothing. -/
theorem C16_witness :
    Holds c2_before [(1, ⟨101, 'h', 1⟩), (2, ⟨102, 'h', 2⟩)] [(0, ⟨100, 'l', 0⟩)] ∧
    sched_high_task c2_before 1 = .ok (c2_before, 0) :=
  have hw : Holds c2_before [(1, ⟨101, 'h', 1⟩), (2, ⟨102, 'h', 2⟩)] [(0, ⟨100, 'l', 0⟩)] :=
    ⟨⟨rfl, _, rfl, rfl, _, rfl, rfl, _, rfl, rfl⟩, rfl, rfl, by decide, by decide⟩
  ⟨hw, C16_raise_high_is_noop c2_before _ _ hw (by decide) 1 (by decide)⟩

/-- C17, what the code does at the failing input: in `lab_start`, where no
task is HIGH and no task has id 42, `sched_high_task(42)` makes the head HIGH,
sets `hiend` to it and then faults reading `current`, which is `NULL`. -/
theorem C17_raise_absent_faults :
    main (100, junk0) [(101, junk0), (102, junk0)] = .ok lab_start ∧
    Holds lab_start [] [(0, ⟨100, 'l', 0⟩), (1, ⟨101, 'l', 1⟩), (2, ⟨102, 'l', 2⟩)] ∧
    (42 : Int) ∉ ids [(0, (⟨100, 'l', 0⟩ : task Char)), (1, ⟨101, 'l', 1⟩), (2, ⟨102, 'l', 2⟩)] ∧
    sched_high_task lab_start 42 = .fault c17_state :=
  ⟨rfl, ⟨⟨rfl, _, rfl, rfl, _, rfl, rfl, _, rfl, rfl⟩, rfl, rfl, by decide, by decide⟩,
    by decide, rfl⟩

/-- C18, amended: in `scheduler-prio-lab.c`, for a well-formed registry with
pairwise distinct ids, `process_request` returns 0, not a negative value, and
leaves the state as it is, for a RAISE of an id that is already HIGH, for a
RAISE of an absent id when the HIGH tier is not empty or the list has one
task, and for a LOWER of an id that is absent or already LOW. -/
theorem C18_raise_lower_return_zero (s : State) (hi lo : List (Nat × task Char))
    (hw : Holds s hi lo) (hnd : (ids (hi ++ lo)).Nodup) (id p : Int)
    (junk : process_node Char) :
    (id ∈ ids hi → process_request s (rq .REQ_HIGH_TASK id) p junk = .ok (s, 0)) ∧
    (hi ≠ [] → id ∉ ids (hi ++ lo) →
      process_request s (rq .REQ_HIGH_TASK id) p junk = .ok (s, 0)) ∧
    (hi = [] → lo.length = 1 → id ∉ ids lo →
      process_request s (rq .REQ_HIGH_TASK id) p junk = .ok (s, 0)) ∧
    (id ∉ ids hi → process_request s (rq .REQ_LOW_TASK id) p junk = .ok (s, 0)) := by
  refine ⟨?_, ?_, ?_, ?_⟩
  · intro hid
    have hne : hi ≠ [] := by
      intro e
      rw [e] at hid
      simp [ids] at hid
    have hlo : id ∉ ids lo := by
      intro h
      simp only [ids, List.map_append] at hnd
      exact (List.nodup_append.1 hnd).2.2 hid h
    simp [process_request, rq, sched_high_task_skip s hi lo hw hne id hlo]
  · intro hne hid
    have hlo : id ∉ ids lo := by
      intro h
      apply hid
      simp only [ids, List.map_append, List.mem_append] at h ⊢
      exact Or.inr h
    simp [process_request, rq, sched_high_task_skip s hi lo hw hne id hlo]
  · intro e hlen hid
    subst e
    obtain ⟨⟨a, t⟩, rfl⟩ : ∃ y, lo = [y] := List.length_eq_one.1 hlen
    obtain ⟨hseg, htail, hhe, _, _⟩ := hw
    have hseg : Seg s.mem s.g.head [(a, t)] none := hseg
    obtain ⟨hhead, hca⟩ := seg_head_next hseg
    have hhe : s.g.hiend = none := hhe
    have htail : s.g.tail = some a := htail
    simp only [ids, List.map_cons, List.map_nil, List.mem_singleton] at hid
    have hne : ¬ t.id = id := fun e => hid e.symm
    simp [process_request, rq, sched_high_task, high_move, hhe, hhead, htail, Machine.load, hca,
      hne]
  · intro hid
    simp [process_request, rq, sched_low_task_skip s hi lo hw id hid]

/-- C18 at an input: in `c2_before`, RAISE of task 1, which is HIGH, RAISE of
the absent id 42, and LOWER of the shell, which is LOW, all return 0. -/
theorem C18_witness :
    Holds c2_before [(1, ⟨101, 'h', 1⟩), (2, ⟨102, 'h', 2⟩)] [(0, ⟨100, 'l', 0⟩)] ∧
    process_request c2_before (rq .REQ_HIGH_TASK 1) 0 junk0 = .ok (c2_before, 0) ∧
    process_request c2_before (rq .REQ_LOW_TASK 0) 0 junk0 = .ok (c2_before, 0) :=
  have hw : Holds c2_before [(1, ⟨101, 'h', 1⟩), (2, ⟨102, 'h', 2⟩)] [(0, ⟨100, 'l', 0⟩)] :=
    ⟨⟨rfl, _, rfl, rfl, _, rfl, rfl, _, rfl, rfl⟩, rfl, rfl, by decide, by decide⟩
  ⟨hw, (C18_raise_lower_return_zero c2_before _ _ hw (by decide) 1 0 junk0).1 (by decide),
    (C18_raise_lower_return_zero c2_before _ _ hw (by decide) 0 0 junk0).2.2.2 (by decide)⟩

/-- C18 as stated fails: in `c2_before` task 1 is already HIGH, the id 42 is
absent and the shell, id 0, is already LOW; RAISE(1), RAISE(42), LOWER(42) and
LOWER(0) all get the result 0, which is not negative. -/
theorem C18_counterexample :
    Holds c2_before [(1, ⟨101, 'h', 1⟩), (2, ⟨102, 'h', 2⟩)] [(0, ⟨100, 'l', 0⟩)] ∧
    process_request c2_before (rq .REQ_HIGH_TASK 1) 0 junk0 = .ok (c2_before, 0) ∧
    process_request c2_before (rq .REQ_HIGH_TASK 42) 0 junk0 = .ok (c2_before, 0) ∧
    process_request c2_before (rq .REQ_LOW_TASK 42) 0 junk0 = .ok (c2_before, 0) ∧
    process_request c2_before (rq .REQ_LOW_TASK 0) 0 junk0 = .ok (c2_before, 0) ∧
    ¬ ((0 : Int) < 0) :=
  ⟨⟨⟨rfl, _, rfl, rfl, _, rfl, rfl, _, rfl, rfl⟩, rfl, rfl, by decide, by decide⟩,
    rfl, rfl, rfl, rfl, by decide⟩

/-- C19, what the code does at the failing input: `RAISE(1)` and `RAISE(2)`
take `lab_start` to a well-formed registry in which every task is HIGH;
`sched_low_task(2)` then leaves a list that holds the shell and task 1 only:
the cell of task 2 is not linked any more, though `tail` points to it. -/
theorem C19_lowered_task_lost :
    run (100, junk0) [(101, junk0), (102, junk0)] c19_events = .ok (c19_before, [100]) ∧
    Reachable (c19_before, [100]) ∧
    Holds c19_before [(0, ⟨100, 'h', 0⟩), (1, ⟨101, 'h', 1⟩), (2, ⟨102, 'h', 2⟩)] [] ∧
    sched_low_task c19_before 2 = .ok (c19_state, 0) ∧
    Seg c19_state.mem c19_state.g.head [(0, ⟨100, 'h', 0⟩), (1, ⟨101, 'h', 1⟩)] none ∧
    c19_state.g.tail = some 2 ∧ c19_state.g.hiend = some 1 :=
  ⟨rfl, run_reachable (100, junk0) [(101, junk0), (102, junk0)] c19_events _ rfl,
    ⟨⟨rfl, _, rfl, rfl, _, rfl, rfl, _, rfl, rfl⟩, rfl, rfl, by decide, by decide⟩,
    rfl, ⟨rfl, _, rfl, rfl, _, rfl, rfl⟩, rfl, rfl⟩

end SchedulerPrioLab

end Sched

namespace Sched

namespace SchedulerShellPrio

/-- C12 as stated fails: in `ex_ll`, whose LOW queue holds the tasks 1 and 2,
a SPAWN request whose `fork` returns the pid 303 is answered with 0 and the
state is `ex_ll` itself: the LOW queue still holds the tasks 1 and 2 only, and
no task has the pid 303. -/
theorem C12_counterexample :
    Holds ex_ll [] [(0, ⟨301, 'l', 1⟩), (1, ⟨302, 'l', 2⟩)] ∧
    process_request ex_ll ⟨.REQ_EXEC_TASK, 0, ""⟩ 303 = .ok (ex_ll, 0) ∧
    (303 : Int) ∉ pids [(0, (⟨301, 'l', 1⟩ : task Char)), (1, ⟨302, 'l', 2⟩)] ∧
    sched_print_tasks ex_ll = .ok ex_ll :=
  ⟨⟨rfl, rfl, ⟨rfl, _, rfl, rfl, _, rfl, rfl⟩, rfl⟩, rfl, by decide, rfl⟩

/-- C12, amended, at an input: in `ex_ll` the SPAWN request changes nothing,
and the `stopped` notification of the child with pid 303 makes it task 3, the
last of the LOW queue. -/
theorem C12_witness :
    Holds ex_ll [] [(0, ⟨301, 'l', 1⟩), (1, ⟨302, 'l', 2⟩)] ∧
    process_request ex_ll ⟨.REQ_EXEC_TASK, 0, ""⟩ 303 = .ok (ex_ll, 0) ∧
    ∃ s2, sigchld_handler ex_ll [(303, .stopped, ⟨0, 'l', 0, none⟩)] = .ok s2 ∧
      Holds s2 [] ([(0, ⟨301, 'l', 1⟩), (1, ⟨302, 'l', 2⟩)] ++ [(2, ⟨303, 'l', 3⟩)]) ∧
      s2.out = ex_ll.out :=
  have hw : Holds ex_ll [] [(0, ⟨301, 'l', 1⟩), (1, ⟨302, 'l', 2⟩)] :=
    ⟨rfl, rfl, ⟨rfl, _, rfl, rfl, _, rfl, rfl⟩, rfl⟩
  ⟨hw, C12_spawn_defers_insertion ex_ll [] _ hw (by simp) (by simp) ⟨.REQ_EXEC_TASK, 0, ""⟩ rfl
    303 (by decide) ⟨by decide, by decide⟩ ⟨0, 'l', 0, none⟩⟩

end SchedulerShellPrio

namespace SchedulerPrioLab

/-- C14 as stated fails: in `lab_start` the shell is the head and no task is
HIGH; `sched_high_task(2)` returns 0 with nothing sent, and afterwards the HIGH
tier holds the shell and task 2, in this order: the shell is still the head,
it has not been sent a stop signal and it is not LOW. -/
theorem C14_counterexample :
    Holds lab_start [] [(0, ⟨100, 'l', 0⟩), (1, ⟨101, 'l', 1⟩), (2, ⟨102, 'l', 2⟩)] ∧
    sched_high_task lab_start 2 = .ok (c14_state, 0) ∧
    Holds c14_state [(0, ⟨100, 'h', 0⟩), (2, ⟨102, 'h', 2⟩)] [(1, ⟨101, 'l', 1⟩)] ∧
    c14_state.out = lab_start.out ∧ c14_state.g.head = some 0 :=
  ⟨⟨⟨rfl, _, rfl, rfl, _, rfl, rfl, _, rfl, rfl⟩, rfl, rfl, by decide, by decide⟩, rfl,
    ⟨⟨rfl, _, rfl, rfl, _, rfl, rfl, _, rfl, rfl⟩, rfl, rfl, by decide, by decide⟩, rfl, rfl⟩

/-- C14, amended, at an input: raising task 2 in `lab_start`. -/
theorem C14_witness :
    Holds lab_start [] ((0, ⟨100, 'l', 0⟩) :: ([(1, ⟨101, 'l', 1⟩)] ++ (2, ⟨102, 'l', 2⟩) :: [])) ∧
    ∃ s2, sched_high_task lab_start 2 = .ok (s2, 0) ∧
      Holds s2 [(0, ⟨100, 'h', 0⟩), (2, ⟨102, 'h', 2⟩)] ([(1, ⟨101, 'l', 1⟩)] ++ []) ∧
      s2.out = lab_start.out ∧ s2.g.head = lab_start.g.head ∧
      s2.g.fixproblem = lab_start.g.fixproblem :=
  have hw : Holds lab_start []
      ((0, ⟨100, 'l', 0⟩) :: ([(1, ⟨101, 'l', 1⟩)] ++ (2, ⟨102, 'l', 2⟩) :: [])) :=
    ⟨⟨rfl, _, rfl, rfl, _, rfl, rfl, _, rfl, rfl⟩, rfl, rfl, by decide, by decide⟩
  ⟨hw, C14_raise_elevates_head lab_start 0 ⟨100, 'l', 0⟩ [(1, ⟨101, 'l', 1⟩)] [] 2 ⟨102, 'l', 2⟩
    hw (by decide) (by decide) (by simp)⟩

/-- C15 at an input: raising the shell, the only LOW task of `c2_before`,
puts it behind the HIGH tasks 1 and 2. -/
theorem C15_witness :
    Holds c2_before [(1, ⟨101, 'h', 1⟩), (2, ⟨102, 'h', 2⟩)] ([] ++ (0, ⟨100, 'l', 0⟩) :: []) ∧
    ∃ s2, sched_high_task c2_before 0 = .ok (s2, 0) ∧
      Holds s2 ([(1, ⟨101, 'h', 1⟩), (2, ⟨102, 'h', 2⟩)] ++ [(0, ⟨100, 'h', 0⟩)]) ([] ++ []) ∧
      s2.out = c2_before.out ∧ s2.g.head = c2_before.g.head ∧
      s2.g.fixproblem = c2_before.g.fixproblem :=
  have hw : Holds c2_before [(1, ⟨101, 'h', 1⟩), (2, ⟨102, 'h', 2⟩)]
      ([] ++ (0, ⟨100, 'l', 0⟩) :: []) :=
    ⟨⟨rfl, _, rfl, rfl, _, rfl, rfl, _, rfl, rfl⟩, rfl, rfl, by decide, by decide⟩
  ⟨hw, C15_raise_joins_high c2_before _ [] [] 0 ⟨100, 'l', 0⟩ hw (by simp) (by decide)⟩

end SchedulerPrioLab

end Sched

namespace Sched

namespace SchedulerPrioLab

/-- C21: in `scheduler-prio-lab.c`, for a well-formed registry with pairwise
distinct ids and an id that no task has or that a task of the LOW tier has,
`sched_low_task(id)` returns 0 and leaves the state as it is: the list, the
tiers, `hiend`, `tail` and `fixproblem` are unchanged and nothing is sent. -/
theorem C21_lower_absent_or_low_is_noop (s : State) (hi lo : List (Nat × task Char))
    (hw : Holds s hi lo) (hnd : (ids (hi ++ lo)).Nodup) (id : Int)
    (hid : id ∉ ids (hi ++ lo) ∨ id ∈ ids lo) :
    sched_low_task s id = .ok (s, 0) := by
  have hhi : id ∉ ids hi := by
    intro h
    rcases hid with e | e
    · exact e (by simp only [ids, List.map_append, List.mem_append]; exact Or.inl h)
    · simp only [ids, List.map_append] at hnd
      exact (List.nodup_append.1 hnd).2.2 h e
  exact sched_low_task_skip s hi lo hw id hhi

/-- C21 at two inputs: in `c2_before` no task has id 42 and task 0 is LOW;
lowering either changes nothing. -/
theorem C21_witness :
    Holds c2_before [(1, ⟨101, 'h', 1⟩), (2, ⟨102, 'h', 2⟩)] [(0, ⟨100, 'l', 0⟩)] ∧
    sched_low_task c2_before 42 = .ok (c2_before, 0) ∧
    sched_low_task c2_before 0 = .ok (c2_before, 0) :=
  have hw : Holds c2_before [(1, ⟨101, 'h', 1⟩), (2, ⟨102, 'h', 2⟩)] [(0, ⟨100, 'l', 0⟩)] :=
    ⟨⟨rfl, _, rfl, rfl, _, rfl, rfl, _, rfl, rfl⟩, rfl, rfl, by decide, by decide⟩
  ⟨hw, C21_lower_absent_or_low_is_noop c2_before _ _ hw (by decide) 42 (Or.inl (by decide)),
    C21_lower_absent_or_low_is_noop c2_before _ _ hw (by decide) 0 (Or.inr (by decide))⟩

end SchedulerPrioLab

namespace SchedulerShell

/-- C22: in `scheduler-shell.c`, for a registry `h :: t`, `sigalrm_handler`
returns with the list and the globals as they were, having emitted exactly one
effect: `SIGSTOP` for the pid of `h`, and no alarm, when `t` is not empty; the
alarm of `SCHED_TQ_SEC` seconds, and no signal, when `h` is the only task. -/
theorem C22_alarm_stops_head_or_rearms (s : State) (h : Nat × task Unit)
    (t : List (Nat × task Unit)) (hl : Holds s (h :: t)) :
    (t ≠ [] → sigalrm_handler s = .ok (s.emit (.kill h.2.pid .SIGSTOP))) ∧
    (t = [] → sigalrm_handler s = .ok (s.emit (.alarm SCHED_TQ_SEC))) := by
  obtain ⟨a, ta⟩ := h
  obtain ⟨hhead, hca⟩ := hl.head_cell
  obtain ⟨hseg, htail⟩ := hl
  constructor
  · intro ht
    have hna := seg_not_mem hseg
    rw [last_cons_ne _ _ ht] at htail
    have hne : s.g.head ≠ s.g.tail := by
      intro e
      rw [hhead] at e
      exact hna (last_mem t a (by rw [← htail, ← e]))
    have hne2 : ¬ some a = s.g.tail := by
      rw [← hhead]
      exact hne
    simp [sigalrm_handler, Machine.load, hhead, hca, hne2]
  · intro ht
    subst ht
    have htail : s.g.tail = some a := htail
    simp [sigalrm_handler, hhead, htail]

/-- C22 at two inputs: the three tasks of `ex3`, where the head (pid 101) is
stopped, and the single task of `ex1`, where the alarm is set again. -/
theorem C22_witness :
    Holds ex3 [(0, ⟨101, (), 1⟩), (1, ⟨102, (), 2⟩), (2, ⟨103, (), 3⟩)] ∧
    sigalrm_handler ex3 = .ok (ex3.emit (.kill 101 .SIGSTOP)) ∧
    Holds ex1 [(0, ⟨107, (), 7⟩)] ∧
    sigalrm_handler ex1 = .ok (ex1.emit (.alarm SCHED_TQ_SEC)) :=
  have h3 : Holds ex3 [(0, ⟨101, (), 1⟩), (1, ⟨102, (), 2⟩), (2, ⟨103, (), 3⟩)] :=
    ⟨⟨rfl, _, rfl, rfl, _, rfl, rfl, _, rfl, rfl⟩, rfl⟩
  have h1 : Holds ex1 [(0, ⟨107, (), 7⟩)] := ⟨⟨rfl, _, rfl, rfl⟩, rfl⟩
  ⟨h3, (C22_alarm_stops_head_or_rearms ex3 _ _ h3).1 (by simp), h1,
    (C22_alarm_stops_head_or_rearms ex1 _ _ h1).2 rfl⟩

end SchedulerShell

end Sched

namespace Sched

namespace SchedulerPrioLab

/-- C26, what the code does at the failing input: from the shell and one task,
both LOW, `RAISE(1)` leaves the list shell, task 1 with `tail` pointing to the
shell, which is not the last node; the `SPAWN` that follows links the new node
behind the shell, and task 1 is in the list no more.  Likewise, in the
well-formed registry `c19_before`, where every task is HIGH, the `stopped`
notification of the head leaves the list task 1, task 2, shell with `tail`
still at task 2. -/
theorem C26_tail_left_behind :
    main (100, junk0) [(101, junk0)] = .ok c26_start ∧
    Holds c26_start [] [(0, ⟨100, 'l', 0⟩), (1, ⟨101, 'l', 1⟩)] ∧
    sched_high_task c26_start 1 = .ok (c26_state, 0) ∧
    Reachable (c26_state, [100]) ∧
    Seg c26_state.mem c26_state.g.head [(0, ⟨100, 'h', 0⟩), (1, ⟨101, 'h', 1⟩)] none ∧
    c26_state.g.tail = some 0 ∧
    sched_create_task c26_state 102 junk0 = .ok c27_state ∧
    Seg c27_state.mem c27_state.g.head [(0, ⟨100, 'h', 0⟩), (2, ⟨102, 'l', 2⟩)] none ∧
    cell c27_state.mem (some 1) = some ⟨101, 'h', 1, none⟩ ∧
    Holds c19_before [(0, ⟨100, 'h', 0⟩), (1, ⟨101, 'h', 1⟩), (2, ⟨102, 'h', 2⟩)] [] ∧
    sigchld_handler c19_before [(100, .stopped)] = .ok c26_rotated ∧
    Seg c26_rotated.mem c26_rotated.g.head
      [(1, ⟨101, 'h', 1⟩), (2, ⟨102, 'h', 2⟩), (0, ⟨100, 'h', 0⟩)] none ∧
    c26_rotated.g.tail = some 2 :=
  ⟨rfl, ⟨⟨rfl, _, rfl, rfl, _, rfl, rfl⟩, rfl, rfl, by decide, by decide⟩, rfl,
    run_reachable (100, junk0) [(101, junk0)] [.request (rq .REQ_HIGH_TASK 1) 0 junk0] _ rfl,
    ⟨rfl, _, rfl, rfl, _, rfl, rfl⟩, rfl, rfl, ⟨rfl, _, rfl, rfl, _, rfl, rfl⟩, rfl,
    ⟨⟨rfl, _, rfl, rfl, _, rfl, rfl, _, rfl, rfl⟩, rfl, rfl, by decide, by decide⟩, rfl,
    ⟨rfl, _, rfl, rfl, _, rfl, rfl, _, rfl, rfl⟩, rfl⟩

/-- C27, what the code does at the failing input: from the shell and one task,
`RAISE(1)` and a `SPAWN` lead to a state whose list is the HIGH shell and the
LOW task 2, while `hiend` points to the cell of task 1, which is HIGH and not
in the list: however the list is split into a HIGH and a LOW part, `hiend` is
not the last cell of the HIGH part. -/
theorem C27_hiend_off_the_list :
    run (100, junk0) [(101, junk0)] c27_events = .ok (c27_state, [100]) ∧
    Reachable (c27_state, [100]) ∧
    Seg c27_state.mem c27_state.g.head [(0, ⟨100, 'h', 0⟩), (2, ⟨102, 'l', 2⟩)] none ∧
    c27_state.g.hiend = some 1 ∧
    ∀ hi lo : List (Nat × task Char),
      Seg c27_state.mem c27_state.g.head (hi ++ lo) none → c27_state.g.hiend ≠ last hi := by
  refine ⟨rfl, run_reachable (100, junk0) [(101, junk0)] c27_events _ rfl,
    ⟨rfl, _, rfl, rfl, _, rfl, rfl⟩, rfl, ?_⟩
  intro hi lo hseg
  have hl : Seg c27_state.mem c27_state.g.head
      [(0, (⟨100, 'h', 0⟩ : task Char)), (2, ⟨102, 'l', 2⟩)] none :=
    ⟨rfl, _, rfl, rfl, _, rfl, rfl⟩
  have e := seg_unique _ _ _ hseg hl
  have hhe : c27_state.g.hiend = some 1 := rfl
  rw [hhe]
  intro h
  have hm := last_mem hi 1 h.symm
  have hm2 : (1 : Nat) ∈ (hi ++ lo).map Prod.fst := by
    rw [List.map_append]
    exact List.mem_append_left _ hm
  rw [e] at hm2
  simp at hm2

/-- C29, what the code does at the failing input: `RAISE(1)`, `RAISE(2)`,
`LOWER(0)` and a `SPAWN` lead to a well-formed registry with `fixproblem = 1`
in which the shell (pid 100), demoted while it ran, is the only RUNNING task,
while `tail` is the cell of the new task (pid 103); `sigalrm_handler` sends
`SIGSTOP` to pid 103, and pid 100 is RUNNING as before. -/
theorem C29_stop_goes_to_spawned_task :
    run (100, junk0) [(101, junk0), (102, junk0)] c29_events = .ok (c29_state, [100]) ∧
    Reachable (c29_state, [100]) ∧
    Holds c29_state [(1, ⟨101, 'h', 1⟩), (2, ⟨102, 'h', 2⟩)]
      [(0, ⟨100, 'l', 0⟩), (3, ⟨103, 'l', 3⟩)] ∧
    c29_state.g.fixproblem = 1 ∧
    cell c29_state.mem c29_state.g.tail = some ⟨103, 'l', 3, none⟩ ∧
    sigalrm_handler c29_state = .ok (c29_state.emit (.kill 103 .SIGSTOP)) ∧
    exec (c29_state, [100]) .sigalrm = .ok (c29_state.emit (.kill 103 .SIGSTOP), [100]) :=
  ⟨rfl, run_reachable (100, junk0) [(101, junk0), (102, junk0)] c29_events _ rfl,
    ⟨⟨rfl, _, rfl, rfl, _, rfl, rfl, _, rfl, rfl, _, rfl, rfl⟩, rfl, rfl, by decide, by decide⟩,
    rfl, rfl, rfl, rfl⟩

end SchedulerPrioLab

namespace SchedulerShellPrio

/-- C28, what the code does at the failing input: in `ex_ll`, whose LOW queue
holds the tasks 1 and 2, one invocation of `sigchld_handler` that drains the
`stopped` notifications of the pids 301 and 303 rotates the queue and leaves
pid 303 out, since `found` is still set when the second is handled; two
invocations, one for each notification, rotate the queue and make the child
with pid 303 task 3. -/
theorem C28_drain_differs_from_two_calls :
    Holds ex_ll [] [(0, ⟨301, 'l', 1⟩), (1, ⟨302, 'l', 2⟩)] ∧
    sigchld_handler ex_ll [stop_report 301, stop_report 303] = .ok c28_single ∧
    two_invocations ex_ll (stop_report 301) (stop_report 303) = .ok c28_twice ∧
    Holds c28_single [] [(1, ⟨302, 'l', 2⟩), (0, ⟨301, 'l', 1⟩)] ∧
    Holds c28_twice [] [(1, ⟨302, 'l', 2⟩), (0, ⟨301, 'l', 1⟩), (2, ⟨303, 'l', 3⟩)] ∧
    sigchld_handler ex_ll [stop_report 301, stop_report 303] ≠
      two_invocations ex_ll (stop_report 301) (stop_report 303) :=
  ⟨⟨rfl, rfl, ⟨rfl, _, rfl, rfl, _, rfl, rfl⟩, rfl⟩, rfl, rfl,
    ⟨rfl, rfl, ⟨rfl, _, rfl, rfl, _, rfl, rfl⟩, rfl⟩,
    ⟨rfl, rfl, ⟨rfl, _, rfl, rfl, _, rfl, rfl, _, rfl, rfl⟩, rfl⟩, by decide⟩

end SchedulerShellPrio

end Sched

namespace Sched

namespace SchedulerPrioLab

/-- What `STOP CASE 2` does: the head `a` is not `hiend`, which is `z`; `b` is
the cell behind the head. -/
theorem on_stop_rotate_high_exec (s : State) (a z b : Nat) (na nz nb : process_node Char)
    (hfix : s.g.fixproblem = 0) (hhead : s.g.head = some a) (hhe : s.g.hiend = some z)
    (haz : a ≠ z) (hca : cell s.mem (some a) = some na) (hcz : cell s.mem (some z) = some nz)
    (hnx : na.next = some b) (hcb : cell s.mem (some b) = some nb) (hba : b ≠ a) :
    on_stop s na.pid = .ok
      { mem := (s.mem.set z (some { nz with next := some a })).set a
          (some { na with next := nz.next }),
        g := { head := some b, tail := s.g.tail, hiend := some a, fixproblem := 0 },
        out := s.out ++ [.alarm SCHED_TQ_SEC, .kill nb.pid .SIGCONT] } := by
  have hal : a < s.mem.length := cell_lt hca
  have hzl : z < s.mem.length := cell_lt hcz
  have hza : z ≠ a := Ne.symm haz
  have hf : ¬ s.g.fixproblem = 1 := by rw [hfix]; decide
  by_cases hbz : b = z
  · subst hbz
    rw [hcz] at hcb
    cases hcb
    simp [on_stop, Machine.load, Machine.set_next, Machine.store, Machine.setg, Machine.emit,
      hf, hfix, hhead, hhe, hca, hcz, cell_set, hal, hzl, haz, hza, hnx]
  · simp [on_stop, Machine.load, Machine.set_next, Machine.store, Machine.setg, Machine.emit,
      hf, hfix, hhead, hhe, hca, hcz, cell_set, hal, hzl, haz, hza, hnx, hcb, hba, hbz]

/-- What `DEATH CASE 2` does when `hiend`, which is the head `a`, is not the
last node: `b` is the cell behind it. -/
theorem on_death_last_high_exec (s : State) (a b : Nat) (na nb : process_node Char)
    (hhead : s.g.head = some a) (hhe : s.g.hiend = some a)
    (hca : cell s.mem (some a) = some na) (hnx : na.next = some b)
    (hcb : cell s.mem (some b) = some nb) (hba : b ≠ a) :
    on_death s na.pid = .ok
      { mem := s.mem.set a none,
        g := { head := some b, tail := s.g.tail, hiend := none, fixproblem := s.g.fixproblem },
        out := s.out ++ [.alarm SCHED_TQ_SEC, .kill nb.pid .SIGCONT] } := by
  have hal : a < s.mem.length := cell_lt hca
  simp [on_death, Machine.load, Machine.free, Machine.setg, Machine.emit, hhead, hhe, hca,
    hnx, hcb, hba, cell_set, hal]

/-- C23: in `scheduler-prio-lab.c`, for a well-formed registry with
`fixproblem = 0` whose HIGH tier `h :: hs` has at least two tasks, a `stopped`
notification for the pid of `h` makes `sigchld_handler` return with the list
`hs ++ [h]` followed by the LOW tier as it was, `hiend` at `h`, the timer
re-armed and `SIGCONT` sent to the first task of `hs`; `tail` is not written,
so the registry is well formed again when the LOW tier is not empty. -/
theorem C23_stopped_head_rotates_high (s : State) (h : Nat × task Char)
    (hs lo : List (Nat × task Char)) (hw : Holds s (h :: hs) lo) (hne : hs ≠ [])
    (hfix : s.g.fixproblem = 0) (hpid : 0 < h.2.pid) :
    ∃ s2, sigchld_handler s [(h.2.pid, .stopped)] = .ok s2 ∧
      Seg s2.mem s2.g.head ((hs ++ [h]) ++ lo) none ∧ s2.g.hiend = last (hs ++ [h]) ∧
      s2.g.tail = s.g.tail ∧ s2.g.fixproblem = 0 ∧
      (lo ≠ [] → Holds s2 (hs ++ [h]) lo) ∧
      s2.out = s.out ++ [.alarm SCHED_TQ_SEC, .kill (hs.head hne).2.pid .SIGCONT] := by
  obtain ⟨a, ta⟩ := h
  obtain ⟨hs0, ⟨z, tz⟩, rfl⟩ := exists_snoc hs hne
  have hw2 : Holds s (((a, ta) :: hs0) ++ [(z, tz)]) lo := hw
  obtain ⟨hhe, hcz, hseg1, hseglo⟩ := hw2.hiend_cell
  obtain ⟨hseg, htail, _, hhi, hlo⟩ := hw
  have hnd := seg_nodup _ _ hseg
  obtain ⟨hhead, nx, hca, hrest⟩ := hseg1
  have hmid : Seg s.mem nx (hs0 ++ [(z, tz)]) (first lo) := seg_snoc hrest hcz
  obtain ⟨hnx, nxb, hcb⟩ := seg_head_cell hmid hne
  simp only [List.cons_append, List.map_cons, List.map_append, List.map_nil, List.nodup_cons,
    List.nodup_append, List.mem_append, List.mem_cons, List.mem_singleton, List.not_mem_nil,
    or_false, not_or, List.nodup_nil, and_true, true_and, List.disjoint_append_left,
    List.disjoint_append_right, List.disjoint_cons_right, List.disjoint_cons_left,
    List.singleton_disjoint, List.disjoint_singleton, not_false_eq_true,
    List.disjoint_nil_left, List.disjoint_nil_right] at hnd
  obtain ⟨⟨⟨ha0, haz⟩, halo⟩, ⟨_, hz0⟩, _, _, hzlo⟩ := hnd
  have hba : (List.head (hs0 ++ [(z, tz)]) hne).1 ≠ a := by
    intro e
    have hm : (List.head (hs0 ++ [(z, tz)]) hne).1 ∈ (hs0 ++ [(z, tz)]).map Prod.fst :=
      List.mem_map.2 ⟨_, List.head_mem hne, rfl⟩
    rw [e] at hm
    simp only [List.map_append, List.map_cons, List.map_nil, List.mem_append,
      List.mem_singleton] at hm
    rcases hm with hm | hm
    · exact ha0 hm
    · exact haz hm
  rw [hnx] at hcb
  have hex := on_stop_rotate_high_exec s a z _ _ _ _ hfix hhead hhe haz hca hcz hnx hcb hba
  rw [task.node_pid] at hex
  have hp1 : ¬ ta.pid < 0 := by
    simp only at hpid
    omega
  have hp2 : ¬ ta.pid = 0 := by
    simp only at hpid
    omega
  have hal : a < s.mem.length := cell_lt hca
  have hzl : z < s.mem.length := cell_lt hcz
  have hseg2 : Seg ((s.mem.set z (some (tz.node (some a)))).set a (some (ta.node (first lo))))
      nx (hs0 ++ [(z, tz)] ++ [(a, ta)] ++ lo) none := by
    refine (seg_append _ _ _ _).2 ⟨first lo, ?_, seg_set _ halo (seg_set _ hzlo hseglo)⟩
    refine seg_snoc (seg_snoc (seg_set _ ha0 (seg_set _ hz0 hrest)) ?_) ?_
    · rw [cell_set_ne _ _ _ _ (Ne.symm haz), cell_set _ _ _ _ hzl, if_pos rfl]
    · rw [cell_set _ _ _ _ (by simpa using hal), if_pos rfl]
  have hex2 : on_stop s ta.pid = .ok
      { mem := (s.mem.set z (some (tz.node (some a)))).set a (some (ta.node (first lo))),
        g := { head := some ((hs0 ++ [(z, tz)]).head hne).1, tail := s.g.tail, hiend := some a,
               fixproblem := 0 },
        out := s.out ++ [.alarm SCHED_TQ_SEC,
          .kill ((hs0 ++ [(z, tz)]).head hne).2.pid .SIGCONT] } := hex
  have hrun : sigchld_handler s [(ta.pid, .stopped)] = .ok
      { mem := (s.mem.set z (some (tz.node (some a)))).set a (some (ta.node (first lo))),
        g := { head := some ((hs0 ++ [(z, tz)]).head hne).1, tail := s.g.tail, hiend := some a,
               fixproblem := 0 },
        out := s.out ++ [.alarm SCHED_TQ_SEC,
          .kill ((hs0 ++ [(z, tz)]).head hne).2.pid .SIGCONT] } := by
    simp [sigchld_handler, sigchld_step, hp1, hp2, hex2]
  refine ⟨_, hrun, ?_, ?_, rfl, rfl, ?_, ?_⟩
  · rw [← hnx]
    exact hseg2
  · rw [last_concat]
  · intro hlne
    refine ⟨?_, ?_, ?_, ?_, hlo⟩
    · rw [← hnx]
      exact hseg2
    · show s.g.tail = _
      rw [htail, last_append_ne _ _ hlne, last_append_ne _ _ hlne]
    · rw [last_concat]
    · intro x hx
      apply hhi x
      simp only [List.mem_append, List.mem_cons, List.mem_singleton, List.not_mem_nil,
        or_false] at hx ⊢
      tauto
  · rfl

/-- C23 at an input: in `c2_before` the HIGH tier is task 1, task 2; the
`stopped` notification of pid 101 puts task 1 behind task 2 and continues
pid 102. -/
theorem C23_witness :
    Holds c2_before ((1, ⟨101, 'h', 1⟩) :: [(2, ⟨102, 'h', 2⟩)]) [(0, ⟨100, 'l', 0⟩)] ∧
    ∃ s2, sigchld_handler c2_before [(101, .stopped)] = .ok s2 ∧
      Seg s2.mem s2.g.head (([(2, ⟨102, 'h', 2⟩)] ++ [(1, ⟨101, 'h', 1⟩)]) ++
        [(0, ⟨100, 'l', 0⟩)]) none ∧
      s2.g.hiend = last ([(2, (⟨102, 'h', 2⟩ : task Char))] ++ [(1, ⟨101, 'h', 1⟩)]) ∧
      s2.g.tail = c2_before.g.tail ∧ s2.g.fixproblem = 0 ∧
      ([(0, (⟨100, 'l', 0⟩ : task Char))] ≠ [] →
        Holds s2 ([(2, ⟨102, 'h', 2⟩)] ++ [(1, ⟨101, 'h', 1⟩)]) [(0, ⟨100, 'l', 0⟩)]) ∧
      s2.out = c2_before.out ++ [.alarm SCHED_TQ_SEC, .kill 102 .SIGCONT] :=
  have hw : Holds c2_before ((1, ⟨101, 'h', 1⟩) :: [(2, ⟨102, 'h', 2⟩)]) [(0, ⟨100, 'l', 0⟩)] :=
    ⟨⟨rfl, _, rfl, rfl, _, rfl, rfl, _, rfl, rfl⟩, rfl, rfl, by decide, by decide⟩
  ⟨hw, C23_stopped_head_rotates_high c2_before (1, ⟨101, 'h', 1⟩) [(2, ⟨102, 'h', 2⟩)]
    [(0, ⟨100, 'l', 0⟩)] hw (by simp) rfl (by decide)⟩

/-- C25: in `scheduler-prio-lab.c`, for a well-formed registry whose HIGH tier
is the head `h` alone and whose LOW tier `lo` is not empty, an `exited` or
`killed` notification for the pid of `h` makes `sigchld_handler` return with an
empty HIGH tier (`hiend = NULL`) and the LOW tier `lo` as it was, its first
task at the head, the timer re-armed and `SIGCONT` sent to that task. -/
theorem C25_last_high_death_hands_over (s : State) (h : Nat × task Char)
    (lo : List (Nat × task Char)) (hw : Holds s [h] lo) (hne : lo ≠ [])
    (hpid : 0 < h.2.pid) (st : Status) (hst : st = .exited ∨ st = .signaled) :
    ∃ s2, sigchld_handler s [(h.2.pid, st)] = .ok s2 ∧ Holds s2 [] lo ∧
      s2.g.hiend = none ∧ s2.g.head = first lo ∧ s2.g.fixproblem = s.g.fixproblem ∧
      s2.out = s.out ++ [.alarm SCHED_TQ_SEC, .kill (lo.head hne).2.pid .SIGCONT] := by
  obtain ⟨a, ta⟩ := h
  obtain ⟨hseg, htail, hhe, _, hlo⟩ := hw
  have hseg : Seg s.mem s.g.head ((a, ta) :: lo) none := hseg
  have hhe : s.g.hiend = some a := hhe
  have hna := seg_not_mem hseg
  have hdrop := seg_drop_head hseg
  obtain ⟨hhead, hca⟩ := seg_head_next hseg
  rw [hhead] at hseg
  obtain ⟨_, nx, hca2, hrest⟩ := hseg
  obtain ⟨hnx, nxb, hcb⟩ := seg_head_cell hrest hne
  have hba : (lo.head hne).1 ≠ a := by
    intro e
    apply hna
    rw [← e]
    exact List.mem_map.2 ⟨_, List.head_mem hne, rfl⟩
  rw [hnx] at hcb
  have hfl : first lo = some (lo.head hne).1 := first_eq_head lo hne
  have hex := on_death_last_high_exec s a _ _ _ hhead hhe hca
    (by rw [task.node_next]; exact hfl) hcb hba
  simp only [task.node_pid] at hex
  have hp1 : ¬ ta.pid < 0 := by
    simp only at hpid
    omega
  have hp2 : ¬ ta.pid = 0 := by
    simp only at hpid
    omega
  have hns : ¬ st = .stopped := by
    rcases hst with e | e <;> simp [e]
  have hrun : sigchld_handler s [(ta.pid, st)] = .ok
      { mem := s.mem.set a none,
        g := { head := some (lo.head hne).1, tail := s.g.tail, hiend := none,
               fixproblem := s.g.fixproblem },
        out := s.out ++ [.alarm SCHED_TQ_SEC, .kill (lo.head hne).2.pid .SIGCONT] } := by
    simp [sigchld_handler, sigchld_step, hp1, hp2, hst, hns, hex]
  refine ⟨_, hrun, ?_, rfl, hfl.symm, rfl, rfl⟩
  refine ⟨?_, ?_, rfl, by simp, hlo⟩
  · rw [← hfl]
    exact hdrop
  · show s.g.tail = _
    rw [htail]
    exact last_append_ne _ _ hne

/-- C25 at an input: in `c2_state` the HIGH tier is task 1 alone, before the
LOW task 2 and the LOW shell; when pid 101 exits, task 2 is the head and is
continued. -/
theorem C25_witness :
    Holds c2_state [(1, ⟨101, 'h', 1⟩)] [(2, ⟨102, 'l', 2⟩), (0, ⟨100, 'l', 0⟩)] ∧
    ∃ s2, sigchld_handler c2_state [(101, .exited)] = .ok s2 ∧
      Holds s2 [] [(2, ⟨102, 'l', 2⟩), (0, ⟨100, 'l', 0⟩)] ∧
      s2.g.hiend = none ∧
      s2.g.head = first [(2, (⟨102, 'l', 2⟩ : task Char)), (0, ⟨100, 'l', 0⟩)] ∧
      s2.g.fixproblem = c2_state.g.fixproblem ∧
      s2.out = c2_state.out ++ [.alarm SCHED_TQ_SEC, .kill 102 .SIGCONT] :=
  have hw : Holds c2_state [(1, ⟨101, 'h', 1⟩)] [(2, ⟨102, 'l', 2⟩), (0, ⟨100, 'l', 0⟩)] :=
    ⟨⟨rfl, _, rfl, rfl, _, rfl, rfl, _, rfl, rfl⟩, rfl, rfl, by decide, by decide⟩
  ⟨hw, C25_last_high_death_hands_over c2_state (1, ⟨101, 'h', 1⟩)
    [(2, ⟨102, 'l', 2⟩), (0, ⟨100, 'l', 0⟩)] hw (by simp) (by decide) .exited (Or.inl rfl)⟩

end SchedulerPrioLab

end Sched

namespace Sched

section Unlink

variable {P : Type}

/-- After a cell that is not the first is taken out of a list, the last cell is
the one before it if it was the last, and is as before otherwise. -/
theorem last_unlink (pre l2 : List (Nat × task P)) (b c : Nat) (tb tc : task P)
    (hc : c ∉ l2.map Prod.fst) (q : Option Nat)
    (hq : q = last (pre ++ [(b, tb)] ++ (c, tc) :: l2)) :
    (if some c = q then some b else q) = last (pre ++ [(b, tb)] ++ l2) := by
  subst hq
  by_cases h2 : l2 = []
  · subst h2
    rw [List.append_nil, last_concat, last_concat, if_pos rfl]
  · rw [last_append_ne _ _ (by simp), last_cons_ne _ _ h2, last_append_ne _ _ h2]
    rw [if_neg]
    intro e
    exact hc (last_mem l2 c e.symm)

/-- Dropping the cell `c` from a list in which it does not occur changes
nothing. -/
theorem filter_cell_absent (l : List (Nat × task P)) (c : Nat) (h : c ∉ l.map Prod.fst) :
    l.filter (fun y => y.1 ≠ c) = l := by
  apply List.filter_eq_self.2
  intro y hy
  simp only [ne_eq, decide_not, Bool.not_eq_true', decide_eq_false_iff_not]
  intro e
  exact h (List.mem_map.2 ⟨y, hy, e⟩)

/-- Dropping the cell `c` from a list in which it occurs once removes it. -/
theorem filter_cell_split (l1 l2 : List (Nat × task P)) (c : Nat) (tc : task P)
    (h1 : c ∉ l1.map Prod.fst) (h2 : c ∉ l2.map Prod.fst) :
    (l1 ++ (c, tc) :: l2).filter (fun y => y.1 ≠ c) = l1 ++ l2 := by
  rw [List.filter_append, List.filter_cons, filter_cell_absent l1 c h1,
    filter_cell_absent l2 c h2]
  simp

end Unlink

namespace SchedulerPrioLab

/-- The loop of `DEATH CASE 3` walks past the tasks with another pid, up to the
first task with the pid. -/
theorem reap_loop_walk (s : State) (p : Int) (c : Nat) (tc : task Char)
    (l2 : List (Nat × task Char)) :
    ∀ (l1 : List (Nat × task Char)) (prev cur : Option Nat) (f : Nat) (pn : process_node Char),
    Seg s.mem cur (l1 ++ (c, tc) :: l2) none → p ∉ pids l1 → l1.length < f →
    cell s.mem prev = some pn → pn.next = cur →
    reap_loop s p f prev cur = reap_loop s p (f - l1.length) ((last l1).or prev) (some c)
  | [], prev, cur, f, pn, h, _, _, _, _ => by
    have hp : cur = some c := h.1
    subst hp
    rfl
  | (a, t) :: l1, prev, cur, f, pn, h, hid, hf, hpn, hnx => by
    obtain ⟨hp, nx, hc, hrest⟩ := h
    subst hp
    obtain ⟨f, rfl⟩ : ∃ k, f = k + 1 := ⟨f - 1, by omega⟩
    simp only [List.length_cons, Nat.add_lt_add_iff_right] at hf
    simp only [pids, List.map_cons, List.mem_cons, not_or] at hid
    have hne : ¬ t.pid = p := fun e => hid.1 e.symm
    rw [last_or_cons]
    have e : f + 1 - ((a, t) :: l1).length = f - l1.length := by
      simp only [List.length_cons]
      omega
    rw [e, ← reap_loop_walk s p c tc l2 l1 (some a) nx f (t.node nx) hrest hid.2 hf hc rfl]
    simp only [reap_loop, Machine.load, hc, hpn, Run.ok_bind, task.node_pid, hne, if_false,
      task.node_next, hnx]

/-- What the loop of `DEATH CASE 3` does at the task with the pid: `b` is the
cell before the cell `c` of the dead task. -/
theorem reap_loop_found (s : State) (p : Int) (k b c : Nat) (nb nc : process_node Char)
    (hcb : cell s.mem (some b) = some nb) (hcc : cell s.mem (some c) = some nc)
    (hpid : nc.pid = p) (hbc : b ≠ c) :
    reap_loop s p (k + 1) (some b) (some c) = .ok
      { mem := (s.mem.set b (some { nb with next := nc.next })).set c none,
        g := { head := s.g.head,
               tail := if some c = s.g.tail then some b else s.g.tail,
               hiend := if some c = s.g.hiend then some b else s.g.hiend,
               fixproblem := s.g.fixproblem },
        out := s.out } := by
  have hbl : b < s.mem.length := cell_lt hcb
  have hcl : c < s.mem.length := cell_lt hcc
  have hcb2 : c ≠ b := Ne.symm hbc
  by_cases d1 : some c = s.g.hiend
  · have e1 : s.g.hiend = some c := d1.symm
    by_cases d2 : some c = s.g.tail
    · have e2 : s.g.tail = some c := d2.symm
      simp [reap_loop, Machine.load, Machine.set_next, Machine.store, Machine.setg,
        Machine.free, hcb, hcc, hpid, cell_set, hbl, hcl, hbc, hcb2, e1, e2]
    · simp [reap_loop, Machine.load, Machine.set_next, Machine.store, Machine.setg,
        Machine.free, hcb, hcc, hpid, cell_set, hbl, hcl, hbc, hcb2, e1, d2]
  · by_cases d2 : some c = s.g.tail
    · have e2 : s.g.tail = some c := d2.symm
      simp [reap_loop, Machine.load, Machine.set_next, Machine.store, Machine.setg,
        Machine.free, hcb, hcc, hpid, cell_set, hbl, hcl, hbc, hcb2, d1, e2]
    · simp [reap_loop, Machine.load, Machine.set_next, Machine.store, Machine.setg,
        Machine.free, hcb, hcc, hpid, cell_set, hbl, hcl, hbc, hcb2, d1, d2]

/-- What `DEATH CASE 3` does in a list in which the first task with the pid is
not the head: the cell of that task is unlinked and freed, and `hiend` and
`tail` go back to the cell before it if they pointed to it. -/
theorem on_death_unlink_exec (s : State) (pre l2 : List (Nat × task Char)) (b c : Nat)
    (tb tc : task Char) (hseg : Seg s.mem s.g.head (pre ++ [(b, tb)] ++ (c, tc) :: l2) none)
    (hp : tc.pid ∉ pids (pre ++ [(b, tb)])) :
    on_death s tc.pid = .ok
      { mem := (s.mem.set b (some (tb.node (first l2)))).set c none,
        g := { head := s.g.head,
               tail := if some c = s.g.tail then some b else s.g.tail,
               hiend := if some c = s.g.hiend then some b else s.g.hiend,
               fixproblem := s.g.fixproblem },
        out := s.out } := by
  obtain ⟨_, hcb, hcc, _⟩ := seg_split_near hseg
  have hnd := seg_nodup _ _ hseg
  have hbc : b ≠ c := by
    intro e
    subst e
    rw [List.map_append, List.nodup_append] at hnd
    simp at hnd
  have hfuel := seg_fuel hseg
  have hfound := fun k => reap_loop_found s tc.pid k b c _ _ hcb hcc rfl hbc
  cases hpre : pre ++ [(b, tb)] with
  | nil => simp at hpre
  | cons y l1 =>
    obtain ⟨a, ta⟩ := y
    rw [hpre] at hseg hp hfuel
    obtain ⟨hhead, nx, hca, hrest⟩ := hseg
    simp only [pids, List.map_cons, List.mem_cons, not_or] at hp
    have hne : ¬ ta.pid = tc.pid := fun e => hp.1 e.symm
    have hnx : nx ≠ none := by
      intro e
      rw [e] at hrest
      cases l1 with
      | nil => exact absurd hrest.1 (by simp)
      | cons y l1 => exact absurd hrest.1 (by simp)
    have hlast : (last l1).or (some a) = some b := by
      have h1 := last_or_cons a ta l1 none
      rw [← hpre, last_concat] at h1
      exact h1.symm
    have hwalk := reap_loop_walk s tc.pid c tc l2 l1 (some a) nx s.fuel (ta.node nx) hrest
      hp.2 (by simp only [List.length_append, List.length_cons] at hfuel; omega) hca rfl
    rw [hlast] at hwalk
    obtain ⟨k, hk⟩ : ∃ k, s.fuel - l1.length = k + 1 :=
      ⟨s.fuel - l1.length - 1, by
        simp only [List.length_append, List.length_cons] at hfuel
        omega⟩
    rw [hk, hfound k] at hwalk
    have hc0 : cell s.mem s.g.head = some (ta.node nx) := by rw [hhead]; exact hca
    simp only [on_death, Machine.load, hc0, Run.ok_bind, task.node_pid, hne, and_false,
      if_false, task.node_next, ne_eq, hnx, not_false_eq_true, and_self, if_true]
    rw [hhead] at hwalk ⊢
    exact hwalk

end SchedulerPrioLab

end Sched

namespace Sched

namespace SchedulerPrioLab

/-- C24: in `scheduler-prio-lab.c`, for a well-formed registry with pairwise
distinct pids and a task `x` of the list that is not the head, an `exited` or
`killed` notification for the pid of `x` makes `sigchld_handler` return with a
well-formed registry whose tiers are the old ones without the cell of `x`, in
the old order (so `hiend` and `tail` are the last cells of what is left); the
old list is the new one plus `x`; `head` and `fixproblem` are as before and
nothing is sent. -/
theorem C24_other_death_unlinks (s : State) (hi lo : List (Nat × task Char))
    (hw : Holds s hi lo) (hnd : (pids (hi ++ lo)).Nodup) (x : Nat × task Char)
    (hx : x ∈ hi ++ lo) (hhead : s.g.head ≠ some x.1) (hpid : 0 < x.2.pid) (st : Status)
    (hst : st = .exited ∨ st = .signaled) :
    ∃ s2, sigchld_handler s [(x.2.pid, st)] = .ok s2 ∧
      Holds s2 (hi.filter (fun y => y.1 ≠ x.1)) (lo.filter (fun y => y.1 ≠ x.1)) ∧
      (hi ++ lo).Perm
        (x :: (hi.filter (fun y => y.1 ≠ x.1) ++ lo.filter (fun y => y.1 ≠ x.1))) ∧
      s2.g.head = s.g.head ∧ s2.g.fixproblem = s.g.fixproblem ∧ s2.out = s.out := by
  obtain ⟨c, tc⟩ := x
  obtain ⟨hseg, htail, hhe, hhi, hlo⟩ := hw
  obtain ⟨pre, post, hsplit⟩ := List.append_of_mem hx
  have hseg2 := hseg
  rw [hsplit] at hseg2 hnd
  have hpre : pre ≠ [] := by
    intro e
    subst e
    exact hhead hseg2.1
  obtain ⟨pre0, ⟨b, tb⟩, rfl⟩ := exists_snoc pre hpre
  have hadr := seg_nodup _ _ hseg2
  have hcpre : c ∉ (pre0 ++ [(b, tb)]).map Prod.fst := by
    rw [List.map_append, List.map_cons, List.nodup_append] at hadr
    intro h
    exact hadr.2.2 h (List.mem_cons_self _ _)
  have hcpost : c ∉ post.map Prod.fst := by
    rw [List.map_append, List.map_cons, List.nodup_append, List.nodup_cons] at hadr
    exact hadr.2.1.1
  have hp : tc.pid ∉ pids (pre0 ++ [(b, tb)]) := by
    simp only [pids] at hnd ⊢
    rw [List.map_append, List.map_cons, List.nodup_append] at hnd
    intro h
    exact hnd.2.2 h (List.mem_cons_self _ _)
  have hex := on_death_unlink_exec s pre0 post b c tb tc hseg2 hp
  have hp1 : ¬ tc.pid < 0 := by
    simp only at hpid
    omega
  have hp2 : ¬ tc.pid = 0 := by
    simp only at hpid
    omega
  have hns : ¬ st = .stopped := by
    rcases hst with e | e <;> simp [e]
  have hrun : sigchld_handler s [(tc.pid, st)] = .ok
      { mem := (s.mem.set b (some (tb.node (first post)))).set c none,
        g := { head := s.g.head,
               tail := if some c = s.g.tail then some b else s.g.tail,
               hiend := if some c = s.g.hiend then some b else s.g.hiend,
               fixproblem := s.g.fixproblem },
        out := s.out } := by
    simp [sigchld_handler, sigchld_step, hp1, hp2, hst, hns, hex]
  have hnew := seg_unlink hseg2
  have htl := last_unlink pre0 post b c tb tc hcpost s.g.tail (by rw [htail, hsplit])
  refine ⟨_, hrun, ?_, ?_, rfl, rfl, rfl⟩
  · rcases List.append_eq_append_iff.1 hsplit with ⟨m, h1, h2⟩ | ⟨m, h1, h2⟩
    · -- the task is LOW
      have hchi : c ∉ hi.map Prod.fst := by
        intro h
        apply hcpre
        rw [h1, List.map_append]
        exact List.mem_append_left _ h
      have hcm : c ∉ m.map Prod.fst := by
        intro h
        apply hcpre
        rw [h1, List.map_append]
        exact List.mem_append_right _ h
      rw [filter_cell_absent hi c hchi, h2, filter_cell_split m post c tc hcm hcpost]
      have hl : hi ++ (m ++ post) = pre0 ++ [(b, tb)] ++ post := by
        rw [h1, List.append_assoc]
      refine ⟨?_, ?_, ?_, hhi, ?_⟩
      · rw [hl]
        exact hnew
      · rw [hl]
        exact htl
      · show (if some c = s.g.hiend then some b else s.g.hiend) = last hi
        rw [if_neg, hhe]
        rw [hhe]
        intro e
        exact hchi (last_mem hi c e.symm)
      · intro y hy
        apply hlo y
        rw [h2]
        simp only [List.mem_append, List.mem_cons] at hy ⊢
        tauto
    · -- the task is HIGH
      cases m with
      | nil =>
        have h1 : hi = pre0 ++ [(b, tb)] := by simpa using h1
        have h2 : lo = (c, tc) :: post := by simpa using h2.symm
        have hchi : c ∉ hi.map Prod.fst := by rw [h1]; exact hcpre
        rw [filter_cell_absent hi c hchi, h2,
          show (c, tc) :: post = [] ++ (c, tc) :: post from rfl,
          filter_cell_split [] post c tc (by simp) hcpost, List.nil_append]
        refine ⟨?_, ?_, ?_, hhi, ?_⟩
        · rw [h1]
          exact hnew
        · rw [h1]
          exact htl
        · show (if some c = s.g.hiend then some b else s.g.hiend) = last hi
          rw [if_neg, hhe]
          rw [hhe]
          intro e
          exact hchi (last_mem hi c e.symm)
        · intro y hy
          apply hlo y
          rw [h2]
          exact List.mem_cons_of_mem _ hy
      | cons y m =>
        simp only [List.cons_append, List.cons.injEq] at h2
        obtain ⟨rfl, h2⟩ := h2
        have hcm : c ∉ m.map Prod.fst := by
          intro h
          apply hcpost
          rw [h2, List.map_append]
          exact List.mem_append_left _ h
        have hclo : c ∉ lo.map Prod.fst := by
          intro h
          apply hcpost
          rw [h2, List.map_append]
          exact List.mem_append_right _ h
        rw [h1, filter_cell_split _ m c tc hcpre hcm, filter_cell_absent lo c hclo]
        refine ⟨?_, ?_, ?_, ?_, hlo⟩
        · rw [List.append_assoc, ← h2]
          exact hnew
        · rw [List.append_assoc, ← h2]
          exact htl
        · exact last_unlink pre0 m b c tb tc hcm s.g.hiend (by rw [hhe, h1])
        · intro y hy
          apply hhi y
          rw [h1]
          simp only [List.mem_append, List.mem_cons] at hy ⊢
          tauto
  · have e : hi.filter (fun y => y.1 ≠ c) ++ lo.filter (fun y => y.1 ≠ c) =
        pre0 ++ [(b, tb)] ++ post := by
      rw [← List.filter_append, hsplit, filter_cell_split _ post c tc hcpre hcpost]
    rw [e, hsplit]
    exact List.perm_middle

/-- C24 at an input: in `c2_before` the list is task 1, task 2, shell, with
the tasks 1 and 2 HIGH; when pid 102 exits, task 2 is taken out, `hiend` goes
back to task 1 and nothing is sent. -/
theorem C24_witness :
    Holds c2_before [(1, ⟨101, 'h', 1⟩), (2, ⟨102, 'h', 2⟩)] [(0, ⟨100, 'l', 0⟩)] ∧
    ∃ s2, sigchld_handler c2_before [(102, .exited)] = .ok s2 ∧
      Holds s2 [(1, ⟨101, 'h', 1⟩)] [(0, ⟨100, 'l', 0⟩)] ∧
      s2.g.hiend = some 1 ∧ s2.g.head = c2_before.g.head ∧ s2.out = c2_before.out :=
  have hw : Holds c2_before [(1, ⟨101, 'h', 1⟩), (2, ⟨102, 'h', 2⟩)] [(0, ⟨100, 'l', 0⟩)] :=
    ⟨⟨rfl, _, rfl, rfl, _, rfl, rfl, _, rfl, rfl⟩, rfl, rfl, by decide, by decide⟩
  ⟨hw, (C24_other_death_unlinks c2_before _ _ hw (by decide) (2, ⟨102, 'h', 2⟩)
    (by decide) (by decide) (by decide) .exited (Or.inl rfl)).imp
    (fun _ h => ⟨h.1, h.2.1, h.2.1.2.2.1, h.2.2.2.1, h.2.2.2.2.2⟩)⟩

end SchedulerPrioLab

end Sched

namespace Sched

namespace SchedulerShell

/-- One `stopped` notification for the head rotates the registry by one. -/
theorem rotations_step (s : State) (l : List (Nat × task Unit)) (hl : Holds s l) (hne : l ≠ [])
    (hpid : ∀ x ∈ l, 0 < x.2.pid) :
    ∃ s2, (s.load s.g.head >>= fun h => sigchld_handler s [(h.pid, .stopped)]) = .ok s2 ∧
      Holds s2 (l.rotate 1) := by
  obtain ⟨⟨a, ta⟩, t, rfl⟩ := List.exists_cons_of_ne_nil hne
  obtain ⟨hhead, hca⟩ := hl.head_cell
  have hp := hpid (a, ta) (List.mem_cons_self _ _)
  have hp1 : ¬ ta.pid < 0 := by
    simp only at hp
    omega
  have hp2 : ¬ ta.pid = 0 := by
    simp only at hp
    omega
  have hc0 : cell s.mem s.g.head = some (ta.node (first t)) := by rw [hhead]; exact hca
  by_cases ht : t = []
  · subst ht
    have htail : s.g.tail = some a := hl.2
    have hex := on_stop_single_exec s a _ hhead htail hca
    rw [task.node_pid] at hex
    have hal : a < s.mem.length := cell_lt hca
    have hrun : (s.load s.g.head >>= fun h => sigchld_handler s [(h.pid, .stopped)]) = .ok
        { mem := s.mem.set a (some (ta.node none)), g := { head := some a, tail := some a },
          out := s.out ++ [.alarm SCHED_TQ_SEC, .kill ta.pid .SIGCONT] } := by
      simp [Machine.load, hc0, sigchld_handler, sigchld_step, hp1, hp2, hex]
      rfl
    refine ⟨_, hrun, ?_⟩
    have hrot : [(a, ta)].rotate 1 = [(a, ta)] := List.rotate_length [(a, ta)]
    rw [hrot]
    refine ⟨⟨rfl, none, ?_, rfl⟩, rfl⟩
    show cell (s.mem.set a (some (ta.node none))) (some a) = _
    rw [cell_set _ _ _ _ hal, if_pos rfl]
  · obtain ⟨s2, h1, h2, _⟩ := on_stop_head s a ta t hl ht
    refine ⟨s2, by simp [Machine.load, hc0, sigchld_handler, sigchld_step, hp1, hp2, h1], ?_⟩
    rw [List.rotate_cons_succ, List.rotate_zero]
    exact h2

/-- After `k` notifications the registry is the list rotated by `k`. -/
theorem rotations_rotate :
    ∀ (k : Nat) (s : State) (l : List (Nat × task Unit)), Holds s l → l ≠ [] →
    (∀ x ∈ l, 0 < x.2.pid) → ∃ sk, rotations s k = .ok sk ∧ Holds sk (l.rotate k)
  | 0, s, l, hl, _, _ => ⟨s, rfl, by rw [List.rotate_zero]; exact hl⟩
  | k + 1, s, l, hl, hne, hpid => by
    obtain ⟨s2, h1, h2⟩ := rotations_step s l hl hne hpid
    have hne2 : l.rotate 1 ≠ [] := fun e => hne (List.rotate_eq_nil_iff.1 e)
    obtain ⟨sk, h3, h4⟩ := rotations_rotate k s2 (l.rotate 1) h2 hne2
      (fun x hx => hpid x (List.mem_rotate.1 hx))
    refine ⟨sk, ?_, ?_⟩
    · rw [Run.bind_eq_ok] at h1
      obtain ⟨h, hh, h1⟩ := h1
      simp only [rotations, hh, Run.ok_bind, h1, h3]
    · rw [List.rotate_rotate, Nat.add_comm] at h4
      exact h4

/-- C30: in `scheduler-shell.c`, for a registry `l` of `n >= 1` tasks, the
`stopped` notification for the head handled `n` times in succession, each time
for the task that is the head then, returns each time and leaves the registry
`l` again; before the step `k + 1` the registry is `l` rotated by `k` and its
head is the cell of the task `k` of `l`, and the cells of `l` are pairwise
distinct, so each task is the head once; for `n = 1` the one step leaves `l`
with `head = tail`. -/
theorem C30_rotations_restore_order (s : State) (l : List (Nat × task Unit))
    (hl : Holds s l) (hne : l ≠ []) (hpid : ∀ x ∈ l, 0 < x.2.pid) :
    (∀ (k : Nat) (hk : k < l.length), ∃ sk, rotations s k = .ok sk ∧ Holds sk (l.rotate k) ∧
      sk.g.head = some (l.get ⟨k, hk⟩).1) ∧
    (∃ sn, rotations s l.length = .ok sn ∧ Holds sn l ∧
      (l.length = 1 → sn.g.head = sn.g.tail)) ∧
    (l.map Prod.fst).Nodup := by
  refine ⟨?_, ?_, seg_nodup _ _ hl.1⟩
  · intro k hk
    obtain ⟨sk, h1, h2⟩ := rotations_rotate k s l hl hne hpid
    refine ⟨sk, h1, h2, ?_⟩
    rw [seg_start h2.1, first, List.head?_rotate hk]
    simp [List.getElem?_eq_getElem hk]
  · obtain ⟨sn, h1, h2⟩ := rotations_rotate l.length s l hl hne hpid
    rw [List.rotate_length] at h2
    refine ⟨sn, h1, h2, ?_⟩
    intro h1l
    obtain ⟨x, rfl⟩ := List.length_eq_one.1 h1l
    rw [h2.2, seg_start h2.1]
    rfl

/-- C30 at two inputs: the three tasks of `ex3`, with pids 101, 102, 103, and
the single task of `ex1`. -/
theorem C30_witness :
    Holds ex3 [(0, ⟨101, (), 1⟩), (1, ⟨102, (), 2⟩), (2, ⟨103, (), 3⟩)] ∧
    (∃ sn, rotations ex3 3 = .ok sn ∧
      Holds sn [(0, ⟨101, (), 1⟩), (1, ⟨102, (), 2⟩), (2, ⟨103, (), 3⟩)]) ∧
    (∃ s1, rotations ex3 1 = .ok s1 ∧
      Holds s1 [(1, ⟨102, (), 2⟩), (2, ⟨103, (), 3⟩), (0, ⟨101, (), 1⟩)] ∧
      s1.g.head = some 1) ∧
    Holds ex1 [(0, ⟨107, (), 7⟩)] ∧
    (∃ sn, rotations ex1 1 = .ok sn ∧ Holds sn [(0, ⟨107, (), 7⟩)] ∧ sn.g.head = sn.g.tail) :=
  have h3 : Holds ex3 [(0, ⟨101, (), 1⟩), (1, ⟨102, (), 2⟩), (2, ⟨103, (), 3⟩)] :=
    ⟨⟨rfl, _, rfl, rfl, _, rfl, rfl, _, rfl, rfl⟩, rfl⟩
  have h1 : Holds ex1 [(0, ⟨107, (), 7⟩)] := ⟨⟨rfl, _, rfl, rfl⟩, rfl⟩
  have c3 := C30_rotations_restore_order ex3 _ h3 (by simp) (by decide)
  have c1 := C30_rotations_restore_order ex1 _ h1 (by simp) (by decide)
  ⟨h3, c3.2.1.imp (fun _ h => ⟨h.1, h.2.1⟩), c3.1 1 (by decide), h1,
    c1.2.1.imp (fun _ h => ⟨h.1, h.2.1, h.2.2 rfl⟩)⟩

end SchedulerShell

end Sched

namespace Sched

namespace SchedulerPrioLab

/-- In `c2_state`, and after any number of timer events from it, the timer
event only sets the alarm again: the RUNNING tasks are as before. -/
theorem sigalrm_idle_step (n : Nat) :
    exec (c2_idle n, [100]) .sigalrm = .ok (c2_idle (n + 1), [100]) := by
  have h1 : sigalrm_handler (c2_idle n) = .ok ((c2_idle n).emit (.alarm SCHED_TQ_SEC)) := rfl
  have h2 : (c2_idle n).emit (.alarm SCHED_TQ_SEC) = c2_idle (n + 1) := by
    simp only [c2_idle, Machine.emit, List.replicate_succ', List.append_assoc]
  simp only [exec, step, h1, Run.ok_bind, Run.pure_eq, emit_drop, before]
  rw [h2]
  rfl

theorem sigalrm_idle_run :
    ∀ (n k : Nat), exec_all (c2_idle k, [100]) (List.replicate n .sigalrm) =
      .ok (c2_idle (k + n), [100])
  | 0, k => rfl
  | n + 1, k => by
    simp only [List.replicate_succ, exec_all, sigalrm_idle_step, Run.ok_bind]
    rw [sigalrm_idle_run n (k + 1)]
    congr 3
    omega

/-- C2, what the code does at the failing input: from the shell (pid 100,
id 0) and the tasks 1 and 2, `RAISE(1)` and then `LOWER(0)` lead to a state
whose HIGH tier holds task 1 while the shell, now LOW and at the tail, is the
RUNNING task; there `head == hiend`, so `sigalrm_handler` only sets the alarm
again, and after any number of timer events the registry is the same and the
LOW shell is still the RUNNING task.  Likewise after `LOWER(2)` in `c2_after`,
where pid 102 was continued last. -/
theorem C2_low_task_runs_on :
    run (100, junk0) [(101, junk0), (102, junk0)] c2_events = .ok (c2_state, [100]) ∧
    Reachable (c2_state, [100]) ∧
    Holds c2_state [(1, ⟨101, 'h', 1⟩)] [(2, ⟨102, 'l', 2⟩), (0, ⟨100, 'l', 0⟩)] ∧
    c2_state.g.hiend ≠ none ∧ low_running (c2_state, [100]) = [100] ∧
    sigalrm_handler c2_state = .ok (c2_state.emit (.alarm SCHED_TQ_SEC)) ∧
    (∀ n : Nat,
      exec_all (c2_state, [100]) (List.replicate n .sigalrm) = .ok (c2_idle n, [100]) ∧
      Reachable (c2_idle n, [100]) ∧
      Holds (c2_idle n) [(1, ⟨101, 'h', 1⟩)] [(2, ⟨102, 'l', 2⟩), (0, ⟨100, 'l', 0⟩)] ∧
      (c2_idle n).g.hiend ≠ none ∧ low_running (c2_idle n, [100]) = [100]) ∧
    Holds c2_after [(2, ⟨102, 'h', 2⟩), (1, ⟨101, 'h', 1⟩)] [(0, ⟨100, 'l', 0⟩)] ∧
    run_effects [] c2_after.out = [102] ∧
    exec (c2_after, [102]) (.request (rq .REQ_LOW_TASK 2) 0 junk0) = .ok (c20_state, [102]) ∧
    Holds c20_state [(1, ⟨101, 'h', 1⟩)] [(0, ⟨100, 'l', 0⟩), (2, ⟨102, 'l', 2⟩)] ∧
    exec (c20_state, [102]) .sigalrm = .ok (c20_state.emit (.alarm SCHED_TQ_SEC), [102]) := by
  have hreach : Reachable (c2_state, [100]) :=
    run_reachable (100, junk0) [(101, junk0), (102, junk0)] c2_events _ rfl
  refine ⟨rfl, hreach,
    ⟨⟨rfl, _, rfl, rfl, _, rfl, rfl, _, rfl, rfl⟩, rfl, rfl, by decide, by decide⟩,
    by decide, by decide, rfl, ?_,
    ⟨⟨rfl, _, rfl, rfl, _, rfl, rfl, _, rfl, rfl⟩, rfl, rfl, by decide, by decide⟩,
    by decide, rfl,
    ⟨⟨rfl, _, rfl, rfl, _, rfl, rfl, _, rfl, rfl⟩, rfl, rfl, by decide, by decide⟩, rfl⟩
  intro n
  have hrun : exec_all (c2_state, [100]) (List.replicate n .sigalrm) =
      .ok (c2_idle n, [100]) := by
    have h := sigalrm_idle_run n 0
    rw [Nat.zero_add] at h
    exact h
  refine ⟨hrun, exec_all_reachable _ _ _ hreach hrun,
    ⟨⟨rfl, _, rfl, rfl, _, rfl, rfl, _, rfl, rfl⟩, rfl, rfl, by decide, by decide⟩, ?_, rfl⟩
  exact fun h => Option.noConfusion h

end SchedulerPrioLab

end Sched

namespace Sched

namespace SchedulerPrioLab

/-- What the two events after `LOWER` of the head do, in a well-formed registry
with `fixproblem = 1` whose last task is `z` and whose HIGH tier does not hold
exactly one task: the timer event sends `SIGSTOP` to `z`, and the `stopped`
notification of `z` then clears `fixproblem`, re-arms the timer and sends
`SIGCONT` to the head. -/
theorem deferred_stop_and_continue (s : State) (hi lo0 : List (Nat × task Char)) (z : Nat)
    (tz : task Char) (hw : Holds s hi (lo0 ++ [(z, tz)])) (hne : hi ++ lo0 ≠ [])
    (hfix : s.g.fixproblem = 1) (hlen : hi.length ≠ 1) (hpid : 0 < tz.pid) :
    sigalrm_handler s = .ok (s.emit (.kill tz.pid .SIGSTOP)) ∧
    ∃ s3, sigchld_handler (s.emit (.kill tz.pid .SIGSTOP)) [(tz.pid, .stopped)] = .ok s3 ∧
      Holds s3 hi (lo0 ++ [(z, tz)]) ∧ s3.g.fixproblem = 0 ∧
      s3.out = s.out ++ [.kill tz.pid .SIGSTOP, .alarm SCHED_TQ_SEC,
        .kill ((hi ++ lo0).head hne).2.pid .SIGCONT] := by
  obtain ⟨hseg, htail, hhe, hhi, hlo⟩ := hw
  rw [← List.append_assoc] at hseg htail
  rw [last_concat] at htail
  have hnd := seg_nodup _ _ hseg
  obtain ⟨hcz, hpre⟩ := seg_last_cell hseg
  obtain ⟨hhead, nxb, hcb⟩ := seg_head_cell hpre hne
  have hbz : (List.head (hi ++ lo0) hne).1 ≠ z := by
    intro e
    rw [List.map_append, List.nodup_append] at hnd
    apply hnd.2.2 (List.mem_map.2 ⟨_, List.head_mem hne, rfl⟩)
    rw [e]
    simp
  have hht : s.g.head ≠ s.g.tail := by
    rw [hhead, htail]
    intro e
    exact hbz (Option.some.inj e)
  have hhh : s.g.head ≠ s.g.hiend := by
    rw [hhead, hhe]
    cases hi with
    | nil => simp [last]
    | cons y hi =>
      cases hi with
      | nil => exact absurd rfl hlen
      | cons y2 hi =>
        rw [last_cons_ne _ _ (by simp)]
        intro e
        have hm := last_mem (y2 :: hi) y.1 e.symm
        simp only [List.cons_append, List.map_cons, List.map_append, List.nodup_cons,
          List.mem_cons, List.mem_append, not_or] at hnd hm
        rcases hm with h | h
        · exact hnd.1.1 h
        · exact hnd.1.2.1.1 h
  have hcond : ¬ (s.g.head = s.g.hiend ∨ (s.g.hiend = none ∧ s.g.head = s.g.tail)) := by
    intro h
    rcases h with h | h
    · exact hhh h
    · exact hht h.2
  have hct : cell s.mem s.g.tail = some (tz.node none) := by rw [htail]; exact hcz
  have hch : cell s.mem s.g.head = some (((hi ++ lo0).head hne).2.node nxb) := hcb
  have hp1 : ¬ tz.pid < 0 := by omega
  have hp2 : ¬ tz.pid = 0 := by omega
  constructor
  · simp [sigalrm_handler, hcond, hfix, Machine.load, hct]
  · have hrun : sigchld_handler (s.emit (.kill tz.pid .SIGSTOP)) [(tz.pid, .stopped)] = .ok
        { mem := s.mem,
          g := { head := s.g.head, tail := s.g.tail, hiend := s.g.hiend, fixproblem := 0 },
          out := s.out ++ [.kill tz.pid .SIGSTOP, .alarm SCHED_TQ_SEC,
            .kill ((hi ++ lo0).head hne).2.pid .SIGCONT] } := by
      simp [sigchld_handler, sigchld_step, on_stop, hp1, hp2, Machine.emit, Machine.setg,
        Machine.load, hfix, hch]
    refine ⟨_, hrun, ⟨?_, ?_, hhe, hhi, hlo⟩, rfl, rfl⟩
    · rw [← List.append_assoc]
      exact hseg
    · show s.g.tail = _
      rw [htail, ← List.append_assoc, last_concat]

/-- C20, amended: in `scheduler-prio-lab.c`, for a well-formed registry whose
head is HIGH with id `x` and which holds another task, `LOWER(x)` returns 0 and
sends no signal: the head becomes LOW and goes to the end of the list, the task
behind it becomes the head, and `fixproblem` is set to 1.  When the HIGH tasks
that remain are not exactly one, the timer event that follows sends `SIGSTOP`
to the demoted task, and the `stopped` notification of that task then clears
`fixproblem`, re-arms the timer and sends `SIGCONT` to the new head, the first
HIGH task if one remains, else the first LOW task; the registry is as `LOWER`
left it. -/
theorem C20_lower_running_head_defers (s : State) (a : Nat) (x : task Char)
    (hi lo : List (Nat × task Char)) (hw : Holds s ((a, x) :: hi) lo) (hne : hi ++ lo ≠ [])
    (p : Int) (junk : process_node Char) :
    ∃ s2, process_request s (rq .REQ_LOW_TASK x.id) p junk = .ok (s2, 0) ∧
      Holds s2 hi (lo ++ [(a, { x with prio := 'l' })]) ∧ s2.out = s.out ∧
      s2.g.fixproblem = 1 ∧ s2.g.head = first (hi ++ lo) ∧
      (hi.length ≠ 1 → 0 < x.pid →
        sigalrm_handler s2 = .ok (s2.emit (.kill x.pid .SIGSTOP)) ∧
        ∃ s4, sigchld_handler (s2.emit (.kill x.pid .SIGSTOP)) [(x.pid, .stopped)] = .ok s4 ∧
          Holds s4 hi (lo ++ [(a, { x with prio := 'l' })]) ∧ s4.g.fixproblem = 0 ∧
          s4.out = s.out ++ [.kill x.pid .SIGSTOP, .alarm SCHED_TQ_SEC,
            .kill ((hi ++ lo).head hne).2.pid .SIGCONT]) := by
  have hw0 := hw
  obtain ⟨hseg, htail, hhe, hhi, hlo⟩ := hw
  have hseg : Seg s.mem s.g.head ((a, x) :: (hi ++ lo)) none := hseg
  have htail : s.g.tail = last ((a, x) :: (hi ++ lo)) := htail
  obtain ⟨l0, ⟨z, tz⟩, hl⟩ := exists_snoc (hi ++ lo) hne
  rw [hl] at hseg htail
  have hnd := seg_nodup _ _ hseg
  obtain ⟨hhead, hca⟩ := seg_head_next hseg
  have hseg2 : Seg s.mem s.g.head (((a, x) :: l0) ++ [(z, tz)]) none := hseg
  obtain ⟨hcz, _⟩ := seg_last_cell hseg2
  rw [← List.cons_append, last_concat] at htail
  simp only [List.map_cons, List.map_append, List.map_nil, List.nodup_cons, List.mem_append,
    List.mem_singleton, not_or] at hnd
  have haz : a ≠ z := hnd.1.2
  have hhe0 : s.g.hiend ≠ none := by
    rw [hhe]
    exact last_ne_none _ (by simp)
  have e := low_head_exec s a z _ _ hhead htail hhe0 hca hcz haz
  simp only [task.node_id, task.node_next] at e
  have hrot := seg_rotate (seg_retask_head hseg ({ x with prio := 'l' } : task Char))
  have hw2 : Holds
      { mem := ((s.mem.set a (some { x.node (first (l0 ++ [(z, tz)])) with prio := 'l' })).set z
            (some { tz.node none with next := some a })).set a
            (some { x.node (first (l0 ++ [(z, tz)])) with prio := 'l', next := none }),
        g := { head := first (l0 ++ [(z, tz)]), tail := some a,
               hiend := if some a = s.g.hiend then none else s.g.hiend, fixproblem := 1 },
        out := s.out } hi (lo ++ [(a, { x with prio := 'l' })]) := by
    refine ⟨?_, ?_, ?_, ?_, ?_⟩
    · rw [← List.append_assoc, hl]
      exact hrot
    · rw [← List.append_assoc, last_concat]
    · show (if some a = s.g.hiend then none else s.g.hiend) = last hi
      cases hi with
      | nil =>
        have : s.g.hiend = some a := hhe
        simp [this, last]
      | cons y hi =>
        rw [last_cons_ne _ _ (by simp)] at hhe
        have hne2 : some a ≠ s.g.hiend := by
          intro e2
          have hm := last_mem (y :: hi) a (by rw [← hhe, e2])
          have hm2 : a ∈ (l0 ++ [(z, tz)]).map Prod.fst := by
            rw [← hl]
            simp only [List.map_append, List.mem_append]
            exact Or.inl hm
          simp only [List.map_append, List.map_cons, List.map_nil, List.mem_append,
            List.mem_singleton] at hm2
          rcases hm2 with h | h
          · exact hnd.1.1 h
          · exact haz h
        rw [if_neg hne2]
        exact hhe
    · intro y hy
      exact hhi y (List.mem_cons_of_mem _ hy)
    · intro y hy
      rcases List.mem_append.1 hy with h | h
      · exact hlo y h
      · simp only [List.mem_singleton] at h
        subst h
        rfl
  simp only [process_request, rq, e, Run.ok_bind, Run.pure_eq]
  refine ⟨_, rfl, hw2, rfl, rfl, by rw [hl], ?_⟩
  intro hlen hpid
  exact deferred_stop_and_continue _ hi lo a { x with prio := 'l' } hw2 hne rfl hlen hpid

/-- C20 as stated fails: `RAISE(1)` and `RAISE(2)` take the scheduler to
`c19_before`, where every task is HIGH and the head, the shell (pid 100), is
the RUNNING task; `LOWER(0)` returns 0 with nothing sent: pid 100 is still the
only RUNNING task, although task 1 is now the head of the list. -/
theorem C20_counterexample :
    run (100, junk0) [(101, junk0), (102, junk0)] c19_events = .ok (c19_before, [100]) ∧
    Holds c19_before [(0, ⟨100, 'h', 0⟩), (1, ⟨101, 'h', 1⟩), (2, ⟨102, 'h', 2⟩)] [] ∧
    process_request c19_before (rq .REQ_LOW_TASK 0) 0 junk0 = .ok (c20_deferred, 0) ∧
    c20_deferred.out = c19_before.out ∧
    exec (c19_before, [100]) (.request (rq .REQ_LOW_TASK 0) 0 junk0) =
      .ok (c20_deferred, [100]) ∧
    Holds c20_deferred [(1, ⟨101, 'h', 1⟩), (2, ⟨102, 'h', 2⟩)] [(0, ⟨100, 'l', 0⟩)] :=
  ⟨rfl, ⟨⟨rfl, _, rfl, rfl, _, rfl, rfl, _, rfl, rfl⟩, rfl, rfl, by decide, by decide⟩,
    rfl, rfl, rfl,
    ⟨⟨rfl, _, rfl, rfl, _, rfl, rfl, _, rfl, rfl⟩, rfl, rfl, by decide, by decide⟩⟩

/-- C20, amended, at an input: `LOWER(0)` in `c19_before`, where the tasks 1
and 2 remain HIGH: nothing is sent by the request; the timer event then sends
`SIGSTOP` to pid 100, and the `stopped` notification of pid 100 re-arms the
timer and sends `SIGCONT` to pid 101. -/
theorem C20_witness :
    Holds c19_before ((0, ⟨100, 'h', 0⟩) :: [(1, ⟨101, 'h', 1⟩), (2, ⟨102, 'h', 2⟩)]) [] ∧
    ∃ s2, process_request c19_before (rq .REQ_LOW_TASK 0) 0 junk0 = .ok (s2, 0) ∧
      Holds s2 [(1, ⟨101, 'h', 1⟩), (2, ⟨102, 'h', 2⟩)] ([] ++ [(0, ⟨100, 'l', 0⟩)]) ∧
      s2.out = c19_before.out ∧ s2.g.fixproblem = 1 ∧
      sigalrm_handler s2 = .ok (s2.emit (.kill 100 .SIGSTOP)) ∧
      ∃ s4, sigchld_handler (s2.emit (.kill 100 .SIGSTOP)) [(100, .stopped)] = .ok s4 ∧
        Holds s4 [(1, ⟨101, 'h', 1⟩), (2, ⟨102, 'h', 2⟩)] ([] ++ [(0, ⟨100, 'l', 0⟩)]) ∧
        s4.g.fixproblem = 0 ∧
        s4.out = c19_before.out ++ [.kill 100 .SIGSTOP, .alarm SCHED_TQ_SEC,
          .kill 101 .SIGCONT] :=
  have hw : Holds c19_before
      ((0, ⟨100, 'h', 0⟩) :: [(1, ⟨101, 'h', 1⟩), (2, ⟨102, 'h', 2⟩)]) [] :=
    ⟨⟨rfl, _, rfl, rfl, _, rfl, rfl, _, rfl, rfl⟩, rfl, rfl, by decide, by decide⟩
  ⟨hw, (C20_lower_running_head_defers c19_before 0 ⟨100, 'h', 0⟩ _ _ hw (by simp) 0 junk0).imp
    (fun _ h => ⟨h.1, h.2.1, h.2.2.1, h.2.2.2.1,
      (h.2.2.2.2.2 (by decide) (by decide)).1, (h.2.2.2.2.2 (by decide) (by decide)).2⟩)⟩

end SchedulerPrioLab

end Sched
